import Mathlib

/-!
# FoodHub storefront (`script.js`): cart, promo codes and checkout

A shallow embedding of the cart / promo / checkout logic of `script.js`.

Modelling conventions.

* A JavaScript number is a binary64 value, a rational number, and `NaN` and the infinities
  are outside the model.  Amounts of money (`price`, subtotal, tax, total, discount) have the
  type `ℚ`.  The rounding of every arithmetic result to binary64 is the function `binary64`;
  the definitions whose name ends in `Fl`, and `generateOTP`, `payAndComplete` and
  `twoItemCheckout`, take the rounding as a parameter `fl` and are what the host computes
  for `fl = binary64`.  The definitions without it (`calculateSubtotal`, `updateCartUI`,
  `applyPromoCode`, `buildOrder`, `generateReceipt`, `showPaymentModal`) are the same
  expressions without the rounding, the instance `fl = id`; statements over them relate one
  expression of the code to the amounts it is built from, or do not depend on amounts.
  Statements that compare the code with an exact value, or two computations of one amount
  with each other, are over `binary64`.
* Quantities and loyalty points only ever receive `+1`, `-1` and `Math.floor` results and
  are integers `ℤ`.
* The module-scoped `let cart = []` is a `List LineItem`.  Every element of the array is an
  object created by its own `cart.push({...})`, so the array never holds the same object
  twice and an object reference is the same thing as a position in the list.  Handlers that
  close over an `item` object are therefore indexed by the position of that object.
* Text that is only formatted for display (`toFixed(2)`, the currency prefix) is modelled by
  the number handed to the formatter.
-/

namespace FoodHub

/-! ## Data model -/

/-- One entry of the `cart` array: the object literal pushed at `script.js` lines 362-366. -/
structure LineItem where
  name : String
  price : ℚ
  quantity : ℤ
deriving DecidableEq, Repr

/-- The module-scoped `cart` array. -/
abbrev Cart := List LineItem

/-! ## Array helpers -/

/-- `Array.prototype.findIndex`: position of the first element satisfying `p`, `none` for
the JavaScript result `-1`.  `Array.prototype.find` returns the element at that position. -/
def findIndex {α : Type} (p : α → Bool) : List α → Option Nat
  | [] => none
  | x :: xs => if p x then some 0 else (findIndex p xs).map (fun i => i + 1)

/-- In-place update of the object stored at position `i` (no effect past the end). -/
def modifyAt {α : Type} (f : α → α) : List α → Nat → List α
  | [], _ => []
  | x :: xs, 0 => f x :: xs
  | x :: xs, i + 1 => x :: modifyAt f xs i

/-! ## Cart operations -/

/-- Body of the add-to-cart click handler once `name` and `price` have been read from the
card (`script.js` lines 357-367): `cart.find` by name, then `existingItem.quantity++` on the
object found, or `cart.push` of a fresh line item with quantity 1. -/
def addItem (cart : Cart) (name : String) (price : ℚ) : Cart :=
  match findIndex (fun item => item.name == name) cart with
  | some i => modifyAt (fun existingItem => { existingItem with quantity := existingItem.quantity + 1 }) cart i
  | none => cart ++ [⟨name, price, 1⟩]

/-- The `plusBtn` click handler of the line item rendered at position `i`
(`script.js` lines 412-415): `item.quantity++`. -/
def plusBtnClick (cart : Cart) (i : Nat) : Cart :=
  modifyAt (fun item => { item with quantity := item.quantity + 1 }) cart i

/-- The `minusBtn` click handler of the line item rendered at position `i`
(`script.js` lines 417-423): `item.quantity--`, then, when the new quantity is `<= 0`,
`cart = cart.filter(cartItem => cartItem !== item)`, which drops exactly that object.
A position past the end has no rendered button and leaves the cart alone. -/
def minusBtnClick (cart : Cart) (i : Nat) : Cart :=
  match cart[i]? with
  | none => cart
  | some item =>
    if item.quantity - 1 ≤ 0 then cart.eraseIdx i
    else modifyAt (fun it => { it with quantity := it.quantity - 1 }) cart i

/-- The function `calculateSubtotal` (`script.js` lines 315-317):
`cart.reduce((sum, item) => sum + (item.price * item.quantity), 0)`. -/
def calculateSubtotal (cart : Cart) : ℚ :=
  cart.foldl (fun sum item => sum + item.price * (item.quantity : ℚ)) 0

/-- Cart well-formedness: names pairwise distinct and every quantity at least 1. -/
def WellFormed (cart : Cart) : Prop :=
  (cart.map LineItem.name).Nodup ∧ ∀ item ∈ cart, 1 ≤ item.quantity

instance (cart : Cart) : Decidable (WellFormed cart) := by
  unfold WellFormed; infer_instance

/-- Carts that the handlers can produce from the initial `let cart = []`. -/
inductive Reachable : Cart → Prop
  | init : Reachable []
  | add (cart : Cart) (name : String) (price : ℚ) :
      Reachable cart → Reachable (addItem cart name price)
  | plus (cart : Cart) (i : Nat) : Reachable cart → i < cart.length →
      Reachable (plusBtnClick cart i)
  | minus (cart : Cart) (i : Nat) : Reachable cart → i < cart.length →
      Reachable (minusBtnClick cart i)
  | clear (cart : Cart) : Reachable cart → Reachable []

/-! ## Persistent store -/

/-- An entry of the `orders` history: the `orderObj` literal of `generateReceipt`
(`script.js` lines 1027-1034). -/
structure Order where
  id : String
  date : String
  items : List LineItem
  subtotal : ℚ
  tax : ℚ
  total : ℚ
deriving DecidableEq, Repr

/-- A user record as it comes back from `JSON.parse`.  Every field may be missing from the
stored object (`undefined`), which is `none`. -/
structure Account where
  email : Option String
  password : Option String
  points : Option ℤ
  orders : Option (List Order)
  createdAt : Option String
deriving DecidableEq, Repr

/-- What `JSON.parse` yields for a key the code uses as an array: an array, or some other
JSON value on which `findIndex` / `unshift` are not functions. -/
inductive ArrayJson (α : Type) where
  | notArray
  | array (elems : List α)
deriving DecidableEq, Repr

/-- One `localStorage` key: missing (`getItem` gives `null`), text that `JSON.parse` rejects,
or text that parses to `v`. -/
inductive Stored (α : Type) where
  | absent
  | corrupt
  | parsed (v : α)
deriving DecidableEq, Repr

/-- The `localStorage` keys read and written by the checkout flow: `foodhub-users`,
`foodhub-current-user` and `foodhub-orders`.  A `Writable` flag that is `false` is a key whose
`setItem` throws (quota exceeded, storage disabled). -/
structure Storage where
  users : Stored (ArrayJson Account)
  currentUser : Stored Account
  orders : Stored (ArrayJson Order)
  usersWritable : Bool
  currentUserWritable : Bool
  ordersWritable : Bool
deriving DecidableEq, Repr

/-- The exception a failed property access raises. -/
inductive JsError where
  | typeError
deriving DecidableEq, Repr

/-- Text of the `#promo-message` element. -/
inductive PromoMessage where
  | blank
  | enterCode
  | applied (description : String) (discountAmount : ℚ)
  | invalid (code : String)
deriving DecidableEq, Repr

/-- The parts of the page the cart and promo code write to: the number shown in
`#total-amount`, the cart counter, the promo message with its `success` / `error` classes and
the `disabled` flag of the promo input. -/
structure View where
  total : ℚ
  cartCount : ℤ
  promoMessage : PromoMessage
  promoSuccess : Bool
  promoError : Bool
  promoInputDisabled : Bool
deriving DecidableEq, Repr

/-- The state the handlers act on. -/
structure State where
  cart : Cart
  storage : Storage
  view : View
deriving DecidableEq, Repr

/-- The function `getUsers` (`script.js` lines 34-36). -/
def getUsers (s : Storage) : ArrayJson Account :=
  match s.users with
  | .absent => .array []
  | .corrupt => .array []
  | .parsed v => v

/-- The function `saveUsers` (`script.js` lines 38-40); a failing `setItem` is caught. -/
def saveUsers (s : Storage) (users : List Account) : Storage :=
  if s.usersWritable then { s with users := .parsed (.array users) } else s

/-- The function `getLoggedInUser` (`script.js` lines 48-50). -/
def getLoggedInUser (s : Storage) : Option Account :=
  match s.currentUser with
  | .absent => none
  | .corrupt => none
  | .parsed user => some user

/-- `users.findIndex(u => u.email.toLowerCase() === target)` of `saveUser`: reading
`toLowerCase` of a missing email raises a `TypeError`, which ends the search. -/
def findIndexByEmail (toLowerCase : String → String) (target : String) :
    List Account → Except JsError (Option Nat)
  | [] => .ok none
  | u :: rest =>
    match u.email with
    | none => .error .typeError
    | some e =>
      if toLowerCase e = target then .ok (some 0)
      else
        match findIndexByEmail toLowerCase target rest with
        | .error err => .error err
        | .ok r => .ok (r.map (fun i => i + 1))

/-- The function `saveUser` (`script.js` lines 52-59).  `.error` is an exception that leaves
the function; nothing has been written when it is raised. -/
def saveUser (toLowerCase : String → String) (s : Storage) (user : Account) :
    Except JsError Storage :=
  match user.email with
  | none => .ok s
  | some email =>
    if email = "" then .ok s
    else
      match getUsers s with
      | .notArray => .error .typeError
      | .array users =>
        match findIndexByEmail toLowerCase (toLowerCase email) users with
        | .error err => .error err
        | .ok idx =>
          let users1 :=
            match idx with
            | some i => users.set i user
            | none => users ++ [user]
          let s1 := saveUsers s users1
          .ok (if s1.currentUserWritable then { s1 with currentUser := .parsed user } else s1)

/-- The function `saveOrderToHistory` (`script.js` lines 1061-1071).  The whole body sits in
one `try`, so a value that does not parse, a value without `unshift`, and a failing `setItem`
all end in the `catch` with nothing written. -/
def saveOrderToHistory (s : Storage) (order : Order) : Storage :=
  match s.orders with
  | .corrupt => s
  | .parsed .notArray => s
  | .absent =>
    if s.ordersWritable then { s with orders := .parsed (.array ([order].take 100)) } else s
  | .parsed (.array existing) =>
    if s.ordersWritable then
      { s with orders := .parsed (.array ((order :: existing).take 100)) }
    else s

/-! ## Cart display and promo codes -/

/-- The cart-dependent writes of `updateCartUI` (`script.js` lines 376-451): the running
`total` shown in `#total-amount` and the cart counter. -/
def updateCartUI (st : State) : State :=
  { st with view :=
      { st.view with
        total := st.cart.foldl (fun total item => total + item.price * (item.quantity : ℚ)) 0
        cartCount := st.cart.foldl (fun sum it => sum + it.quantity) 0 } }

/-- The add-to-cart click handler on the state (`script.js` lines 357-369). -/
def addToCartClick (st : State) (name : String) (price : ℚ) : State :=
  updateCartUI { st with cart := addItem st.cart name price }

/-- The function `updateCartTotal` (`script.js` lines 320-327). -/
def updateCartTotal (st : State) (discount : ℚ) : State :=
  { st with view := { st.view with total := calculateSubtotal st.cart - discount } }

/-- A row of the `validCodes` table. -/
structure PromoData where
  discount : ℚ
  description : String
deriving DecidableEq, Repr

/-- The lookup `validCodes[upperCode]` in the object literal of `applyPromoCode`
(`script.js` lines 266-271).  The keys inherited from `Object.prototype` all contain
lower-case letters, so no result of `toUpperCase` names one of them. -/
def validCodes (upperCode : String) : Option PromoData :=
  if upperCode = "SAVE20" then some ⟨20, "20% off"⟩
  else if upperCode = "WELCOME10" then some ⟨10, "10% off"⟩
  else if upperCode = "FOODIE15" then some ⟨15, "15% off"⟩
  else if upperCode = "FIRSTORDER50" then some ⟨50, "50% off"⟩
  else none

/-- The function `applyPromoCode` (`script.js` lines 261-312).  `String.prototype.toUpperCase`
is a host function and is a parameter. -/
def applyPromoCode (toUpperCase : String → String) (st : State) (code : String) : State :=
  if code = "" then
    { st with view :=
        { st.view with promoMessage := .enterCode, promoSuccess := false, promoError := false } }
  else
    let upperCode := toUpperCase code
    match validCodes upperCode with
    | some promoData =>
      let subtotal := calculateSubtotal st.cart
      let discountAmount := (subtotal * promoData.discount) / 100
      let st1 : State :=
        { st with view :=
            { st.view with
              promoMessage := .applied promoData.description discountAmount
              promoSuccess := true
              promoError := false } }
      let st2 := updateCartTotal st1 discountAmount
      { st2 with view := { st2.view with promoInputDisabled := true } }
    | none =>
      let st1 : State :=
        { st with view :=
            { st.view with
              promoMessage := .invalid code
              promoError := true
              promoSuccess := false } }
      updateCartTotal st1 0

/-- ASCII upper-casing, the restriction of `toUpperCase` to ASCII text. -/
def asciiUpper (s : String) : String := String.mk (s.data.map Char.toUpper)

/-- ASCII lower-casing, the restriction of `toLowerCase` to ASCII text. -/
def asciiLower (s : String) : String := String.mk (s.data.map Char.toLower)

/-! ## Checkout -/

/-- What `onCheckoutClick` does next. -/
inductive CheckoutStep where
  | redirectToLogin
  | emptyCartAlert
  | showPaymentModal
deriving DecidableEq, Repr

/-- The function `onCheckoutClick` (`script.js` lines 1214-1232). -/
def onCheckoutClick (st : State) : State × CheckoutStep :=
  match getLoggedInUser st.storage with
  | none => (st, .redirectToLogin)
  | some _ =>
    if st.cart.length = 0 then (st, .emptyCartAlert)
    else (st, .showPaymentModal)

/-- How a call of `generateReceipt` ends. -/
inductive ReceiptResult where
  | emptyCart
  | placed (order : Order)
  | threw (order : Order)
deriving DecidableEq, Repr

/-- The order object built by `generateReceipt` (`script.js` lines 963-965 and 1027-1034);
`orderId` is the random id and `date` the ISO timestamp. -/
def buildOrder (cart : Cart) (orderId date : String) : Order :=
  let subtotal := calculateSubtotal cart
  let tax := subtotal * (1 / 10)
  let total := subtotal + tax
  { id := orderId
    date := date
    items := cart.map (fun i => ⟨i.name, i.price, i.quantity⟩)
    subtotal := subtotal
    tax := tax
    total := total }

/-- The function `generateReceipt` (`script.js` lines 921-1056), without the receipt window.
`.threw` is the run in which `saveUser` raises: the exception leaves `generateReceipt` before
`cart = []`, after the history has been written. -/
def generateReceipt (toLowerCase : String → String) (st : State) (orderId date : String) :
    State × ReceiptResult :=
  if st.cart.length = 0 then (st, .emptyCart)
  else
    let subtotal := calculateSubtotal st.cart
    let currentUser := getLoggedInUser st.storage
    let pointsEarned : ℤ := ⌊subtotal / 1000⌋
    let orderObj := buildOrder st.cart orderId date
    let storage1 := saveOrderToHistory st.storage orderObj
    match currentUser with
    | none =>
      (updateCartUI { st with cart := [], storage := storage1 }, .placed orderObj)
    | some user =>
      let user1 : Account :=
        { user with
          orders := some (orderObj :: user.orders.getD [])
          points := some (user.points.getD 0 + pointsEarned) }
      match saveUser toLowerCase storage1 user1 with
      | .error _ => ({ st with storage := storage1 }, .threw orderObj)
      | .ok storage2 =>
        (updateCartUI { st with cart := [], storage := storage2 }, .placed orderObj)

/-- The orders held under `foodhub-orders`. -/
def historyOrders (s : Storage) : List Order :=
  match s.orders with
  | .parsed (.array h) => h
  | _ => []

/-- The orders held by the accounts of the directory and by the session account. -/
def accountOrders (s : Storage) : List Order :=
  (match s.users with
    | .parsed (.array users) => users.flatMap (fun u => u.orders.getD [])
    | _ => [])
  ++
  (match s.currentUser with
    | .parsed user => user.orders.getD []
    | _ => [])

/-- No recorded order has an empty item list. -/
def NoEmptyOrder (s : Storage) : Prop :=
  ∀ o ∈ historyOrders s ++ accountOrders s, o.items ≠ []

/-! ## Quantity buttons on the state -/

/-- The `plusBtn` click handler with its `updateCartUI()` call (`script.js` lines 412-415). -/
def plusClick (st : State) (i : Nat) : State :=
  updateCartUI { st with cart := plusBtnClick st.cart i }

/-- The `minusBtn` click handler with its `updateCartUI()` call (`script.js` lines 417-423). -/
def minusClick (st : State) (i : Nat) : State :=
  updateCartUI { st with cart := minusBtnClick st.cart i }

/-! ## Payment modal -/

/-- The `value` of a `pmethod` radio button of the payment modal. -/
inductive PaymentMethod where
  | card
  | mobile
  | cash
deriving DecidableEq, Repr

/-- The number `+x.toFixed(2)`: `x` rounded to two decimals, a tie going away from zero. -/
def round2 (x : ℚ) : ℚ :=
  if x < 0 then -(((⌊-x * 100 + 1 / 2⌋ : ℤ) : ℚ) / 100)
  else ((⌊x * 100 + 1 / 2⌋ : ℤ) : ℚ) / 100

/-- `String.prototype.length`: the number of UTF-16 code units. -/
def jsLength (s : String) : Nat :=
  (s.data.map (fun c => if c.toNat < 65536 then 1 else 2)).sum

/-- The payment modal built by `showPaymentModal`: the quoted amounts, the checked `pmethod`
radio (`none` when no radio is checked), the text of the card-number input, the `disabled`
flags of the three buttons and whether the processing status is shown. -/
structure PaymentModal where
  subtotal : ℚ
  tax : ℚ
  total : ℚ
  checked : Option PaymentMethod
  cardNumber : String
  payDisabled : Bool
  cancelDisabled : Bool
  closeDisabled : Bool
  statusShown : Bool
deriving DecidableEq, Repr

/-- The modal as `showPaymentModal` creates it (`script.js` lines 1120-1163): amounts rounded
by `toFixed(2)`, the card radio checked, empty inputs, nothing disabled. -/
def showPaymentModal (st : State) : PaymentModal :=
  let subtotal := calculateSubtotal st.cart
  let tax := round2 (subtotal * (1 / 10))
  let total := round2 (subtotal + tax)
  { subtotal := subtotal
    tax := tax
    total := total
    checked := some .card
    cardNumber := ""
    payDisabled := false
    cancelDisabled := false
    closeDisabled := false
    statusShown := false }

/-- What the pay handler does after its validation. -/
inductive PayStep where
  | rejected
  | processing
deriving DecidableEq, Repr

/-- The synchronous part of the `payBtn` click handler (`script.js` lines 1181-1191): the
method is the checked radio or `'card'`; for `'card'` a trimmed card number shorter than 8
ends the handler with an alert; otherwise the three buttons are disabled and the status is
shown.  `String.prototype.trim` is a host function and is a parameter. -/
def payBtnClick (trim : String → String) (st : State) (m : PaymentModal) :
    State × PaymentModal × PayStep :=
  let method := m.checked.getD .card
  if method = .card ∧ jsLength (trim m.cardNumber) < 8 then (st, m, .rejected)
  else
    (st,
      { m with payDisabled := true, cancelDisabled := true, closeDisabled := true,
               statusShown := true },
      .processing)

/-! ## Account directory -/

/-- The function `findUserByEmail` (`script.js` lines 42-46).  `.error` is the `TypeError` of
`users.find` on a stored directory that is not an array. -/
def findUserByEmail (toLowerCase : String → String) (s : Storage) (email : String) :
    Except JsError (Option Account) :=
  if email = "" then .ok none
  else
    match getUsers s with
    | .notArray => .error .typeError
    | .array users =>
      .ok (users.find? (fun u =>
        match u.email with
        | none => false
        | some e => e != "" && toLowerCase e == toLowerCase email))

/-- How the validation of the signup form ends. -/
inductive SignupStep where
  | missingField
  | passwordMismatch
  | duplicateEmail
  | otpChallenge (email password : String)
deriving DecidableEq, Repr

/-- The validation of the signup submit handler (`script.js` lines 1457-1470): the three
alerts, or `showOTPModal(email, ...)` for the trimmed email. -/
def signupSubmit (trim toLowerCase : String → String) (s : Storage)
    (emailInput password confirm : String) : Except JsError (Storage × SignupStep) :=
  let email := trim emailInput
  if email = "" ∨ password = "" then .ok (s, .missingField)
  else if password ≠ confirm then .ok (s, .passwordMismatch)
  else
    match findUserByEmail toLowerCase s email with
    | .error err => .error err
    | .ok (some _) => .ok (s, .duplicateEmail)
    | .ok none => .ok (s, .otpChallenge email password)

/-- Every account of the directory has an `email` field. -/
def AllHaveEmail (users : List Account) : Prop :=
  ∀ u ∈ users, u.email ≠ none

/-- The emails of the directory are pairwise distinct when lower-cased. -/
def DistinctEmails (toLowerCase : String → String) (users : List Account) : Prop :=
  (users.map (fun u => u.email.map toLowerCase)).Nodup

/-- The directory `saveUser` writes back: the entry found by email is replaced, or the
account is pushed at the end. -/
def upsertAt (users : List Account) (idx : Option Nat) (user : Account) : List Account :=
  match idx with
  | some i => users.set i user
  | none => users ++ [user]

/-- The account `generateReceipt` hands to `saveUser` (`script.js` lines 1040-1046): the order
put in front of the account's order list and the earned points added, a missing list
counting as empty and missing points as 0. -/
def awardedAccount (user : Account) (order : Order) (pointsEarned : ℤ) : Account :=
  { user with
    orders := some (order :: user.orders.getD [])
    points := some (user.points.getD 0 + pointsEarned) }

/-- ASCII trimming, the restriction of `trim` to ASCII white space. -/
def asciiTrim (s : String) : String :=
  String.mk (((s.data.dropWhile Char.isWhitespace).reverse.dropWhile Char.isWhitespace).reverse)

/-! ## Login and one-time passcode -/

/-- How the validation of the login form ends. -/
inductive LoginStep where
  | invalidCredentials
  | otpChallenge (email : String) (user : Account)
deriving DecidableEq, Repr

/-- The validation of the login submit handler (`script.js` lines 1487-1500): the alert
`'Invalid email or password'`, or `showOTPModal(email, ...)` with the account found. -/
def loginSubmit (trim toLowerCase : String → String) (s : Storage)
    (emailInput password : String) : Except JsError (Storage × LoginStep) :=
  let email := trim emailInput
  match findUserByEmail toLowerCase s email with
  | .error err => .error err
  | .ok none => .ok (s, .invalidCredentials)
  | .ok (some user) =>
    if user.password ≠ some password then .ok (s, .invalidCredentials)
    else .ok (s, .otpChallenge email user)

/-- `Number.prototype.toString` on an integer: the decimal digits, most significant first,
with a minus sign for a negative value. -/
def intToString (z : ℤ) : String :=
  if z = 0 then "0"
  else if z < 0 then String.mk ('-' :: ((Nat.digits 10 z.natAbs).reverse.map Nat.digitChar))
  else String.mk ((Nat.digits 10 z.natAbs).reverse.map Nat.digitChar)

/-- The function `generateOTP` (`script.js` lines 1335-1338):
`Math.floor(Math.random() * 9000 + 1000).toString()`.  `r` is the draw of `Math.random()` and
`fl` the rounding the host applies to the product and to the sum. -/
def generateOTP (fl : ℚ → ℚ) (r : ℚ) : String :=
  intToString ⌊fl (fl (r * 9000) + 1000)⌋

/-- The OTP modal of `showOTPModal`: the code held by the closure, the text of `#otp-input`,
whether the error line is shown and whether the modal is still in the document. -/
structure OtpModal where
  otp : String
  input : String
  errorShown : Bool
  attached : Bool
deriving DecidableEq, Repr

/-- The modal as `showOTPModal` creates it (`script.js` lines 1340-1376) for the draw `r`
under the rounding `fl`; the same code is put under the session-scoped key `pending-otp`. -/
def showOTPModal (fl : ℚ → ℚ) (r : ℚ) : OtpModal :=
  { otp := generateOTP fl r, input := "", errorShown := false, attached := true }

/-- The submit handler of the OTP modal (`script.js` lines 1379-1390).  The second component
is the argument of the `onVerify` call, `none` when `onVerify` is not called. -/
def otpSubmitClick (trim : String → String) (m : OtpModal) : OtpModal × Option Bool :=
  if trim m.input = m.otp then ({ m with attached := false }, some true)
  else ({ m with errorShown := true, input := "" }, none)

/-- The cancel handler and the overlay-click handler of the OTP modal
(`script.js` lines 1398-1409): `modal.remove(); onVerify(false)`. -/
def otpCancelClick (m : OtpModal) : OtpModal × Option Bool :=
  ({ m with attached := false }, some false)

/-- The user types `text` into `#otp-input` and clicks Verify. -/
def otpAttempt (trim : String → String) (m : OtpModal) (text : String) :
    OtpModal × Option Bool :=
  otpSubmitClick trim { m with input := text }

/-- A sequence of attempts on the same modal, one typed text after the other. -/
def otpAttempts (trim : String → String) (m : OtpModal) (texts : List String) : OtpModal :=
  texts.foldl (fun modal text => (otpAttempt trim modal text).1) m

/-- The `onVerify` callback of the signup handler (`script.js` lines 1470-1480); `createdAt`
is the ISO timestamp. -/
def signupVerified (toLowerCase : String → String) (s : Storage)
    (email password createdAt : String) (verified : Bool) : Except JsError Storage :=
  if verified then
    let user : Account := ⟨some email, some password, some 0, some [], some createdAt⟩
    match saveUser toLowerCase s user with
    | .error err => .error err
    | .ok s1 => .ok (if s1.currentUserWritable then { s1 with currentUser := .parsed user } else s1)
  else .ok s

/-- The `onVerify` callback of the login handler (`script.js` lines 1500-1507); `user` is the
account found by the validation. -/
def loginVerified (s : Storage) (user : Account) (verified : Bool) : Storage :=
  if verified then
    (if s.currentUserWritable then { s with currentUser := .parsed user } else s)
  else s

/-! ## Guarded reads -/

/-- The function `loadOrdersFromHistory` (`script.js` lines 1073-1079). -/
def loadOrdersFromHistory (s : Storage) : ArrayJson Order :=
  match s.orders with
  | .absent => .array []
  | .corrupt => .array []
  | .parsed v => v

/-- The `favorites` variable and the `foodhub-favorites` key. -/
structure FavoritesState where
  favorites : ArrayJson String
  stored : Stored (ArrayJson String)
deriving DecidableEq, Repr

/-- The function `loadFavorites` (`script.js` lines 93-102): a missing value gives `[]`, a
value that does not parse gives `[]` and is removed from the store. -/
def loadFavorites (stored : Stored (ArrayJson String)) : FavoritesState :=
  match stored with
  | .absent => { favorites := .array [], stored := .absent }
  | .corrupt => { favorites := .array [], stored := .absent }
  | .parsed v => { favorites := v, stored := .parsed v }

/-! ## Menu filters and combo suggestions -/

/-- `String.prototype.includes`: `sub` occurs in `s` as a contiguous run of characters. -/
def includes (s sub : String) : Bool :=
  decide (sub.data <:+: s.data)

/-- What `applyFilters` reads from a menu card: `dataset.category`, the text of `h3` and of
`p`, the number parsed from `.price`, and `dataset.dietaryTags`, a missing text being `''`. -/
structure MenuCard where
  category : String
  title : String
  desc : String
  price : ℚ
  dietaryTags : String
deriving DecidableEq, Repr

/-- The filter variables `activeCategory`, `activeSearch`, `maxPrice`, `activeDietary`. -/
structure FilterState where
  activeCategory : String
  activeSearch : String
  maxPrice : ℚ
  activeDietary : List String
deriving DecidableEq, Repr

/-- The body of the `forEach` in `applyFilters` (`script.js` lines 152-178) for one card:
`true` for `display = 'flex'`, `false` for `display = 'none'`.  `trim` and `toLowerCase` are
the host functions and `splitWords` is `.split(/\s+/).filter(Boolean)`. -/
def cardVisible (trim toLowerCase : String → String) (splitWords : String → List String)
    (f : FilterState) (card : MenuCard) : Bool :=
  let term := toLowerCase (trim f.activeSearch)
  let title := toLowerCase card.title
  let desc := toLowerCase card.desc
  let priceMatch := decide (card.price ≤ f.maxPrice)
  let dietaryMatch :=
    if f.activeDietary.length > 0 then
      f.activeDietary.any (fun d => (splitWords (toLowerCase card.dietaryTags)).contains d)
    else true
  let matchesCategory := f.activeCategory == "Featured" || card.category == f.activeCategory
  let matchesSearch := term == "" || includes title term || includes desc term
  matchesCategory && matchesSearch && priceMatch && dietaryMatch

/-- The function `applyFilters`: the display flag of every menu card, in order. -/
def applyFilters (trim toLowerCase : String → String) (splitWords : String → List String)
    (f : FilterState) (menuCards : List MenuCard) : List Bool :=
  menuCards.map (cardVisible trim toLowerCase splitWords f)

/-- Splitting at ASCII white space with empty pieces dropped; `cur` is the piece being read,
last character first. -/
def asciiWordsAux : List Char → List Char → List String
  | [], cur => if cur = [] then [] else [String.mk cur.reverse]
  | c :: cs, cur =>
    if c.isWhitespace then
      (if cur = [] then asciiWordsAux cs [] else String.mk cur.reverse :: asciiWordsAux cs [])
    else asciiWordsAux cs (c :: cur)

/-- The restriction of `.split(/\s+/).filter(Boolean)` to ASCII white space. -/
def asciiWords (s : String) : List String :=
  asciiWordsAux s.data []

/-- An entry of the `suggestions` array of `generateComboSuggestions`. -/
structure Suggestion where
  name : String
  savings : String
deriving DecidableEq, Repr

/-- The `suggestions` array built by `generateComboSuggestions` (`script.js` lines 545-578)
from the lower-cased item names. -/
def comboSuggestions (toLowerCase : String → String) (cart : Cart) : List Suggestion :=
  let cartItemNames := cart.map (fun item => toLowerCase item.name)
  let hasMainCourse := cartItemNames.any (fun name =>
    includes name "burger" || includes name "chicken" || includes name "pizza" ||
      includes name "pasta")
  let hasDrink := cartItemNames.any (fun name =>
    includes name "drink" || includes name "cola" || includes name "juice" ||
      includes name "water")
  let hasDessert := cartItemNames.any (fun name =>
    includes name "dessert" || includes name "cake" || includes name "ice cream")
  (if hasMainCourse && !hasDrink then [⟨"Add a Drink", "Save ₦1 500"⟩] else []) ++
  (if hasMainCourse && !hasDessert then [⟨"Add a Dessert", "Save ₦2 000"⟩] else []) ++
  (if hasMainCourse && !hasDrink && !hasDessert
    then [⟨"Ultimate Combo Deal", "Save ₦5 000"⟩] else [])

/-- The combo banner: the suggestions rendered in `#combo-banner-items` and the `active`
class of `#combo-banner`. -/
structure ComboBanner where
  items : List Suggestion
  active : Bool
deriving DecidableEq, Repr

/-- The function `generateComboSuggestions` (`script.js` lines 534-598): an empty cart only
removes the `active` class; otherwise the suggestions are rendered and the banner is active
when there is at least one. -/
def generateComboSuggestions (toLowerCase : String → String) (cart : Cart)
    (banner : ComboBanner) : ComboBanner :=
  if cart.length = 0 then { banner with active := false }
  else
    { items := comboSuggestions toLowerCase cart
      active := decide ((comboSuggestions toLowerCase cart).length ≠ 0) }

/-! ## Amounts in the arithmetic of the host

A JavaScript number is a binary64 value and every arithmetic result is rounded to the nearest
one.  The definitions above leave that rounding out; the ones below carry it as a function
`fl`, so that `fl = id` gives the exact definitions back and `fl = binary64` what the browser
computes.  Rounding matters where the code is compared with an exact value (the sum of
price × quantity, a tenth of the subtotal), and where two different computations of one
amount are compared, as for the amounts quoted by `showPaymentModal` and recorded by
`generateReceipt`. -/

/-- Rounding of a rational to the nearest integer, a tie going to the even one. -/
def roundHalfEven (q : ℚ) : ℤ :=
  let n : ℤ := ⌊q⌋
  if q - n < 1 / 2 then n
  else if 1 / 2 < q - n then n + 1
  else if n % 2 = 0 then n else n + 1

/-- The binary64 number nearest to `x`: the significand `|x| / 2 ^ e` is scaled into
`[2 ^ 52, 2 ^ 53)` and rounded to an integer, a tie going to the even one (IEEE 754
round-to-nearest-even).  The exponent is not limited, so this is the rounding of the host
for magnitudes in the normal range (about `2.2e-308` to `1.8e308`). -/
def binary64 (x : ℚ) : ℚ :=
  if x = 0 then 0
  else
    let e : ℤ := Int.log 2 |x| - 52
    (if x < 0 then -1 else 1) * (roundHalfEven (|x| / 2 ^ e) : ℚ) * 2 ^ e

/-- The function `calculateSubtotal` (`script.js` lines 315-317) with the rounding `fl` of
each product and each sum. -/
def calculateSubtotalFl (fl : ℚ → ℚ) (cart : Cart) : ℚ :=
  cart.foldl (fun sum item => fl (sum + fl (item.price * (item.quantity : ℚ)))) 0

/-- The number `+x.toFixed(2)` for `|x| < 1e21`: the decimal `round2 x` of the text, read back
as a number. -/
def toFixed2 (fl : ℚ → ℚ) (x : ℚ) : ℚ :=
  fl (round2 x)

/-- A subtotal with its tax and total. -/
structure Totals where
  subtotal : ℚ
  tax : ℚ
  total : ℚ
deriving DecidableEq, Repr

/-- The totals of `generateReceipt` (`script.js` lines 963-965), which the order object
records (lines 1031-1033): `subtotal * 0.1` and `subtotal + tax`. -/
def generateReceiptTotals (fl : ℚ → ℚ) (cart : Cart) : Totals :=
  let subtotal := calculateSubtotalFl fl cart
  let tax := fl (subtotal * fl (1 / 10))
  let total := fl (subtotal + tax)
  { subtotal := subtotal, tax := tax, total := total }

/-- The totals of `showPaymentModal` (`script.js` lines 1121-1123):
`+(subtotal * 0.10).toFixed(2)` and `+(subtotal + tax).toFixed(2)`. -/
def showPaymentModalTotals (fl : ℚ → ℚ) (cart : Cart) : Totals :=
  let subtotal := calculateSubtotalFl fl cart
  let tax := toFixed2 fl (fl (subtotal * fl (1 / 10)))
  let total := toFixed2 fl (fl (subtotal + tax))
  { subtotal := subtotal, tax := tax, total := total }

/-- The cart-dependent writes of `updateCartUI` (`script.js` lines 376-451) with the rounding
`fl` of each product and each step of the running `total`. -/
def updateCartUIFl (fl : ℚ → ℚ) (st : State) : State :=
  { st with view :=
      { st.view with
        total := st.cart.foldl
          (fun total item => fl (total + fl (item.price * (item.quantity : ℚ)))) 0
        cartCount := st.cart.foldl (fun sum it => sum + it.quantity) 0 } }

/-- The add-to-cart click handler on the state (`script.js` lines 357-369) with the rounding
`fl`. -/
def addToCartClickFl (fl : ℚ → ℚ) (st : State) (name : String) (price : ℚ) : State :=
  updateCartUIFl fl { st with cart := addItem st.cart name price }

/-- The order object built by `generateReceipt` (`script.js` lines 963-965 and 1027-1034)
with the rounding `fl`: `subtotal * 0.1` and `subtotal + tax`, neither rounded to cents. -/
def buildOrderFl (fl : ℚ → ℚ) (cart : Cart) (orderId date : String) : Order :=
  let subtotal := calculateSubtotalFl fl cart
  let tax := fl (subtotal * fl (1 / 10))
  let total := fl (subtotal + tax)
  { id := orderId
    date := date
    items := cart.map (fun i => ⟨i.name, i.price, i.quantity⟩)
    subtotal := subtotal
    tax := tax
    total := total }

/-- The function `generateReceipt` (`script.js` lines 921-1056) with the rounding `fl`,
without the receipt window.  `.threw` is the run in which `saveUser` raises: the exception
leaves `generateReceipt` before `cart = []`, after the history has been written. -/
def generateReceiptFl (fl : ℚ → ℚ) (toLowerCase : String → String) (st : State)
    (orderId date : String) : State × ReceiptResult :=
  if st.cart.length = 0 then (st, .emptyCart)
  else
    let subtotal := calculateSubtotalFl fl st.cart
    let currentUser := getLoggedInUser st.storage
    let pointsEarned : ℤ := ⌊fl (subtotal / 1000)⌋
    let orderObj := buildOrderFl fl st.cart orderId date
    let storage1 := saveOrderToHistory st.storage orderObj
    match currentUser with
    | none =>
      (updateCartUIFl fl { st with cart := [], storage := storage1 }, .placed orderObj)
    | some user =>
      let user1 : Account :=
        { user with
          orders := some (orderObj :: user.orders.getD [])
          points := some (user.points.getD 0 + pointsEarned) }
      match saveUser toLowerCase storage1 user1 with
      | .error _ => ({ st with storage := storage1 }, .threw orderObj)
      | .ok storage2 =>
        (updateCartUIFl fl { st with cart := [], storage := storage2 }, .placed orderObj)

/-- The modal as `showPaymentModal` creates it (`script.js` lines 1120-1163) with the rounding
`fl`: tax and total each go through `toFixed(2)`. -/
def showPaymentModalFl (fl : ℚ → ℚ) (st : State) : PaymentModal :=
  let subtotal := calculateSubtotalFl fl st.cart
  let tax := toFixed2 fl (fl (subtotal * fl (1 / 10)))
  let total := toFixed2 fl (fl (subtotal + tax))
  { subtotal := subtotal
    tax := tax
    total := total
    checked := some .card
    cardNumber := ""
    payDisabled := false
    cancelDisabled := false
    closeDisabled := false
    statusShown := false }

/-- The pay click followed, when it was accepted, by the timer callback
`closeModal(); onSuccess()` with `onSuccess = () => generateReceipt()`
(`script.js` lines 1181-1205 and 1231); no other handler runs in between. -/
def payAndComplete (fl : ℚ → ℚ) (trim toLowerCase : String → String) (st : State)
    (m : PaymentModal) (orderId date : String) : State × Option ReceiptResult :=
  match payBtnClick trim st m with
  | (st1, _, .rejected) => (st1, none)
  | (st1, _, .processing) =>
    ((generateReceiptFl fl toLowerCase st1 orderId date).1,
      some (generateReceiptFl fl toLowerCase st1 orderId date).2)

/-- The end-to-end scenario: two add-to-cart clicks on the same card, the checkout click, the
cash radio selected in the payment modal, the pay click and its completion callback. -/
def twoItemCheckout (fl : ℚ → ℚ) (trim toLowerCase : String → String) (st0 : State)
    (name : String) (price : ℚ) (orderId date : String) : State × Option ReceiptResult :=
  match onCheckoutClick (addToCartClickFl fl (addToCartClickFl fl st0 name price) name price) with
  | (st3, .showPaymentModal) =>
    payAndComplete fl trim toLowerCase st3 { showPaymentModalFl fl st3 with checked := some .cash }
      orderId date
  | (st3, _) => (st3, none)

/-! ## Sequences of add-to-cart clicks -/

/-- A sequence of add-to-cart clicks, each with the name and price read from its card,
applied in order. -/
def addItems (cart : Cart) (calls : List (String × ℚ)) : Cart :=
  calls.foldl (fun c call => addItem c call.1 call.2) cart

/-- The unit price a call sequence gives to `name`: the price of the first call with that
name. -/
def callPrice (calls : List (String × ℚ)) (name : String) : ℚ :=
  match calls.find? (fun call => call.1 == name) with
  | some call => call.2
  | none => 0

/-- Stated from the specification: the merged-by-name set of a call sequence, one line item
per distinct name whose quantity is the number of calls with that name. -/
def mergedByName (calls : List (String × ℚ)) : List LineItem :=
  (calls.map Prod.fst).dedup.map
    (fun name => ⟨name, callPrice calls name, ((calls.map Prod.fst).count name : ℤ)⟩)

/-- Stated from the specification: the sum of unitPrice × quantity over the merged-by-name
set. -/
def mergedTotal (calls : List (String × ℚ)) : ℚ :=
  ((mergedByName calls).map (fun item => item.price * (item.quantity : ℚ))).sum

/-- Every line item of the cart carries the price of every pending call of its name. -/
def Agree (cart : Cart) (calls : List (String × ℚ)) : Prop :=
  ∀ item ∈ cart, ∀ c ∈ calls, item.name = c.1 → item.price = c.2

/-- Calls with the same name carry the same price. -/
def SamePrice (calls : List (String × ℚ)) : Prop :=
  ∀ c ∈ calls, ∀ d ∈ calls, c.1 = d.1 → c.2 = d.2

/-! ## Concrete inputs -/

/-- A stored account with three loyalty points and no orders. -/
def demoAccount : Account :=
  ⟨some "ada@example.com", some "pw", some 3, some [], some "2024-01-01T00:00:00.000Z"⟩

/-- A healthy store: `demoAccount` in the directory and logged in, empty order history. -/
def demoStorage : Storage :=
  ⟨.parsed (.array [demoAccount]), .parsed demoAccount, .parsed (.array []), true, true, true⟩

/-- The page as loaded: total 0, counter 0, no promo message, promo input enabled. -/
def demoView : View := ⟨0, 0, .blank, false, false, false⟩

/-- The `i`-th earlier order of the long histories below: `i + 1` Colas at 500. -/
def pastOrder (i : ℕ) : Order :=
  buildOrder [⟨"Cola", 500, (i : ℤ) + 1⟩] "FH-PAST" "2024-03-03T00:00:00.000Z"

/-- A history of 100 earlier orders, `pastOrder 0` the newest and `pastOrder 99` the
oldest. -/
def demoHistory : List Order := (List.range 100).map pastOrder

/-- A stored account with forty points whose own order list holds the 100 orders of
`demoHistory`. -/
def busyAccount : Account :=
  ⟨some "bob@example.com", some "pw2", some 40, some demoHistory,
    some "2024-02-02T00:00:00.000Z"⟩

/-- A healthy store with a full history: `busyAccount` logged in and in the directory after
`demoAccount`, and `demoHistory` under `foodhub-orders`. -/
def busyStorage : Storage :=
  ⟨.parsed (.array [demoAccount, busyAccount]), .parsed busyAccount,
    .parsed (.array demoHistory), true, true, true⟩

/-- The state with the given cart over `demoStorage`, rendered by `updateCartUI`. -/
def demoState (cart : Cart) : State := updateCartUI ⟨cart, demoStorage, demoView⟩

/-! ## Lemmas on the array helpers -/

theorem findIndex_eq_none {α : Type} (p : α → Bool) (l : List α) :
    findIndex p l = none ↔ ∀ x ∈ l, p x = false := by
  induction l with
  | nil => simp [findIndex]
  | cons x xs ih =>
    by_cases hx : p x = true
    · simp [findIndex, hx]
    · simp [findIndex, hx, ih]

theorem findIndex_eq_some {α : Type} (p : α → Bool) (l : List α) (i : Nat)
    (h : findIndex p l = some i) :
    (∃ x, l[i]? = some x ∧ p x = true) ∧ ∀ j y, j < i → l[j]? = some y → p y = false := by
  induction l generalizing i with
  | nil => simp [findIndex] at h
  | cons x xs ih =>
    by_cases hx : p x = true
    · simp [findIndex, hx] at h
      subst h
      exact ⟨⟨x, by simp, hx⟩, fun j y hj => absurd hj (Nat.not_lt_zero j)⟩
    · simp only [findIndex, hx, Bool.false_eq_true, if_false, Option.map_eq_some'] at h
      obtain ⟨k, hk, rfl⟩ := h
      obtain ⟨⟨y, hy, hpy⟩, hlt⟩ := ih k hk
      refine ⟨⟨y, by simpa using hy, hpy⟩, ?_⟩
      intro j z hj hz
      cases j with
      | zero =>
        simp at hz
        subst hz
        simpa using hx
      | succ j => exact hlt j z (Nat.lt_of_succ_lt_succ hj) (by simpa using hz)

theorem length_modifyAt {α : Type} (f : α → α) (l : List α) (i : Nat) :
    (modifyAt f l i).length = l.length := by
  induction l generalizing i with
  | nil => simp [modifyAt]
  | cons x xs ih => cases i <;> simp [modifyAt, ih]

theorem getElem?_modifyAt {α : Type} (f : α → α) (l : List α) (i j : Nat) :
    (modifyAt f l i)[j]? = if j = i then l[j]?.map f else l[j]? := by
  induction l generalizing i j with
  | nil => simp [modifyAt]
  | cons x xs ih =>
    cases i with
    | zero => cases j <;> simp [modifyAt]
    | succ i => cases j <;> simp [modifyAt, ih]

theorem modifyAt_eq_set {α : Type} (f : α → α) (l : List α) (i : Nat) (x : α)
    (h : l[i]? = some x) : modifyAt f l i = l.set i (f x) := by
  induction l generalizing i with
  | nil => simp at h
  | cons y ys ih =>
    cases i with
    | zero => simp at h; simp [modifyAt, h]
    | succ i => simp at h; simp [modifyAt, ih i h]

theorem foldl_add_eq_sum {α : Type} (f : α → ℚ) (l : List α) (a : ℚ) :
    l.foldl (fun sum item => sum + f item) a = a + (l.map f).sum := by
  induction l generalizing a with
  | nil => simp
  | cons x xs ih => simp [ih, add_assoc]

theorem calculateSubtotal_eq_sum (cart : Cart) :
    calculateSubtotal cart = (cart.map (fun item => item.price * (item.quantity : ℚ))).sum := by
  unfold calculateSubtotal
  rw [foldl_add_eq_sum (fun item : LineItem => item.price * (item.quantity : ℚ))]
  simp

/-! ## Lemmas on the cart operations -/

theorem addItem_of_fresh (cart : Cart) (name : String) (price : ℚ)
    (h : ∀ item ∈ cart, item.name ≠ name) :
    addItem cart name price = cart ++ [⟨name, price, 1⟩] := by
  have hnone : findIndex (fun item : LineItem => item.name == name) cart = none := by
    rw [findIndex_eq_none]
    intro x hx
    simpa using h x hx
  simp [addItem, hnone]

theorem addItem_of_present (cart : Cart) (name : String) (price : ℚ)
    (h : ∃ item ∈ cart, item.name = name) :
    ∃ i item, cart[i]? = some item ∧ item.name = name ∧
      (∀ j other, j < i → cart[j]? = some other → other.name ≠ name) ∧
      addItem cart name price =
        modifyAt (fun it => { it with quantity := it.quantity + 1 }) cart i := by
  cases hfi : findIndex (fun item : LineItem => item.name == name) cart with
  | none =>
    rw [findIndex_eq_none] at hfi
    obtain ⟨item, hmem, hname⟩ := h
    have := hfi item hmem
    simp [hname] at this
  | some i =>
    obtain ⟨⟨item, hget, hp⟩, hlt⟩ := findIndex_eq_some _ _ _ hfi
    refine ⟨i, item, hget, by simpa using hp, ?_, by simp [addItem, hfi]⟩
    intro j other hj hother
    simpa using hlt j other hj hother

theorem map_name_modifyAt (f : LineItem → LineItem) (hf : ∀ x, (f x).name = x.name)
    (l : Cart) (i : Nat) : (modifyAt f l i).map LineItem.name = l.map LineItem.name := by
  induction l generalizing i with
  | nil => simp [modifyAt]
  | cons x xs ih => cases i <;> simp [modifyAt, hf, ih]

theorem mem_modifyAt {α : Type} (f : α → α) (l : List α) (i : Nat) (y : α)
    (h : y ∈ modifyAt f l i) : y ∈ l ∨ ∃ x, l[i]? = some x ∧ y = f x := by
  induction l generalizing i with
  | nil => simp [modifyAt] at h
  | cons x xs ih =>
    cases i with
    | zero =>
      simp only [modifyAt, List.mem_cons] at h
      rcases h with h | h
      · exact Or.inr ⟨x, by simp, h⟩
      · exact Or.inl (List.mem_cons_of_mem _ h)
    | succ i =>
      simp only [modifyAt, List.mem_cons] at h
      rcases h with h | h
      · exact Or.inl (by simp [h])
      · rcases ih i h with h1 | ⟨z, hz, hy⟩
        · exact Or.inl (List.mem_cons_of_mem _ h1)
        · exact Or.inr ⟨z, by simpa using hz, hy⟩

theorem mem_of_getElem?_eq_some {α : Type} {l : List α} {i : Nat} {x : α}
    (h : l[i]? = some x) : x ∈ l := by
  obtain ⟨hi, rfl⟩ := List.getElem?_eq_some.mp h
  exact List.getElem_mem hi

theorem wellFormed_nil : WellFormed [] := by
  simp [WellFormed]

theorem wellFormed_plusBtnClick (cart : Cart) (i : Nat) (h : WellFormed cart) :
    WellFormed (plusBtnClick cart i) := by
  obtain ⟨hnd, hq⟩ := h
  refine ⟨?_, ?_⟩
  · unfold plusBtnClick
    rw [map_name_modifyAt (fun item => { item with quantity := item.quantity + 1 })
      (fun _ => rfl)]
    exact hnd
  · intro item hmem
    rcases mem_modifyAt _ _ _ _ hmem with h1 | ⟨x, hx, rfl⟩
    · exact hq item h1
    · have := hq x (mem_of_getElem?_eq_some hx)
      show 1 ≤ x.quantity + 1
      omega

theorem wellFormed_addItem (cart : Cart) (name : String) (price : ℚ) (h : WellFormed cart) :
    WellFormed (addItem cart name price) := by
  by_cases hp : ∃ item ∈ cart, item.name = name
  · obtain ⟨i, _, _, _, _, heq⟩ := addItem_of_present cart name price hp
    rw [heq]
    exact wellFormed_plusBtnClick cart i h
  · have hfresh : ∀ item ∈ cart, item.name ≠ name := fun item hmem hname =>
      hp ⟨item, hmem, hname⟩
    rw [addItem_of_fresh cart name price hfresh]
    obtain ⟨hnd, hq⟩ := h
    refine ⟨?_, ?_⟩
    · rw [List.map_append, List.nodup_append]
      refine ⟨hnd, by simp, ?_⟩
      intro a ha hb
      simp only [List.map_cons, List.map_nil, List.mem_singleton] at hb
      subst hb
      obtain ⟨item, hmem, hname⟩ := List.mem_map.mp ha
      exact hfresh item hmem hname
    · intro item hmem
      rcases List.mem_append.mp hmem with h1 | h1
      · exact hq item h1
      · simp only [List.mem_singleton] at h1
        subst h1
        exact le_refl _

theorem wellFormed_minusBtnClick (cart : Cart) (i : Nat) (h : WellFormed cart) :
    WellFormed (minusBtnClick cart i) := by
  unfold minusBtnClick
  cases hget : cart[i]? with
  | none => exact h
  | some item =>
    obtain ⟨hnd, hq⟩ := h
    by_cases hle : item.quantity - 1 ≤ 0
    · simp only [hle, if_true]
      refine ⟨?_, ?_⟩
      · exact hnd.sublist ((List.eraseIdx_sublist cart i).map _)
      · intro it hmem
        exact hq it ((List.eraseIdx_sublist cart i).subset hmem)
    · simp only [hle, if_false]
      refine ⟨?_, ?_⟩
      · rw [map_name_modifyAt (fun it => { it with quantity := it.quantity - 1 })
          (fun _ => rfl)]
        exact hnd
      · intro it hmem
        rcases mem_modifyAt _ _ _ _ hmem with h1 | ⟨x, hx, rfl⟩
        · exact hq it h1
        · rw [hget] at hx
          cases hx
          show 1 ≤ item.quantity - 1
          omega

theorem wellFormed_of_reachable (cart : Cart) (h : Reachable cart) : WellFormed cart := by
  induction h with
  | init => exact wellFormed_nil
  | add c name price _ ih => exact wellFormed_addItem c name price ih
  | plus c i _ _ ih => exact wellFormed_plusBtnClick c i ih
  | minus c i _ _ ih => exact wellFormed_minusBtnClick c i ih
  | clear _ _ _ => exact wellFormed_nil

theorem name_ne_of_mem_eraseIdx (cart : Cart) (i : Nat) (item : LineItem)
    (hnd : (cart.map LineItem.name).Nodup) (hget : cart[i]? = some item) :
    ∀ x ∈ cart.eraseIdx i, x.name ≠ item.name := by
  induction cart generalizing i with
  | nil => simp at hget
  | cons y ys ih =>
    rw [List.map_cons, List.nodup_cons] at hnd
    obtain ⟨hy, hys⟩ := hnd
    cases i with
    | zero =>
      simp only [List.getElem?_cons_zero, Option.some.injEq] at hget
      subst hget
      intro x hx hname
      simp only [List.eraseIdx_cons_zero] at hx
      exact hy (hname ▸ List.mem_map_of_mem LineItem.name hx)
    | succ i =>
      simp only [List.getElem?_cons_succ] at hget
      intro x hx hname
      simp only [List.eraseIdx_cons_succ, List.mem_cons] at hx
      rcases hx with hx | hx
      · subst hx
        exact hy (hname ▸ List.mem_map_of_mem LineItem.name (mem_of_getElem?_eq_some hget))
      · exact ih i hys hget x hx hname

theorem generateReceipt_cart (toLowerCase : String → String) (st : State)
    (orderId date : String) :
    (generateReceipt toLowerCase st orderId date).1.cart = st.cart ∨
      (generateReceipt toLowerCase st orderId date).1.cart = [] := by
  unfold generateReceipt
  by_cases h0 : st.cart.length = 0
  · simp [h0]
  · simp only [h0, if_false]
    cases getLoggedInUser st.storage with
    | none => right; rfl
    | some user =>
      simp only []
      split
      · left; rfl
      · right; rfl

/-! ## Lemmas on sequences of add-to-cart clicks -/

theorem calculateSubtotal_modifyAt_incr (cart : Cart) (i : Nat) (item : LineItem)
    (hget : cart[i]? = some item) :
    calculateSubtotal (modifyAt (fun it => { it with quantity := it.quantity + 1 }) cart i) =
      calculateSubtotal cart + item.price := by
  rw [calculateSubtotal_eq_sum, calculateSubtotal_eq_sum]
  induction cart generalizing i with
  | nil => simp at hget
  | cons y ys ih =>
    cases i with
    | zero =>
      simp only [List.getElem?_cons_zero, Option.some.injEq] at hget
      subst hget
      simp only [modifyAt, List.map_cons, List.sum_cons]
      push_cast
      ring
    | succ i =>
      simp only [List.getElem?_cons_succ] at hget
      simp only [modifyAt, List.map_cons, List.sum_cons, ih i hget]
      ring

theorem calculateSubtotal_append_singleton (cart : Cart) (item : LineItem) :
    calculateSubtotal (cart ++ [item]) =
      calculateSubtotal cart + item.price * (item.quantity : ℚ) := by
  rw [calculateSubtotal_eq_sum, calculateSubtotal_eq_sum]
  simp

theorem calculateSubtotal_addItems (calls : List (String × ℚ)) (cart : Cart)
    (hagree : Agree cart calls) (hsame : SamePrice calls) :
    calculateSubtotal (addItems cart calls) =
      calculateSubtotal cart + (calls.map Prod.snd).sum := by
  induction calls generalizing cart with
  | nil => simp [addItems]
  | cons c rest ih =>
    have hsame' : SamePrice rest := fun a ha b hb =>
      hsame a (List.mem_cons_of_mem _ ha) b (List.mem_cons_of_mem _ hb)
    have hstep : addItems cart (c :: rest) = addItems (addItem cart c.1 c.2) rest := rfl
    rw [hstep]
    by_cases hp : ∃ item ∈ cart, item.name = c.1
    · obtain ⟨i, item, hget, hname, _, heq⟩ := addItem_of_present cart c.1 c.2 hp
      have hprice : item.price = c.2 :=
        hagree item (mem_of_getElem?_eq_some hget) c (List.mem_cons_self _ _) hname
      have hagree' : Agree (addItem cart c.1 c.2) rest := by
        intro it hit d hd hnm
        rw [heq] at hit
        rcases mem_modifyAt _ _ _ _ hit with h1 | ⟨x, hx, rfl⟩
        · exact hagree it h1 d (List.mem_cons_of_mem _ hd) hnm
        · exact hagree x (mem_of_getElem?_eq_some hx) d (List.mem_cons_of_mem _ hd) hnm
      rw [ih _ hagree' hsame', heq, calculateSubtotal_modifyAt_incr cart i item hget, hprice]
      simp only [List.map_cons, List.sum_cons]
      ring
    · have hfresh : ∀ item ∈ cart, item.name ≠ c.1 := fun item hmem hname =>
        hp ⟨item, hmem, hname⟩
      have heq := addItem_of_fresh cart c.1 c.2 hfresh
      have hagree' : Agree (addItem cart c.1 c.2) rest := by
        intro it hit d hd hnm
        rw [heq] at hit
        rcases List.mem_append.mp hit with h1 | h1
        · exact hagree it h1 d (List.mem_cons_of_mem _ hd) hnm
        · simp only [List.mem_singleton] at h1
          subst h1
          exact hsame c (List.mem_cons_self _ _) d (List.mem_cons_of_mem _ hd) hnm
      rw [ih _ hagree' hsame', heq, calculateSubtotal_append_singleton]
      simp only [List.map_cons, List.sum_cons]
      push_cast
      ring

theorem callPrice_of_mem (calls : List (String × ℚ)) (hsame : SamePrice calls)
    (c : String × ℚ) (hc : c ∈ calls) : callPrice calls c.1 = c.2 := by
  unfold callPrice
  cases hfind : calls.find? (fun call => call.1 == c.1) with
  | none =>
    rw [List.find?_eq_none] at hfind
    exact absurd (by simp) (hfind c hc)
  | some d =>
    have hd : d ∈ calls := List.mem_of_find?_eq_some hfind
    have hname : d.1 = c.1 := by simpa using List.find?_some hfind
    exact hsame d hd c hc hname

theorem mergedTotal_eq_sum (calls : List (String × ℚ)) (hsame : SamePrice calls) :
    mergedTotal calls = (calls.map Prod.snd).sum := by
  have h0 : calls.map Prod.snd = (calls.map Prod.fst).map (callPrice calls) := by
    rw [List.map_map]
    apply List.map_congr_left
    intro c hc
    exact (callPrice_of_mem calls hsame c hc).symm
  have h1 : ((calls.map Prod.fst).map (callPrice calls)).sum =
      ∑ m ∈ (calls.map Prod.fst).toFinset,
        List.count m (calls.map Prod.fst) • callPrice calls m :=
    Finset.sum_list_map_count _ _
  have h2 : mergedTotal calls =
      ∑ m ∈ (calls.map Prod.fst).dedup.toFinset,
        callPrice calls m * (((calls.map Prod.fst).count m : ℤ) : ℚ) := by
    unfold mergedTotal mergedByName
    rw [List.map_map]
    exact (List.sum_toFinset _ (List.nodup_dedup _)).symm
  have h3 : (calls.map Prod.fst).dedup.toFinset = (calls.map Prod.fst).toFinset := by
    ext x; simp
  rw [h0, h1, h2, h3]
  apply Finset.sum_congr rfl
  intro x _
  simp [mul_comm]

/-! ## Lemmas on the store and the checkout -/

theorem saveOrderToHistory_frame (s : Storage) (order : Order) :
    (saveOrderToHistory s order).users = s.users ∧
    (saveOrderToHistory s order).currentUser = s.currentUser ∧
    (saveOrderToHistory s order).usersWritable = s.usersWritable ∧
    (saveOrderToHistory s order).currentUserWritable = s.currentUserWritable ∧
    (saveOrderToHistory s order).ordersWritable = s.ordersWritable := by
  unfold saveOrderToHistory
  split <;> try (split <;> simp)
  all_goals simp

theorem mem_historyOrders_saveOrderToHistory (s : Storage) (order o : Order)
    (h : o ∈ historyOrders (saveOrderToHistory s order)) :
    o = order ∨ o ∈ historyOrders s := by
  unfold saveOrderToHistory at h
  split at h
  · exact Or.inr h
  · exact Or.inr h
  · rename_i habs
    by_cases hw : s.ordersWritable = true
    · simp only [hw, if_true, historyOrders] at h
      left
      simpa using h
    · simp only [hw, Bool.false_eq_true, if_false] at h
      exact Or.inr h
  · rename_i existing hex
    by_cases hw : s.ordersWritable = true
    · simp only [hw, if_true, historyOrders] at h
      have h' := List.mem_of_mem_take h
      rcases List.mem_cons.mp h' with h1 | h1
      · exact Or.inl h1
      · right
        simp only [historyOrders, hex]
        exact h1
    · simp only [hw, Bool.false_eq_true, if_false] at h
      exact Or.inr h

theorem saveUsers_frame (s : Storage) (users : List Account) :
    (saveUsers s users).orders = s.orders ∧
    (saveUsers s users).currentUser = s.currentUser ∧
    (saveUsers s users).usersWritable = s.usersWritable ∧
    (saveUsers s users).currentUserWritable = s.currentUserWritable ∧
    (saveUsers s users).ordersWritable = s.ordersWritable ∧
    ((saveUsers s users).users = s.users ∨
      (saveUsers s users).users = .parsed (.array users)) := by
  unfold saveUsers
  by_cases hw : s.usersWritable = true <;> simp [hw]

theorem mem_of_getUsers (s : Storage) (users : List Account) (h : getUsers s = .array users)
    (u : Account) (hu : u ∈ users) : s.users = .parsed (.array users) := by
  unfold getUsers at h
  cases hsu : s.users with
  | absent => simp [hsu] at h; subst h; simp at hu
  | corrupt => simp [hsu] at h; subst h; simp at hu
  | parsed v => simp only [hsu] at h; rw [h]

theorem saveUser_ok (toLowerCase : String → String) (s s' : Storage) (user : Account)
    (h : saveUser toLowerCase s user = .ok s') :
    s'.orders = s.orders ∧
    s'.usersWritable = s.usersWritable ∧
    s'.currentUserWritable = s.currentUserWritable ∧
    s'.ordersWritable = s.ordersWritable ∧
    ∀ o ∈ accountOrders s', o ∈ accountOrders s ∨ o ∈ user.orders.getD [] := by
  unfold saveUser at h
  cases hemail : user.email with
  | none =>
    simp only [hemail, Except.ok.injEq] at h
    subst h
    exact ⟨rfl, rfl, rfl, rfl, fun o ho => Or.inl ho⟩
  | some email =>
    simp only [hemail] at h
    by_cases he : email = ""
    · simp only [he, if_true, Except.ok.injEq] at h
      subst h
      exact ⟨rfl, rfl, rfl, rfl, fun o ho => Or.inl ho⟩
    · simp only [he, if_false] at h
      cases hu : getUsers s with
      | notArray => simp [hu] at h
      | array users =>
        simp only [hu] at h
        cases hidx : findIndexByEmail toLowerCase (toLowerCase email) users with
        | error err => simp [hidx] at h
        | ok idx =>
          simp only [hidx, Except.ok.injEq] at h
          generalize husers1 : (match idx with
            | some i => users.set i user
            | none => users ++ [user]) = users1 at h
          have hmem1 : ∀ u ∈ users1, u ∈ users ∨ u = user := by
            intro u hu1
            subst husers1
            cases idx with
            | none =>
              rcases List.mem_append.mp hu1 with h1 | h1
              · exact Or.inl h1
              · exact Or.inr (by simpa using h1)
            | some i => exact List.mem_or_eq_of_mem_set hu1
          obtain ⟨f1, f2, f3, f4, f5, f6⟩ := saveUsers_frame s users1
          have hs' : s'.orders = s.orders ∧ s'.usersWritable = s.usersWritable ∧
              s'.currentUserWritable = s.currentUserWritable ∧
              s'.ordersWritable = s.ordersWritable ∧
              s'.users = (saveUsers s users1).users ∧
              (s'.currentUser = s.currentUser ∨ s'.currentUser = .parsed user) := by
            by_cases hw : (saveUsers s users1).currentUserWritable = true
            · rw [if_pos hw] at h
              subst h
              exact ⟨f1, f3, f4, f5, rfl, Or.inr rfl⟩
            · rw [if_neg hw] at h
              subst h
              exact ⟨f1, f3, f4, f5, rfl, Or.inl f2⟩
          obtain ⟨g1, g2, g3, g4, g5, g6⟩ := hs'
          refine ⟨g1, g2, g3, g4, ?_⟩
          intro o ho
          simp only [accountOrders, List.mem_append] at ho
          rcases ho with ho | ho
          · rw [g5] at ho
            rcases f6 with f6 | f6
            · left
              rw [f6] at ho
              simp only [accountOrders, List.mem_append]
              exact Or.inl ho
            · rw [f6] at ho
              simp only [List.mem_flatMap] at ho
              obtain ⟨u, hu1, hu2⟩ := ho
              rcases hmem1 u hu1 with h1 | h1
              · left
                have hsu := mem_of_getUsers s users hu u h1
                simp only [accountOrders, hsu, List.mem_append, List.mem_flatMap]
                exact Or.inl ⟨u, h1, hu2⟩
              · right
                rw [← h1]
                exact hu2
          · rcases g6 with g6 | g6
            · left
              rw [g6] at ho
              simp only [accountOrders, List.mem_append]
              exact Or.inr ho
            · right
              rw [g6] at ho
              exact ho

theorem accountOrders_saveOrderToHistory (s : Storage) (order : Order) :
    accountOrders (saveOrderToHistory s order) = accountOrders s := by
  obtain ⟨h1, h2, _⟩ := saveOrderToHistory_frame s order
  simp only [accountOrders, h1, h2]

theorem mem_accountOrders_of_session (s : Storage) (user : Account)
    (h : getLoggedInUser s = some user) : ∀ o ∈ user.orders.getD [], o ∈ accountOrders s := by
  intro o ho
  unfold getLoggedInUser at h
  cases hc : s.currentUser with
  | absent => simp [hc] at h
  | corrupt => simp [hc] at h
  | parsed u =>
    simp only [hc, Option.some.injEq] at h
    subst h
    simp only [accountOrders, hc, List.mem_append]
    exact Or.inr ho

theorem buildOrder_items (cart : Cart) (orderId date : String) :
    (buildOrder cart orderId date).items = cart := by
  simp [buildOrder]

theorem generateReceipt_noEmptyOrder (toLowerCase : String → String) (st : State)
    (orderId date : String) (h : NoEmptyOrder st.storage) :
    NoEmptyOrder (generateReceipt toLowerCase st orderId date).1.storage := by
  unfold generateReceipt
  by_cases h0 : st.cart.length = 0
  · simp only [h0, if_true]
    exact h
  · have hcart : st.cart ≠ [] := fun hc => h0 (by simp [hc])
    have hitems : (buildOrder st.cart orderId date).items ≠ [] := by
      rw [buildOrder_items]; exact hcart
    have hhist : ∀ o ∈ historyOrders
        (saveOrderToHistory st.storage (buildOrder st.cart orderId date)), o.items ≠ [] := by
      intro o ho
      rcases mem_historyOrders_saveOrderToHistory _ _ _ ho with h1 | h1
      · rw [h1]; exact hitems
      · exact h o (List.mem_append_left _ h1)
    have hacc : ∀ o ∈ accountOrders
        (saveOrderToHistory st.storage (buildOrder st.cart orderId date)), o.items ≠ [] := by
      intro o ho
      rw [accountOrders_saveOrderToHistory] at ho
      exact h o (List.mem_append_right _ ho)
    have hstep : NoEmptyOrder
        (saveOrderToHistory st.storage (buildOrder st.cart orderId date)) := by
      intro o ho
      rcases List.mem_append.mp ho with h1 | h1
      · exact hhist o h1
      · exact hacc o h1
    simp only [h0, if_false]
    cases hlog : getLoggedInUser st.storage with
    | none => exact hstep
    | some user =>
      simp only []
      split
      · exact hstep
      · rename_i storage2 hsave
        obtain ⟨ho1, _, _, _, ho3⟩ := saveUser_ok toLowerCase _ _ _ hsave
        intro o ho
        rcases List.mem_append.mp ho with h1 | h1
        · apply hhist o
          simpa only [updateCartUI, historyOrders, ho1] using h1
        · have h1' : o ∈ accountOrders storage2 := h1
          rcases ho3 o h1' with h2 | h2
          · exact hacc o h2
          · simp only [Option.getD_some, List.mem_cons] at h2
            rcases h2 with h2 | h2
            · rw [h2]; exact hitems
            · exact h o (List.mem_append_right _
                (mem_accountOrders_of_session st.storage user hlog o h2))

/-! ## Lemmas on the account directory -/

theorem findIndexByEmail_ok (toLowerCase : String → String) (target : String)
    (users : List Account) (hall : AllHaveEmail users) :
    ∃ idx, findIndexByEmail toLowerCase target users = .ok idx ∧
      (∀ i, idx = some i →
        (∃ u, users[i]? = some u ∧ u.email.map toLowerCase = some target) ∧
        ∀ j v, j < i → users[j]? = some v → v.email.map toLowerCase ≠ some target) ∧
      (idx = none → ∀ u ∈ users, u.email.map toLowerCase ≠ some target) := by
  induction users with
  | nil =>
    refine ⟨none, rfl, ?_, ?_⟩
    · intro i hi
      cases hi
    · intro _ u hu
      cases hu
  | cons u rest ih =>
    have hall' : AllHaveEmail rest := fun v hv => hall v (List.mem_cons_of_mem _ hv)
    obtain ⟨idx, hidx, hsome, hnone⟩ := ih hall'
    cases hue : u.email with
    | none => exact absurd hue (hall u (List.mem_cons_self _ _))
    | some e =>
      by_cases hm : toLowerCase e = target
      · refine ⟨some 0, by simp [findIndexByEmail, hue, hm], ?_, fun h => by cases h⟩
        intro i hi
        cases hi
        exact ⟨⟨u, by simp, by simp [hue, hm]⟩, fun j v hj => absurd hj (Nat.not_lt_zero j)⟩
      · refine ⟨idx.map (fun i => i + 1), by simp [findIndexByEmail, hue, hm, hidx], ?_, ?_⟩
        · intro i hi
          cases idx with
          | none => simp at hi
          | some k =>
            simp only [Option.map_some', Option.some.injEq] at hi
            subst hi
            obtain ⟨⟨w, hw, hwm⟩, hlt⟩ := hsome k rfl
            refine ⟨⟨w, by simpa using hw, hwm⟩, ?_⟩
            intro j v hj hv
            cases j with
            | zero =>
              simp only [List.getElem?_cons_zero, Option.some.injEq] at hv
              subst hv
              simpa [hue] using hm
            | succ j => exact hlt j v (Nat.lt_of_succ_lt_succ hj) (by simpa using hv)
        · intro hn u' hu'
          have hidxn : idx = none := by
            cases idx with
            | none => rfl
            | some k => simp at hn
          rcases List.mem_cons.mp hu' with h1 | h1
          · subst h1
            simpa [hue] using hm
          · exact hnone hidxn u' h1

theorem saveUser_nominal (toLowerCase : String → String) (s : Storage) (user : Account)
    (users : List Account) (e : String)
    (hdir : getUsers s = .array users) (hall : AllHaveEmail users)
    (hemail : user.email = some e) (hne : e ≠ "")
    (hwu : s.usersWritable = true) (hwc : s.currentUserWritable = true) :
    ∃ idx, findIndexByEmail toLowerCase (toLowerCase e) users = .ok idx ∧
      saveUser toLowerCase s user =
        .ok { s with users := .parsed (.array (upsertAt users idx user)),
                     currentUser := .parsed user } := by
  obtain ⟨idx, hidx, _, _⟩ := findIndexByEmail_ok toLowerCase (toLowerCase e) users hall
  refine ⟨idx, hidx, ?_⟩
  unfold saveUser
  simp only [hemail, hne, if_false, hdir, hidx, saveUsers, hwu, if_true, hwc]
  cases idx <;> rfl

theorem saveUser_currentUser (toLowerCase : String → String) (s s' : Storage) (user : Account)
    (h : saveUser toLowerCase s user = .ok s') :
    s'.currentUser = s.currentUser ∨ s'.currentUser = .parsed user := by
  unfold saveUser at h
  cases hemail : user.email with
  | none =>
    simp only [hemail, Except.ok.injEq] at h
    subst h
    exact Or.inl rfl
  | some email =>
    simp only [hemail] at h
    by_cases he : email = ""
    · simp only [he, if_true, Except.ok.injEq] at h
      subst h
      exact Or.inl rfl
    · simp only [he, if_false] at h
      cases hu : getUsers s with
      | notArray => simp [hu] at h
      | array users =>
        simp only [hu] at h
        cases hidx : findIndexByEmail toLowerCase (toLowerCase email) users with
        | error err => simp [hidx] at h
        | ok idx =>
          simp only [hidx, Except.ok.injEq] at h
          generalize (match idx with
            | some i => users.set i user
            | none => users ++ [user]) = users1 at h
          by_cases hw : (saveUsers s users1).currentUserWritable = true
          · rw [if_pos hw] at h
            subst h
            exact Or.inr rfl
          · rw [if_neg hw] at h
            subst h
            exact Or.inl (saveUsers_frame s users1).2.1

theorem mem_upsertAt (users : List Account) (idx : Option Nat) (user : Account)
    (hidx : ∀ i, idx = some i → i < users.length) : user ∈ upsertAt users idx user := by
  cases idx with
  | none => simp [upsertAt]
  | some i => exact List.mem_set users i (hidx i rfl) user

theorem getUsers_saveOrderToHistory (s : Storage) (order : Order) :
    getUsers (saveOrderToHistory s order) = getUsers s := by
  unfold getUsers
  rw [(saveOrderToHistory_frame s order).1]

theorem generateReceipt_nominal (toLowerCase : String → String) (st : State)
    (orderId date : String) (user : Account) (users : List Account) (e : String)
    (hcart : st.cart ≠ []) (hlog : getLoggedInUser st.storage = some user)
    (hemail : user.email = some e) (hne : e ≠ "")
    (hdir : getUsers st.storage = .array users) (hall : AllHaveEmail users)
    (hwu : st.storage.usersWritable = true) (hwc : st.storage.currentUserWritable = true) :
    ∃ idx, findIndexByEmail toLowerCase (toLowerCase e) users = .ok idx ∧
      generateReceipt toLowerCase st orderId date =
        (updateCartUI
          { st with
            cart := []
            storage :=
              { saveOrderToHistory st.storage (buildOrder st.cart orderId date) with
                users := .parsed (.array (upsertAt users idx
                  (awardedAccount user (buildOrder st.cart orderId date)
                    ⌊calculateSubtotal st.cart / 1000⌋)))
                currentUser := .parsed
                  (awardedAccount user (buildOrder st.cart orderId date)
                    ⌊calculateSubtotal st.cart / 1000⌋) } },
          .placed (buildOrder st.cart orderId date)) := by
  have h0 : ¬ st.cart.length = 0 := fun h => hcart (List.length_eq_zero.mp h)
  obtain ⟨f1, f2, f3, f4, f5⟩ :=
    saveOrderToHistory_frame st.storage (buildOrder st.cart orderId date)
  obtain ⟨idx, hidx, hsave⟩ := saveUser_nominal toLowerCase
    (saveOrderToHistory st.storage (buildOrder st.cart orderId date))
    (awardedAccount user (buildOrder st.cart orderId date) ⌊calculateSubtotal st.cart / 1000⌋)
    users e (by rw [getUsers_saveOrderToHistory]; exact hdir) hall hemail hne
    (by rw [f3]; exact hwu) (by rw [f4]; exact hwc)
  refine ⟨idx, hidx, ?_⟩
  unfold generateReceipt
  simp only [h0, if_false, hlog]
  have hsave' : saveUser toLowerCase
      (saveOrderToHistory st.storage (buildOrder st.cart orderId date))
      { user with
        orders := some (buildOrder st.cart orderId date :: user.orders.getD [])
        points := some (user.points.getD 0 + ⌊calculateSubtotal st.cart / 1000⌋) } = _ := hsave
  rw [hsave']

theorem generateReceipt_congr (toLowerCase : String → String) (st1 st2 : State)
    (orderId date : String) (hc : st1.cart = st2.cart) (hs : st1.storage = st2.storage) :
    (generateReceipt toLowerCase st1 orderId date).2 =
      (generateReceipt toLowerCase st2 orderId date).2 ∧
    (generateReceipt toLowerCase st1 orderId date).1.cart =
      (generateReceipt toLowerCase st2 orderId date).1.cart ∧
    (generateReceipt toLowerCase st1 orderId date).1.storage =
      (generateReceipt toLowerCase st2 orderId date).1.storage := by
  obtain ⟨c1, s1, v1⟩ := st1
  obtain ⟨c2, s2, v2⟩ := st2
  simp only at hc hs
  subst hc
  subst hs
  unfold generateReceipt
  by_cases h0 : c1.length = 0
  · simp [h0]
  · simp only [h0, if_false]
    cases getLoggedInUser s1 with
    | none => exact ⟨rfl, rfl, rfl⟩
    | some user =>
      simp only []
      generalize saveUser toLowerCase _ _ = r
      cases r <;> exact ⟨rfl, rfl, rfl⟩

theorem generateReceipt_session (toLowerCase : String → String) (st : State)
    (orderId date : String) (user : Account) (hcart : st.cart ≠ [])
    (hlog : getLoggedInUser st.storage = some user) :
    getLoggedInUser (generateReceipt toLowerCase st orderId date).1.storage = some user ∨
    getLoggedInUser (generateReceipt toLowerCase st orderId date).1.storage =
      some (awardedAccount user (buildOrder st.cart orderId date)
        ⌊calculateSubtotal st.cart / 1000⌋) := by
  have h0 : ¬ st.cart.length = 0 := fun h => hcart (List.length_eq_zero.mp h)
  have hcu : (saveOrderToHistory st.storage (buildOrder st.cart orderId date)).currentUser =
      st.storage.currentUser := (saveOrderToHistory_frame _ _).2.1
  have hlog1 : getLoggedInUser (saveOrderToHistory st.storage (buildOrder st.cart orderId date))
      = some user := by
    unfold getLoggedInUser
    rw [hcu]
    exact hlog
  unfold generateReceipt
  simp only [h0, if_false, hlog]
  split
  · exact Or.inl hlog1
  · rename_i storage2 hsave
    rcases saveUser_currentUser toLowerCase _ _ _ hsave with h1 | h1
    · left
      show getLoggedInUser storage2 = some user
      unfold getLoggedInUser
      rw [h1, hcu]
      exact hlog
    · right
      show getLoggedInUser storage2 = _
      unfold getLoggedInUser
      rw [h1]
      rfl

theorem historyOrders_saveOrderToHistory (s : Storage) (h : List Order) (o : Order)
    (hstored : s.orders = .parsed (.array h) ∨ (s.orders = .absent ∧ h = []))
    (hw : s.ordersWritable = true) :
    (saveOrderToHistory s o).orders = .parsed (.array ((o :: h).take 100)) ∧
    historyOrders (saveOrderToHistory s o) = (o :: h).take 100 := by
  have hst : (saveOrderToHistory s o).orders = .parsed (.array ((o :: h).take 100)) := by
    rcases hstored with h1 | ⟨h1, h2⟩
    · simp [saveOrderToHistory, h1, hw]
    · simp [saveOrderToHistory, h1, h2, hw]
  exact ⟨hst, by simp [historyOrders, hst]⟩

theorem find?_eq_some_iff_first {α : Type} (p : α → Bool) (l : List α) (a : α) :
    l.find? p = some a ↔
      ∃ i : Nat, l[i]? = some a ∧ p a = true ∧
        ∀ (j : Nat) (v : α), j < i → l[j]? = some v → p v = false := by
  induction l with
  | nil => simp
  | cons x xs ih =>
    by_cases hx : p x = true
    · simp only [List.find?_cons, hx, Option.some.injEq]
      constructor
      · intro h
        subst h
        exact ⟨0, by simp, hx, fun j v hj => absurd hj (Nat.not_lt_zero j)⟩
      · rintro ⟨i, hi, _, hlt⟩
        cases i with
        | zero => simpa using hi
        | succ i =>
          have := hlt 0 x (Nat.succ_pos i) (by simp)
          rw [hx] at this
          cases this
    · have hx' : p x = false := by simpa using hx
      simp only [List.find?_cons, hx', ih]
      constructor
      · rintro ⟨i, hi, hp, hlt⟩
        refine ⟨i + 1, by simpa using hi, hp, ?_⟩
        intro j v hj hv
        cases j with
        | zero =>
          simp only [List.getElem?_cons_zero, Option.some.injEq] at hv
          subst hv
          exact hx'
        | succ j => exact hlt j v (Nat.lt_of_succ_lt_succ hj) (by simpa using hv)
      · rintro ⟨i, hi, hp, hlt⟩
        cases i with
        | zero =>
          simp only [List.getElem?_cons_zero, Option.some.injEq] at hi
          subst hi
          rw [hx'] at hp
          cases hp
        | succ i =>
          refine ⟨i, by simpa using hi, hp, ?_⟩
          intro j v hj hv
          exact hlt (j + 1) v (Nat.succ_lt_succ hj) (by simpa using hv)

theorem findUserByEmail_eq_find (toLowerCase : String → String)
    (hlow : ∀ s, toLowerCase s = "" ↔ s = "")
    (s : Storage) (users : List Account) (hdir : getUsers s = .array users) (email : String)
    (hne : email ≠ "") :
    findUserByEmail toLowerCase s email =
      .ok (users.find? (fun u => u.email.map toLowerCase == some (toLowerCase email))) := by
  have hfun : (fun u : Account =>
      match u.email with
      | none => false
      | some e => e != "" && toLowerCase e == toLowerCase email) =
      (fun u : Account => u.email.map toLowerCase == some (toLowerCase email)) := by
    funext u
    cases hue : u.email with
    | none => simp
    | some e =>
      by_cases hm : toLowerCase e = toLowerCase email
      · have he : e ≠ "" := by
          intro h0
          rw [h0, (hlow "").mpr rfl] at hm
          exact hne ((hlow email).mp hm.symm)
        simp [hm, he]
      · simp [hm]
  unfold findUserByEmail
  simp only [hne, if_false, hdir, hfun]

theorem set_eq_self_of_getElem? {α : Type} (l : List α) (i : Nat) (x : α)
    (h : l[i]? = some x) : l.set i x = l := by
  apply List.ext_getElem?
  intro j
  rw [List.getElem?_set]
  by_cases hij : i = j
  · subst hij
    have hi : i < l.length := (List.getElem?_eq_some.mp h).1
    simp [hi, h]
  · simp [hij]

theorem asciiLower_eq_empty (s : String) : asciiLower s = "" ↔ s = "" := by
  constructor
  · intro h
    have h1 : (asciiLower s).data = [] := by rw [h]
    have h2 : s.data = [] := by simpa [asciiLower] using h1
    exact String.ext h2
  · intro h
    rw [h]
    rfl

/-! ## Lemmas on signup, login and verification -/

theorem signupSubmit_otp (trim toLowerCase : String → String) (s s' : Storage)
    (emailInput password confirm email pw : String)
    (h : signupSubmit trim toLowerCase s emailInput password confirm =
      .ok (s', .otpChallenge email pw)) :
    s' = s ∧ email = trim emailInput ∧ pw = password ∧ email ≠ "" ∧ password ≠ "" ∧
    password = confirm ∧ findUserByEmail toLowerCase s email = .ok none := by
  unfold signupSubmit at h
  by_cases h1 : trim emailInput = "" ∨ password = ""
  · simp [h1] at h
  · simp only [h1, if_false] at h
    by_cases h2 : password = confirm
    · simp only [h2, ne_eq, not_true_eq_false, if_false] at h
      cases hr : findUserByEmail toLowerCase s (trim emailInput) with
      | error err => simp [hr] at h
      | ok r =>
        cases r with
        | some a => simp [hr] at h
        | none =>
          simp only [hr, Except.ok.injEq, Prod.mk.injEq, SignupStep.otpChallenge.injEq] at h
          obtain ⟨hs, he, hp⟩ := h
          refine ⟨hs.symm, he.symm, ?_, ?_, ?_, h2, ?_⟩
          · rw [← hp, h2]
          · rw [← he]; exact fun h0 => h1 (Or.inl h0)
          · exact fun h0 => h1 (Or.inr h0)
          · rw [← he]; exact hr
    · simp [h2] at h

theorem loginSubmit_otp (trim toLowerCase : String → String) (s s' : Storage)
    (emailInput password email : String) (user : Account)
    (h : loginSubmit trim toLowerCase s emailInput password =
      .ok (s', .otpChallenge email user)) :
    s' = s ∧ email = trim emailInput ∧
    findUserByEmail toLowerCase s email = .ok (some user) ∧ user.password = some password := by
  unfold loginSubmit at h
  cases hr : findUserByEmail toLowerCase s (trim emailInput) with
  | error err => simp [hr] at h
  | ok r =>
    cases r with
    | none => simp [hr] at h
    | some a =>
      by_cases hp : a.password = some password
      · simp only [hr, hp, ne_eq, not_true_eq_false, if_false, Except.ok.injEq,
          Prod.mk.injEq, LoginStep.otpChallenge.injEq] at h
        obtain ⟨hs, he, ha⟩ := h
        subst ha
        exact ⟨hs.symm, he.symm, by rw [← he]; exact hr, hp⟩
      · simp [hr, hp] at h

theorem findIndexByEmail_none_of_find (toLowerCase : String → String)
    (hlow : ∀ t, toLowerCase t = "" ↔ t = "")
    (s : Storage) (users : List Account) (hdir : getUsers s = .array users)
    (hall : AllHaveEmail users) (email : String) (hne : email ≠ "")
    (hfind : findUserByEmail toLowerCase s email = .ok none) :
    findIndexByEmail toLowerCase (toLowerCase email) users = .ok none := by
  rw [findUserByEmail_eq_find toLowerCase hlow s users hdir email hne] at hfind
  have hnone : users.find? (fun u => u.email.map toLowerCase == some (toLowerCase email))
      = none := Except.ok.inj hfind
  rw [List.find?_eq_none] at hnone
  obtain ⟨idx, hidx, hsome, _⟩ :=
    findIndexByEmail_ok toLowerCase (toLowerCase email) users hall
  cases idx with
  | none => exact hidx
  | some i =>
    obtain ⟨⟨u, hu, hum⟩, _⟩ := hsome i rfl
    have := hnone u (mem_of_getElem?_eq_some hu)
    simp [hum] at this

theorem signupVerified_nominal (toLowerCase : String → String)
    (hlow : ∀ t, toLowerCase t = "" ↔ t = "")
    (s : Storage) (users : List Account) (email password createdAt : String)
    (hdir : getUsers s = .array users) (hall : AllHaveEmail users)
    (hne : email ≠ "") (hfind : findUserByEmail toLowerCase s email = .ok none)
    (hwu : s.usersWritable = true) (hwc : s.currentUserWritable = true) :
    signupVerified toLowerCase s email password createdAt true =
      .ok { s with
            users := .parsed (.array
              (users ++ [⟨some email, some password, some 0, some [], some createdAt⟩]))
            currentUser := .parsed
              ⟨some email, some password, some 0, some [], some createdAt⟩ } := by
  obtain ⟨idx, hidx, hsave⟩ := saveUser_nominal toLowerCase s
    ⟨some email, some password, some 0, some [], some createdAt⟩ users email hdir hall rfl hne
    hwu hwc
  have hnone := findIndexByEmail_none_of_find toLowerCase hlow s users hdir hall email hne hfind
  rw [hnone] at hidx
  have hidx' : idx = none := (Except.ok.inj hidx).symm
  subst hidx'
  unfold signupVerified
  simp only [if_true, hsave, hwc]
  rfl

/-! ## Lemmas on decimal strings -/

theorem digitChar_isDigit (d : Nat) (h : d < 10) : (Nat.digitChar d).isDigit = true := by
  interval_cases d <;> decide

theorem digitChar_ne_zero (d : Nat) (h : d < 10) (h0 : d ≠ 0) : Nat.digitChar d ≠ '0' := by
  interval_cases d <;> first | exact absurd rfl h0 | decide

theorem digitChar_weight (d : Nat) (h : d < 10) : (Nat.digitChar d).toNat < 65536 := by
  interval_cases d <;> decide

theorem digits_length_four (m : Nat) (h1 : 1000 ≤ m) (h2 : m ≤ 9999) :
    (Nat.digits 10 m).length = 4 := by
  have hm : m ≠ 0 := by omega
  rw [Nat.digits_len 10 m (by norm_num) hm]
  have : Nat.log 10 m = 3 := by
    rw [Nat.log_eq_iff (Or.inl (by norm_num))]
    constructor
    · norm_num; exact h1
    · norm_num; omega
  rw [this]

theorem intToString_of_pos (m : Nat) (hm : m ≠ 0) :
    intToString (m : ℤ) = String.mk ((Nat.digits 10 m).reverse.map Nat.digitChar) := by
  have h1 : ¬ ((m : ℤ) = 0) := by exact_mod_cast hm
  have h2 : ¬ ((m : ℤ) < 0) := by omega
  simp [intToString, h1, h2]

theorem decimal_four_digits (m : Nat) (h1 : 1000 ≤ m) (h2 : m ≤ 9999) :
    (intToString (m : ℤ)).length = 4 ∧
    (∀ c ∈ (intToString (m : ℤ)).data, c.isDigit = true) ∧
    (intToString (m : ℤ)).data.head? ≠ some '0' ∧
    jsLength (intToString (m : ℤ)) = 4 := by
  have hm : m ≠ 0 := by omega
  have hlen := digits_length_four m h1 h2
  rw [intToString_of_pos m hm]
  have hlt : ∀ d ∈ Nat.digits 10 m, d < 10 := fun d hd => Nat.digits_lt_base (by norm_num) hd
  refine ⟨?_, ?_, ?_, ?_⟩
  · simp [String.length, hlen]
  · intro c hc
    simp only [List.mem_map, List.mem_reverse] at hc
    obtain ⟨d, hd, rfl⟩ := hc
    exact digitChar_isDigit d (hlt d hd)
  · have hne : Nat.digits 10 m ≠ [] := Nat.digits_ne_nil_iff_ne_zero.mpr hm
    have hlast := Nat.getLast_digit_ne_zero 10 hm
    have hhead : ((Nat.digits 10 m).reverse.map Nat.digitChar).head? =
        some (Nat.digitChar ((Nat.digits 10 m).getLast hne)) := by
      rw [List.head?_map, List.head?_reverse, List.getLast?_eq_getLast _ hne]
      rfl
    rw [hhead]
    intro h
    have h' := Option.some.inj h
    exact digitChar_ne_zero _ (hlt _ (List.getLast_mem hne)) hlast h'
  · unfold jsLength
    have hw : ∀ c ∈ (Nat.digits 10 m).reverse.map Nat.digitChar,
        (if c.toNat < 65536 then 1 else 2) = 1 := by
      intro c hc
      simp only [List.mem_map, List.mem_reverse] at hc
      obtain ⟨d, hd, rfl⟩ := hc
      simp [digitChar_weight d (hlt d hd)]
    rw [List.map_congr_left hw, List.map_const', List.sum_replicate]
    simp [hlen]

/-! ## Lemmas on trimming -/

theorem weight_dropWhile (p : Char → Bool) (l : List Char) :
    ((l.dropWhile p).map (fun c => if c.toNat < 65536 then 1 else 2)).sum ≤
      (l.map (fun c => if c.toNat < 65536 then 1 else 2)).sum ∧
    (((l.dropWhile p).map (fun c => if c.toNat < 65536 then 1 else 2)).sum =
      (l.map (fun c => if c.toNat < 65536 then 1 else 2)).sum → l.dropWhile p = l) := by
  induction l with
  | nil => simp
  | cons x xs ih =>
    by_cases hx : p x = true
    · have hpos : 1 ≤ (if x.toNat < 65536 then 1 else 2) := by split <;> omega
      simp only [List.dropWhile_cons, hx, if_true, List.map_cons, List.sum_cons]
      constructor
      · omega
      · intro h; omega
    · simp [List.dropWhile_cons, hx]

theorem weight_reverse (l : List Char) :
    (l.reverse.map (fun c => if c.toNat < 65536 then 1 else 2)).sum =
      (l.map (fun c => if c.toNat < 65536 then 1 else 2)).sum := by
  rw [List.map_reverse, List.sum_reverse]

theorem asciiTrim_shrink (t : String) : jsLength (asciiTrim t) ≤ jsLength t := by
  unfold jsLength asciiTrim
  simp only
  rw [weight_reverse]
  have h1 := (weight_dropWhile Char.isWhitespace
    (t.data.dropWhile Char.isWhitespace).reverse).1
  have h2 := (weight_dropWhile Char.isWhitespace t.data).1
  rw [weight_reverse] at h1
  omega

theorem asciiTrim_same (t : String) (h : jsLength (asciiTrim t) = jsLength t) :
    asciiTrim t = t := by
  unfold jsLength asciiTrim at h
  simp only at h
  rw [weight_reverse] at h
  have h1 := weight_dropWhile Char.isWhitespace (t.data.dropWhile Char.isWhitespace).reverse
  have h2 := weight_dropWhile Char.isWhitespace t.data
  rw [weight_reverse] at h1
  have e2 : t.data.dropWhile Char.isWhitespace = t.data := h2.2 (by omega)
  have e1 : (t.data.dropWhile Char.isWhitespace).reverse.dropWhile Char.isWhitespace =
      (t.data.dropWhile Char.isWhitespace).reverse := h1.2 (by omega)
  unfold asciiTrim
  rw [e1, List.reverse_reverse, e2]

/-! ## Lemmas on checkout under storage problems -/

theorem saveUser_ok_of_directory (toLowerCase : String → String) (s : Storage)
    (user : Account) (users : List Account)
    (hdir : getUsers s = .array users) (hall : AllHaveEmail users) :
    ∃ s', saveUser toLowerCase s user = .ok s' := by
  unfold saveUser
  cases user.email with
  | none => exact ⟨s, rfl⟩
  | some e =>
    by_cases he : e = ""
    · exact ⟨s, by simp [he]⟩
    · obtain ⟨idx, hidx, _, _⟩ := findIndexByEmail_ok toLowerCase (toLowerCase e) users hall
      simp only [he, if_false, hdir, hidx]
      exact ⟨_, rfl⟩

theorem generateReceipt_completes (toLowerCase : String → String) (st : State)
    (orderId date : String) (hcart : st.cart ≠ [])
    (hok : getLoggedInUser st.storage = none ∨
      ∃ users, getUsers st.storage = .array users ∧ AllHaveEmail users) :
    (generateReceipt toLowerCase st orderId date).2 =
      .placed (buildOrder st.cart orderId date) ∧
    (generateReceipt toLowerCase st orderId date).1.cart = [] := by
  have h0 : ¬ st.cart.length = 0 := fun h => hcart (List.length_eq_zero.mp h)
  unfold generateReceipt
  simp only [h0, if_false]
  cases hlog : getLoggedInUser st.storage with
  | none => exact ⟨rfl, rfl⟩
  | some user =>
    rcases hok with h | ⟨users, hdir, hall⟩
    · rw [hlog] at h; cases h
    · obtain ⟨s', hs'⟩ := saveUser_ok_of_directory toLowerCase
        (saveOrderToHistory st.storage (buildOrder st.cart orderId date))
        { user with
          orders := some (buildOrder st.cart orderId date :: user.orders.getD [])
          points := some (user.points.getD 0 + ⌊calculateSubtotal st.cart / 1000⌋) }
        users (by rw [getUsers_saveOrderToHistory]; exact hdir) hall
      simp [hs', updateCartUI]

theorem generateReceipt_threw (toLowerCase : String → String) (st : State)
    (orderId date : String) (user : Account) (e : String) (hcart : st.cart ≠ [])
    (hlog : getLoggedInUser st.storage = some user)
    (hemail : user.email = some e) (hne : e ≠ "")
    (herr : getUsers st.storage = .notArray ∨
      ∃ users, getUsers st.storage = .array users ∧
        findIndexByEmail toLowerCase (toLowerCase e) users = .error .typeError) :
    generateReceipt toLowerCase st orderId date =
      ({ st with storage := saveOrderToHistory st.storage (buildOrder st.cart orderId date) },
        .threw (buildOrder st.cart orderId date)) := by
  have h0 : ¬ st.cart.length = 0 := fun h => hcart (List.length_eq_zero.mp h)
  have hsave : saveUser toLowerCase
      (saveOrderToHistory st.storage (buildOrder st.cart orderId date))
      { user with
        orders := some (buildOrder st.cart orderId date :: user.orders.getD [])
        points := some (user.points.getD 0 + ⌊calculateSubtotal st.cart / 1000⌋) } =
      .error .typeError := by
    unfold saveUser
    simp only [hemail, hne, if_false, getUsers_saveOrderToHistory]
    rcases herr with h | ⟨users, hdir, hidx⟩
    · simp [h]
    · simp [hdir, hidx]
  unfold generateReceipt
  simp only [h0, if_false, hlog, hsave]

/-! ## Lemmas on the menu filters -/

theorem cardVisible_iff (trim toLowerCase : String → String)
    (splitWords : String → List String) (f : FilterState) (card : MenuCard) :
    cardVisible trim toLowerCase splitWords f card = true ↔
      (f.activeCategory = "Featured" ∨ card.category = f.activeCategory) ∧
      (toLowerCase (trim f.activeSearch) = "" ∨
        (toLowerCase (trim f.activeSearch)).data <:+: (toLowerCase card.title).data ∨
        (toLowerCase (trim f.activeSearch)).data <:+: (toLowerCase card.desc).data) ∧
      card.price ≤ f.maxPrice ∧
      (f.activeDietary = [] ∨
        ∃ d ∈ f.activeDietary, d ∈ splitWords (toLowerCase card.dietaryTags)) := by
  unfold cardVisible
  by_cases hd : f.activeDietary = []
  · simp [hd, includes, and_assoc, or_assoc]
  · have hlen : f.activeDietary.length > 0 := List.length_pos.mpr hd
    simp [hd, hlen, includes, and_assoc, or_assoc]

/-- The three tests of `generateComboSuggestions` as booleans: the suggestion list depends on
the cart only through them, and the first holds only when some item name has a main-course
keyword. -/
theorem comboSuggestions_flags (toLowerCase : String → String) (cart : Cart) :
    ∃ hasMainCourse hasDrink hasDessert : Bool,
      (hasMainCourse = true ↔ ∃ item ∈ cart,
        "burger".data <:+: (toLowerCase item.name).data ∨
        "chicken".data <:+: (toLowerCase item.name).data ∨
        "pizza".data <:+: (toLowerCase item.name).data ∨
        "pasta".data <:+: (toLowerCase item.name).data) ∧
      comboSuggestions toLowerCase cart =
        (if hasMainCourse && !hasDrink then [⟨"Add a Drink", "Save ₦1 500"⟩] else []) ++
        (if hasMainCourse && !hasDessert then [⟨"Add a Dessert", "Save ₦2 000"⟩] else []) ++
        (if hasMainCourse && !hasDrink && !hasDessert
          then [⟨"Ultimate Combo Deal", "Save ₦5 000"⟩] else []) := by
  refine ⟨_, _, _, ?_, rfl⟩
  simp [List.any_eq_true, includes, or_assoc]

/-! ## Lemmas on binary64 rounding -/

theorem roundHalfEven_near (q : ℚ) (m : ℤ) (h : |q - m| < 1 / 2) : roundHalfEven q = m := by
  have h1 := abs_lt.mp h
  have hfl : (⌊q⌋ : ℚ) ≤ q := Int.floor_le q
  have hfu : q < ⌊q⌋ + 1 := Int.lt_floor_add_one q
  unfold roundHalfEven
  simp only
  by_cases hc1 : q - (⌊q⌋ : ℚ) < 1 / 2
  · rw [if_pos hc1]
    have a1 : ((m : ℚ)) < ⌊q⌋ + 1 := by linarith [h1.1]
    have a2 : ((⌊q⌋ : ℤ) : ℚ) < m + 1 := by linarith [h1.2]
    have a1' : m < ⌊q⌋ + 1 := by exact_mod_cast a1
    have a2' : ⌊q⌋ < m + 1 := by exact_mod_cast a2
    omega
  · rw [if_neg hc1]
    by_cases hc2 : 1 / 2 < q - (⌊q⌋ : ℚ)
    · rw [if_pos hc2]
      have a1 : ((⌊q⌋ : ℤ) : ℚ) < m := by linarith [h1.2]
      have a2 : (m : ℚ) < ⌊q⌋ + 2 := by linarith [h1.1]
      have a1' : ⌊q⌋ < m := by exact_mod_cast a1
      have a2' : m < ⌊q⌋ + 2 := by exact_mod_cast a2
      omega
    · exfalso
      have heq : q = ⌊q⌋ + 1 / 2 := by linarith [not_lt.mp hc1, not_lt.mp hc2]
      have a1 : ((⌊q⌋ : ℤ) : ℚ) < m := by linarith [h1.2]
      have a2 : (m : ℚ) < ⌊q⌋ + 1 := by linarith [h1.1]
      have a1' : ⌊q⌋ < m := by exact_mod_cast a1
      have a2' : m < ⌊q⌋ + 1 := by exact_mod_cast a2
      omega

theorem roundHalfEven_tie (n : ℤ) :
    roundHalfEven ((n : ℚ) + 1 / 2) = if n % 2 = 0 then n else n + 1 := by
  have hfl : ⌊(n : ℚ) + 1 / 2⌋ = n := by
    rw [Int.floor_eq_iff]
    constructor <;> norm_num
  unfold roundHalfEven
  simp only [hfl]
  norm_num

theorem log_two_eq (x : ℚ) (k : ℤ) (hlo : (2 : ℚ) ^ k ≤ x) (hhi : x < (2 : ℚ) ^ (k + 1)) :
    Int.log 2 x = k := by
  have hx : 0 < x := lt_of_lt_of_le (by positivity) hlo
  have h1 : k ≤ Int.log 2 x := by
    rw [← Int.zpow_le_iff_le_log (by norm_num) hx]
    simpa using hlo
  have h2 : Int.log 2 x < k + 1 := by
    rw [← Int.lt_zpow_iff_log_lt (by norm_num) hx]
    simpa using hhi
  omega

/-- A number whose scaling by `2 ^ j` lies in `[2 ^ 52, 2 ^ 53)` is rounded at that scale. -/
theorem binary64_scaled (x : ℚ) (j : ℕ) (hlo : (2 : ℚ) ^ 52 ≤ x * 2 ^ j)
    (hhi : x * 2 ^ j < (2 : ℚ) ^ 53) :
    binary64 x = (roundHalfEven (x * 2 ^ j) : ℚ) / 2 ^ j := by
  have hj : (0 : ℚ) < 2 ^ j := by positivity
  have hx : 0 < x := by
    by_contra hc
    have : x * 2 ^ j ≤ 0 := mul_nonpos_of_nonpos_of_nonneg (not_lt.mp hc) hj.le
    have h52 : (0 : ℚ) < 2 ^ 52 := by positivity
    linarith
  have hlog : Int.log 2 x = 52 - (j : ℤ) := by
    apply log_two_eq
    · rw [zpow_sub₀ (by norm_num), zpow_natCast, div_le_iff₀ hj]
      exact_mod_cast hlo
    · have : (52 : ℤ) - j + 1 = 53 - j := by ring
      rw [this, zpow_sub₀ (by norm_num), zpow_natCast, lt_div_iff₀ hj]
      exact_mod_cast hhi
  unfold binary64
  rw [if_neg hx.ne', abs_of_pos hx, hlog, if_neg (not_lt.mpr hx.le)]
  have he : (52 : ℤ) - j - 52 = -(j : ℤ) := by ring
  simp only [he, zpow_neg, zpow_natCast]
  field_simp


theorem nat_scale (N : ℕ) (h0 : 0 < N) (h : N < 2 ^ 53) :
    ∃ j : ℕ, 2 ^ 52 ≤ N * 2 ^ j ∧ N * 2 ^ j < 2 ^ 53 := by
  have hk : Nat.log 2 N < 53 := Nat.log_lt_of_lt_pow h0.ne' h
  refine ⟨52 - Nat.log 2 N, ?_, ?_⟩
  · calc 2 ^ 52 = 2 ^ Nat.log 2 N * 2 ^ (52 - Nat.log 2 N) := by
          rw [← pow_add]; congr 1; omega
      _ ≤ N * 2 ^ (52 - Nat.log 2 N) :=
          Nat.mul_le_mul_right _ (Nat.pow_log_le_self 2 h0.ne')
  · calc N * 2 ^ (52 - Nat.log 2 N)
        < 2 ^ (Nat.log 2 N + 1) * 2 ^ (52 - Nat.log 2 N) :=
          Nat.mul_lt_mul_of_pos_right (Nat.lt_pow_succ_log_self (by norm_num) N)
            (by positivity)
      _ = 2 ^ 53 := by rw [← pow_add]; congr 1; omega

/-- Natural numbers below `2 ^ 53` are binary64 numbers. -/
theorem binary64_natCast (N : ℕ) (h : N < 2 ^ 53) : binary64 (N : ℚ) = N := by
  rcases Nat.eq_zero_or_pos N with h0 | h0
  · subst h0
    simp [binary64]
  · obtain ⟨j, hlo, hhi⟩ := nat_scale N h0 h
    have hlo' : (2 : ℚ) ^ 52 ≤ (N : ℚ) * 2 ^ j := by exact_mod_cast hlo
    have hhi' : (N : ℚ) * 2 ^ j < (2 : ℚ) ^ 53 := by exact_mod_cast hhi
    rw [binary64_scaled (N : ℚ) j hlo' hhi']
    have hr : roundHalfEven ((N : ℚ) * 2 ^ j) = ((N * 2 ^ j : ℕ) : ℤ) := by
      apply roundHalfEven_near
      push_cast
      norm_num
    rw [hr]
    push_cast
    field_simp

/-- The binary64 number written `0.1`. -/
theorem binary64_tenth : binary64 (1 / 10) = 3602879701896397 / 2 ^ 55 := by
  rw [binary64_scaled (1 / 10) 56 (by norm_num) (by norm_num)]
  have hr : roundHalfEven ((1 / 10 : ℚ) * 2 ^ 56) = 7205759403792794 := by
    apply roundHalfEven_near
    rw [abs_lt]
    constructor <;> norm_num
  rw [hr]
  norm_num

/-- A tenth of a multiple of ten is computed exactly: `(10 * T) * 0.1` is `T`. -/
theorem binary64_mul_tenth (T : ℕ) (h : T < 2 ^ 53) :
    binary64 ((10 * (T : ℚ)) * (3602879701896397 / 2 ^ 55)) = T := by
  rcases Nat.eq_zero_or_pos T with h0 | h0
  · subst h0
    simp [binary64]
  · obtain ⟨j, hlo, hhi⟩ := nat_scale T h0 h
    have hlo' : (2 : ℚ) ^ 52 ≤ (T : ℚ) * 2 ^ j := by exact_mod_cast hlo
    have hhi' : (T : ℚ) * 2 ^ j ≤ (2 : ℚ) ^ 53 - 1 := by
      have : T * 2 ^ j + 1 ≤ 2 ^ 53 := hhi
      have h2 : ((T * 2 ^ j + 1 : ℕ) : ℚ) ≤ ((2 ^ 53 : ℕ) : ℚ) := by exact_mod_cast this
      push_cast at h2
      linarith
    have hx : (10 * (T : ℚ)) * (3602879701896397 / 2 ^ 55) * 2 ^ j
        = (T : ℚ) * 2 ^ j + (T : ℚ) * 2 ^ j / 2 ^ 54 := by
      ring
    have hpos : (0 : ℚ) ≤ (T : ℚ) * 2 ^ j := by positivity
    rw [binary64_scaled _ j (by rw [hx]; linarith [div_nonneg hpos (by positivity : (0:ℚ) ≤ 2 ^ 54)])
      (by rw [hx]; norm_num at hhi' ⊢; linarith)]
    have hr : roundHalfEven ((10 * (T : ℚ)) * (3602879701896397 / 2 ^ 55) * 2 ^ j)
        = ((T * 2 ^ j : ℕ) : ℤ) := by
      apply roundHalfEven_near
      rw [hx]
      push_cast
      rw [abs_lt]
      norm_num at hhi' ⊢
      constructor <;> linarith
    rw [hr]
    push_cast
    field_simp

theorem round2_natCast (N : ℕ) : round2 (N : ℚ) = N := by
  have h0 : ¬ ((N : ℚ) < 0) := not_lt.mpr (Nat.cast_nonneg N)
  have hfl : ⌊(N : ℚ) * 100 + 1 / 2⌋ = ((N * 100 : ℕ) : ℤ) := by
    rw [Int.floor_eq_iff]
    push_cast
    constructor <;> norm_num
  unfold round2
  rw [if_neg h0, hfl]
  push_cast
  field_simp

theorem roundHalfEven_cases (y : ℚ) :
    (roundHalfEven y = ⌊y⌋ ∧ y - (⌊y⌋ : ℚ) ≤ 1 / 2) ∨
    (roundHalfEven y = ⌊y⌋ + 1 ∧ 1 / 2 ≤ y - (⌊y⌋ : ℚ)) := by
  unfold roundHalfEven
  simp only
  by_cases h1 : y - (⌊y⌋ : ℚ) < 1 / 2
  · exact Or.inl ⟨by rw [if_pos h1], h1.le⟩
  · rw [if_neg h1]
    by_cases h2 : 1 / 2 < y - (⌊y⌋ : ℚ)
    · exact Or.inr ⟨by rw [if_pos h2], h2.le⟩
    · rw [if_neg h2]
      by_cases h3 : ⌊y⌋ % 2 = 0
      · exact Or.inl ⟨by rw [if_pos h3], not_lt.mp h2⟩
      · exact Or.inr ⟨by rw [if_neg h3], not_lt.mp h1⟩

/-- Rounding moves a number by at most one half. -/
theorem roundHalfEven_sub_le (y : ℚ) : |(roundHalfEven y : ℚ) - y| ≤ 1 / 2 := by
  have hfl : (⌊y⌋ : ℚ) ≤ y := Int.floor_le y
  have hfu : y < ⌊y⌋ + 1 := Int.lt_floor_add_one y
  rw [abs_le]
  rcases roundHalfEven_cases y with ⟨h, hf⟩ | ⟨h, hf⟩
  · rw [h]
    constructor <;> linarith
  · rw [h]
    push_cast
    constructor <;> linarith

/-- Rounding never crosses an integer. -/
theorem le_roundHalfEven (y : ℚ) (A : ℤ) (h : (A : ℚ) ≤ y) : A ≤ roundHalfEven y := by
  have hA : A ≤ ⌊y⌋ := Int.le_floor.mpr h
  rcases roundHalfEven_cases y with ⟨h1, _⟩ | ⟨h1, _⟩ <;> rw [h1] <;> omega

theorem roundHalfEven_le (y : ℚ) (A : ℤ) (h : y ≤ (A : ℚ)) : roundHalfEven y ≤ A := by
  have hfl : (⌊y⌋ : ℚ) ≤ y := Int.floor_le y
  rcases roundHalfEven_cases y with ⟨h1, _⟩ | ⟨h1, hf⟩
  · rw [h1]
    have : ((⌊y⌋ : ℤ) : ℚ) ≤ A := le_trans hfl h
    exact_mod_cast this
  · rw [h1]
    have : ((⌊y⌋ : ℤ) : ℚ) < A := by linarith
    have h2 : ⌊y⌋ < A := by exact_mod_cast this
    omega

/-- Every positive number below `2 ^ 53` has a scale `2 ^ j` that brings it into
`[2 ^ 52, 2 ^ 53)`. -/
theorem rat_scale (x : ℚ) (h0 : 0 < x) (h : x < 2 ^ 53) :
    ∃ j : ℕ, (2 : ℚ) ^ 52 ≤ x * 2 ^ j ∧ x * 2 ^ j < (2 : ℚ) ^ 53 := by
  have hlo : ((2 : ℕ) : ℚ) ^ Int.log 2 x ≤ x := Int.zpow_log_le_self (by norm_num) h0
  have hhi : x < ((2 : ℕ) : ℚ) ^ (Int.log 2 x + 1) := Int.lt_zpow_succ_log_self (by norm_num) x
  rw [Nat.cast_ofNat] at hlo hhi
  have hk : Int.log 2 x < 53 := by
    have h1 : (2 : ℚ) ^ Int.log 2 x < (2 : ℚ) ^ (53 : ℤ) := by
      have : (2 : ℚ) ^ (53 : ℤ) = 2 ^ 53 := by norm_num
      rw [this]
      exact lt_of_le_of_lt hlo h
    exact (zpow_lt_zpow_iff_right₀ (by norm_num : (1 : ℚ) < 2)).mp h1
  obtain ⟨j, hj⟩ := Int.eq_ofNat_of_zero_le (by omega : (0 : ℤ) ≤ 52 - Int.log 2 x)
  have hpow : (2 : ℚ) ^ j = (2 : ℚ) ^ (52 - Int.log 2 x) := by
    rw [hj, zpow_natCast]
  have hpos : (0 : ℚ) < (2 : ℚ) ^ (52 - Int.log 2 x) := by positivity
  refine ⟨j, ?_, ?_⟩
  · rw [hpow]
    calc (2 : ℚ) ^ 52 = (2 : ℚ) ^ Int.log 2 x * (2 : ℚ) ^ (52 - Int.log 2 x) := by
          rw [← zpow_add₀ (by norm_num : (2 : ℚ) ≠ 0)]
          norm_num
      _ ≤ x * (2 : ℚ) ^ (52 - Int.log 2 x) := mul_le_mul_of_nonneg_right hlo hpos.le
  · rw [hpow]
    calc x * (2 : ℚ) ^ (52 - Int.log 2 x)
        < (2 : ℚ) ^ (Int.log 2 x + 1) * (2 : ℚ) ^ (52 - Int.log 2 x) :=
          mul_lt_mul_of_pos_right hhi hpos
      _ = (2 : ℚ) ^ 53 := by
          rw [← zpow_add₀ (by norm_num : (2 : ℚ) ≠ 0)]
          have he : Int.log 2 x + 1 + (52 - Int.log 2 x) = 53 := by ring
          rw [he]
          norm_num


/-- A grid point below `x` stays below the rounded `x`: `a` is a multiple of `2 ^ -j0` and
`x` is small enough for its own grid to be at least as fine. -/
theorem le_binary64 (x a : ℚ) (j0 : ℕ) (A : ℤ) (hA : a * 2 ^ j0 = A) (h0 : 0 < x)
    (hx : x * 2 ^ j0 < 2 ^ 53) (h : a ≤ x) : a ≤ binary64 x := by
  have hx53 : x < 2 ^ 53 := by
    have h1 : (1 : ℚ) ≤ 2 ^ j0 := one_le_pow₀ (by norm_num)
    nlinarith
  obtain ⟨j, hlo, hhi⟩ := rat_scale x h0 hx53
  have hj : j0 ≤ j := by
    by_contra hc
    have hlt : j + 1 ≤ j0 := by omega
    have h1 : (2 : ℚ) ^ (j + 1) ≤ 2 ^ j0 := pow_le_pow_right₀ (by norm_num) hlt
    have h2 : x * 2 ^ (j + 1) ≤ x * 2 ^ j0 := mul_le_mul_of_nonneg_left h1 h0.le
    rw [pow_succ] at h2
    linarith
  obtain ⟨d, hd⟩ := Nat.exists_eq_add_of_le hj
  have hgrid : a * 2 ^ j = ((A * 2 ^ d : ℤ) : ℚ) := by
    rw [hd, pow_add, ← mul_assoc, hA]
    push_cast
    ring
  rw [binary64_scaled x j hlo hhi]
  have hj0 : (0 : ℚ) < 2 ^ j := by positivity
  have hle : ((A * 2 ^ d : ℤ) : ℚ) ≤ x * 2 ^ j := by
    rw [← hgrid]
    exact mul_le_mul_of_nonneg_right h hj0.le
  have hr := le_roundHalfEven (x * 2 ^ j) (A * 2 ^ d) hle
  have hr' : ((A * 2 ^ d : ℤ) : ℚ) ≤ (roundHalfEven (x * 2 ^ j) : ℚ) := by exact_mod_cast hr
  rw [le_div_iff₀ hj0, hgrid]
  exact hr'

/-- A grid point above `x` stays above the rounded `x`. -/
theorem binary64_le (x a : ℚ) (j0 : ℕ) (A : ℤ) (hA : a * 2 ^ j0 = A) (h0 : 0 < x)
    (hx : x * 2 ^ j0 < 2 ^ 53) (h : x ≤ a) : binary64 x ≤ a := by
  have hx53 : x < 2 ^ 53 := by
    have h1 : (1 : ℚ) ≤ 2 ^ j0 := one_le_pow₀ (by norm_num)
    nlinarith
  obtain ⟨j, hlo, hhi⟩ := rat_scale x h0 hx53
  have hj : j0 ≤ j := by
    by_contra hc
    have hlt : j + 1 ≤ j0 := by omega
    have h1 : (2 : ℚ) ^ (j + 1) ≤ 2 ^ j0 := pow_le_pow_right₀ (by norm_num) hlt
    have h2 : x * 2 ^ (j + 1) ≤ x * 2 ^ j0 := mul_le_mul_of_nonneg_left h1 h0.le
    rw [pow_succ] at h2
    linarith
  obtain ⟨d, hd⟩ := Nat.exists_eq_add_of_le hj
  have hgrid : a * 2 ^ j = ((A * 2 ^ d : ℤ) : ℚ) := by
    rw [hd, pow_add, ← mul_assoc, hA]
    push_cast
    ring
  rw [binary64_scaled x j hlo hhi]
  have hj0 : (0 : ℚ) < 2 ^ j := by positivity
  have hle : x * 2 ^ j ≤ ((A * 2 ^ d : ℤ) : ℚ) := by
    rw [← hgrid]
    exact mul_le_mul_of_nonneg_right h hj0.le
  have hr := roundHalfEven_le (x * 2 ^ j) (A * 2 ^ d) hle
  have hr' : (roundHalfEven (x * 2 ^ j) : ℚ) ≤ ((A * 2 ^ d : ℤ) : ℚ) := by exact_mod_cast hr
  rw [div_le_iff₀ hj0, hgrid]
  exact hr'

theorem binary64_zero : binary64 0 = 0 := by
  simp [binary64]

/-- The rounding error is at most half a grid step. -/
theorem binary64_sub_le (x : ℚ) (j : ℕ) (hlo : (2 : ℚ) ^ 52 ≤ x * 2 ^ j)
    (hhi : x * 2 ^ j < (2 : ℚ) ^ 53) : |binary64 x - x| ≤ 1 / (2 * 2 ^ j) := by
  have hj0 : (0 : ℚ) < 2 ^ j := by positivity
  rw [binary64_scaled x j hlo hhi]
  have h := roundHalfEven_sub_le (x * 2 ^ j)
  have he : (roundHalfEven (x * 2 ^ j) : ℚ) / 2 ^ j - x
      = ((roundHalfEven (x * 2 ^ j) : ℚ) - x * 2 ^ j) / 2 ^ j := by
    field_simp
    ring
  rw [he, abs_div, abs_of_pos hj0, div_le_div_iff₀ (by positivity) (by positivity)]
  calc |(roundHalfEven (x * 2 ^ j) : ℚ) - x * 2 ^ j| * (2 * 2 ^ j)
      ≤ 1 / 2 * (2 * 2 ^ j) := mul_le_mul_of_nonneg_right h (by positivity)
    _ = 1 * 2 ^ j := by ring

/-- A concrete value of `binary64`: the scale and the nearest integer are given. -/
theorem binary64_eq_of_near (x : ℚ) (j : ℕ) (m : ℤ) (hlo : (2 : ℚ) ^ 52 ≤ x * 2 ^ j)
    (hhi : x * 2 ^ j < (2 : ℚ) ^ 53) (hm : |x * 2 ^ j - m| < 1 / 2) :
    binary64 x = (m : ℚ) / 2 ^ j := by
  rw [binary64_scaled x j hlo hhi, roundHalfEven_near _ m hm]

/-- A binary64 number below 1 is at most `1 - 2 ^ -53`. -/
theorem double_lt_one (r : ℚ) (h0 : 0 < r) (h1 : r < 1) (hr : binary64 r = r) :
    r ≤ 1 - 1 / 2 ^ 53 := by
  obtain ⟨j, hlo, hhi⟩ := rat_scale r h0 (by linarith [show (1 : ℚ) < 2 ^ 53 by norm_num])
  have hj0 : (0 : ℚ) < 2 ^ j := by positivity
  rw [binary64_scaled r j hlo hhi, div_eq_iff hj0.ne'] at hr
  have hK : ((roundHalfEven (r * 2 ^ j) : ℤ) : ℚ) < ((2 ^ 53 : ℤ) : ℚ) := by
    rw [hr]
    push_cast
    exact hhi
  have hK' : roundHalfEven (r * 2 ^ j) < 2 ^ 53 := by exact_mod_cast hK
  have hK1 : ((roundHalfEven (r * 2 ^ j) : ℤ) : ℚ) ≤ 2 ^ 53 - 1 := by
    have : roundHalfEven (r * 2 ^ j) ≤ 2 ^ 53 - 1 := by omega
    exact_mod_cast this
  have hjlt : (2 : ℚ) ^ 52 < 2 ^ j := by
    have : r * 2 ^ j < 1 * 2 ^ j := mul_lt_mul_of_pos_right h1 hj0
    linarith
  have hj : 52 < j := (pow_lt_pow_iff_right₀ (by norm_num : (1 : ℚ) < 2)).mp hjlt
  have hj53 : (2 : ℚ) ^ 53 ≤ 2 ^ j := pow_le_pow_right₀ (by norm_num) hj
  rw [hr] at hK1
  have h53 : (0 : ℚ) < 2 ^ 53 := by positivity
  have ha : r ≤ (2 ^ 53 - 1) / 2 ^ j := by
    rw [le_div_iff₀ hj0]
    exact hK1
  have hb : ((2 : ℚ) ^ 53 - 1) / 2 ^ j ≤ (2 ^ 53 - 1) / 2 ^ 53 :=
    div_le_div_of_nonneg_left (by norm_num) h53 hj53
  have hc : ((2 : ℚ) ^ 53 - 1) / 2 ^ 53 = 1 - 1 / 2 ^ 53 := by norm_num
  linarith

/-- The product `r * 9000` of a draw rounds to at most `9000 - 2 ^ -39`. -/
theorem binary64_draw_le (r : ℚ) (h0 : 0 < r) (h1 : r ≤ 1 - 1 / 2 ^ 53) :
    0 ≤ binary64 (r * 9000) ∧ binary64 (r * 9000) ≤ 9000 - 1 / 2 ^ 39 := by
  have hx0 : 0 < r * 9000 := by positivity
  have hx : r * 9000 ≤ 9000 - 9000 / 2 ^ 53 := by linarith
  constructor
  · exact le_binary64 (r * 9000) 0 0 0 (by norm_num) hx0 (by norm_num at hx ⊢; linarith)
      hx0.le
  · by_cases hc : (2 : ℚ) ^ 52 ≤ r * 9000 * 2 ^ 39
    · have hhi : r * 9000 * 2 ^ 39 < (2 : ℚ) ^ 53 := by norm_num at hx ⊢; linarith
      rw [binary64_scaled _ 39 hc hhi]
      have hb := (abs_le.mp (roundHalfEven_sub_le (r * 9000 * 2 ^ 39))).2
      have hlt : ((roundHalfEven (r * 9000 * 2 ^ 39) : ℤ) : ℚ) < ((9000 * 2 ^ 39 : ℤ) : ℚ) := by
        push_cast
        norm_num at hx ⊢
        linarith
      have hlt' : roundHalfEven (r * 9000 * 2 ^ 39) < 9000 * 2 ^ 39 := by exact_mod_cast hlt
      have hle : ((roundHalfEven (r * 9000 * 2 ^ 39) : ℤ) : ℚ) ≤ 9000 * 2 ^ 39 - 1 := by
        have : roundHalfEven (r * 9000 * 2 ^ 39) ≤ 9000 * 2 ^ 39 - 1 := by omega
        exact_mod_cast this
      rw [div_le_iff₀ (by positivity)]
      norm_num at hle ⊢
      linarith
    · have h8 : r * 9000 ≤ 8192 := by
        have := not_le.mp hc
        norm_num at this ⊢
        linarith
      have := binary64_le (r * 9000) 8192 0 8192 (by norm_num) hx0
        (by norm_num at h8 ⊢; linarith) h8
      norm_num at this ⊢
      linarith


/-- The two rounded operations of `generateOTP` on a draw: the result lies in
`[1000, 10000 - 2 ^ -39]` and its floor is the exact floor or one more. -/
theorem binary64_otp_bounds (r : ℚ) (h0 : 0 ≤ r) (h1 : r < 1) (hr : binary64 r = r) :
    1000 ≤ ⌊binary64 (binary64 (r * 9000) + 1000)⌋ ∧
    ⌊binary64 (binary64 (r * 9000) + 1000)⌋ ≤ 9999 ∧
    ⌊r * 9000 + 1000⌋ ≤ ⌊binary64 (binary64 (r * 9000) + 1000)⌋ ∧
    ⌊binary64 (binary64 (r * 9000) + 1000)⌋ ≤ ⌊r * 9000 + 1000⌋ + 1 := by
  rcases eq_or_lt_of_le h0 with hz | hpos
  · subst hz
    have e1 : binary64 (binary64 (0 * 9000) + 1000) = 1000 := by
      have := binary64_natCast 1000 (by norm_num)
      simpa [binary64_zero] using this
    rw [e1]
    norm_num
  · have hmax := double_lt_one r hpos h1 hr
    obtain ⟨hy0, hy1⟩ := binary64_draw_le r hpos hmax
    have hx0 : 0 < r * 9000 := by positivity
    have hx1 : r * 9000 < 9000 := by linarith
    have hz0 : 0 < binary64 (r * 9000) + 1000 := by linarith
    have hz53 : (binary64 (r * 9000) + 1000) * 2 ^ 39 < 2 ^ 53 := by
      norm_num at hy1 ⊢
      linarith
    have hlo : (1000 : ℚ) ≤ binary64 (binary64 (r * 9000) + 1000) :=
      le_binary64 _ 1000 0 1000 (by norm_num) hz0 (by norm_num at hy1 ⊢; linarith)
        (by linarith)
    have hhi : binary64 (binary64 (r * 9000) + 1000) ≤ 10000 - 1 / 2 ^ 39 :=
      binary64_le _ (10000 - 1 / 2 ^ 39) 39 (10000 * 2 ^ 39 - 1) (by norm_num) hz0 hz53
        (by linarith)
    have hn0 : ((⌊r * 9000 + 1000⌋ : ℤ) : ℚ) ≤ r * 9000 + 1000 := Int.floor_le _
    have hn1 : r * 9000 + 1000 < ⌊r * 9000 + 1000⌋ + 1 := Int.lt_floor_add_one _
    have ha : ((⌊r * 9000 + 1000⌋ - 1000 : ℤ) : ℚ) ≤ binary64 (r * 9000) :=
      le_binary64 _ _ 0 (⌊r * 9000 + 1000⌋ - 1000) (by simp) hx0 (by norm_num; linarith)
        (by push_cast; linarith)
    have hb : binary64 (r * 9000) ≤ ((⌊r * 9000 + 1000⌋ - 999 : ℤ) : ℚ) :=
      binary64_le _ _ 0 (⌊r * 9000 + 1000⌋ - 999) (by simp) hx0 (by norm_num; linarith)
        (by push_cast; linarith)
    have hc : ((⌊r * 9000 + 1000⌋ : ℤ) : ℚ) ≤ binary64 (binary64 (r * 9000) + 1000) :=
      le_binary64 _ _ 0 ⌊r * 9000 + 1000⌋ (by simp) hz0 (by norm_num at hy1 ⊢; linarith)
        (by push_cast at ha; linarith)
    have hd : binary64 (binary64 (r * 9000) + 1000) ≤ ((⌊r * 9000 + 1000⌋ + 1 : ℤ) : ℚ) :=
      binary64_le _ _ 0 (⌊r * 9000 + 1000⌋ + 1) (by simp) hz0 (by norm_num at hy1 ⊢; linarith)
        (by push_cast at hb ⊢; linarith)
    refine ⟨?_, ?_, ?_, ?_⟩
    · exact Int.le_floor.mpr (by exact_mod_cast hlo)
    · have : ⌊binary64 (binary64 (r * 9000) + 1000)⌋ < 10000 := by
        rw [Int.floor_lt]
        have h39 : (0 : ℚ) < 1 / 2 ^ 39 := by positivity
        push_cast
        linarith
      omega
    · exact Int.le_floor.mpr hc
    · have := Int.floor_le_floor hd
      rw [Int.floor_intCast] at this
      exact this

/-! ## Lemmas on the totals -/

theorem sum_lineTotals_nat (cart : Cart) (c : ℕ)
    (hprice : ∀ item ∈ cart, ∃ n : ℕ, item.price = c * n)
    (hqty : ∀ item ∈ cart, 0 ≤ item.quantity) :
    ∃ K : ℕ, (cart.map (fun item => item.price * (item.quantity : ℚ))).sum = c * K := by
  induction cart with
  | nil => exact ⟨0, by simp⟩
  | cons item rest ih =>
    obtain ⟨K, hK⟩ := ih (fun i hi => hprice i (List.mem_cons_of_mem _ hi))
      (fun i hi => hqty i (List.mem_cons_of_mem _ hi))
    obtain ⟨n, hn⟩ := hprice item (List.mem_cons_self _ _)
    obtain ⟨q, hq⟩ := Int.eq_ofNat_of_zero_le (hqty item (List.mem_cons_self _ _))
    refine ⟨n * q + K, ?_⟩
    rw [List.map_cons, List.sum_cons, hK, hn, hq]
    push_cast
    ring

/-- Sums of integer amounts that stay below `2 ^ 53` are computed exactly. -/
theorem foldl_binary64_exact (cart : Cart)
    (hprice : ∀ item ∈ cart, ∃ n : ℕ, item.price = n)
    (hqty : ∀ item ∈ cart, 0 ≤ item.quantity) (acc : ℕ)
    (hb : (acc : ℚ) + (cart.map (fun item => item.price * (item.quantity : ℚ))).sum
      < 2 ^ 53) :
    cart.foldl (fun sum item => binary64 (sum + binary64 (item.price * (item.quantity : ℚ))))
        (acc : ℚ)
      = acc + (cart.map (fun item => item.price * (item.quantity : ℚ))).sum := by
  induction cart generalizing acc with
  | nil => simp
  | cons item rest ih =>
    have hprice' : ∀ i ∈ rest, ∃ n : ℕ, i.price = n :=
      fun i hi => hprice i (List.mem_cons_of_mem _ hi)
    have hqty' : ∀ i ∈ rest, 0 ≤ i.quantity := fun i hi => hqty i (List.mem_cons_of_mem _ hi)
    obtain ⟨K, hK⟩ := sum_lineTotals_nat rest 1 (by simpa using hprice') hqty'
    obtain ⟨n, hn⟩ := hprice item (List.mem_cons_self _ _)
    obtain ⟨q, hq⟩ := Int.eq_ofNat_of_zero_le (hqty item (List.mem_cons_self _ _))
    have hprod : item.price * (item.quantity : ℚ) = ((n * q : ℕ) : ℚ) := by
      rw [hn, hq]
      push_cast
      ring
    rw [List.map_cons, List.sum_cons, hprod] at hb
    rw [List.foldl_cons, List.map_cons, List.sum_cons, hprod]
    have hK0 : (0 : ℚ) ≤ (rest.map (fun item => item.price * (item.quantity : ℚ))).sum := by
      rw [hK]
      positivity
    have h1 : n * q < 2 ^ 53 := by
      have : ((n * q : ℕ) : ℚ) < ((2 ^ 53 : ℕ) : ℚ) := by
        push_cast
        push_cast at hb
        linarith [(Nat.cast_nonneg acc : (0 : ℚ) ≤ acc)]
      exact_mod_cast this
    have h2 : acc + n * q < 2 ^ 53 := by
      have : ((acc + n * q : ℕ) : ℚ) < ((2 ^ 53 : ℕ) : ℚ) := by
        push_cast
        push_cast at hb
        linarith
      exact_mod_cast this
    have hsum : (acc : ℚ) + ((n * q : ℕ) : ℚ) = ((acc + n * q : ℕ) : ℚ) := by
      push_cast
      ring
    rw [binary64_natCast _ h1, hsum, binary64_natCast _ h2]
    rw [ih hprice' hqty' (acc + n * q) (by rw [← hsum]; linarith)]
    rw [← hsum]
    ring

/-- The subtotal of integer prices is computed exactly while it stays below `2 ^ 53`. -/
theorem calculateSubtotalFl_binary64 (cart : Cart)
    (hprice : ∀ item ∈ cart, ∃ n : ℕ, item.price = n)
    (hqty : ∀ item ∈ cart, 0 ≤ item.quantity) (hb : calculateSubtotal cart < 2 ^ 53) :
    calculateSubtotalFl binary64 cart = calculateSubtotal cart := by
  rw [calculateSubtotal_eq_sum] at hb ⊢
  have h := foldl_binary64_exact cart hprice hqty 0 (by simpa using hb)
  simpa [calculateSubtotalFl] using h

/-- For prices that are multiples of ten, both computations of the totals are exact in
binary64 arithmetic: the tax is a tenth of the subtotal and the total is their sum. -/
theorem totals_of_tens (cart : Cart)
    (hprice : ∀ item ∈ cart, ∃ n : ℕ, item.price = 10 * n)
    (hqty : ∀ item ∈ cart, 0 ≤ item.quantity)
    (hb : calculateSubtotal cart + calculateSubtotal cart / 10 < 2 ^ 53) :
    generateReceiptTotals binary64 cart =
      ⟨calculateSubtotal cart, calculateSubtotal cart / 10,
        calculateSubtotal cart + calculateSubtotal cart / 10⟩ ∧
    showPaymentModalTotals binary64 cart =
      ⟨calculateSubtotal cart, calculateSubtotal cart / 10,
        calculateSubtotal cart + calculateSubtotal cart / 10⟩ := by
  obtain ⟨T, hT0⟩ := sum_lineTotals_nat cart 10 (by simpa using hprice) hqty
  have hT : calculateSubtotal cart = 10 * (T : ℚ) := by
    rw [calculateSubtotal_eq_sum, hT0]
    norm_num
  rw [hT] at hb
  have h11 : 11 * T < 2 ^ 53 := by
    have : ((11 * T : ℕ) : ℚ) < ((2 ^ 53 : ℕ) : ℚ) := by
      push_cast
      linarith
    exact_mod_cast this
  have hT53 : T < 2 ^ 53 := by omega
  have hS53 : (10 : ℚ) * T < 2 ^ 53 := by
    have : (0 : ℚ) ≤ T := Nat.cast_nonneg T
    linarith
  have hnat : ∀ item ∈ cart, ∃ n : ℕ, item.price = n := by
    intro item hi
    obtain ⟨n, hn⟩ := hprice item hi
    exact ⟨10 * n, by rw [hn]; push_cast; ring⟩
  have hS : calculateSubtotalFl binary64 cart = 10 * (T : ℚ) := by
    rw [calculateSubtotalFl_binary64 cart hnat hqty (by rw [hT]; exact hS53), hT]
  have htax : binary64 (10 * (T : ℚ) * binary64 (1 / 10)) = T := by
    rw [binary64_tenth, binary64_mul_tenth T hT53]
  have hsum : (10 * (T : ℚ) + T) = ((11 * T : ℕ) : ℚ) := by
    push_cast
    ring
  have htot : binary64 (10 * (T : ℚ) + T) = 10 * (T : ℚ) + T := by
    rw [hsum, binary64_natCast _ h11]
  have e1 : 10 * (T : ℚ) / 10 = T := by field_simp
  have hr1 : toFixed2 binary64 (T : ℚ) = T := by
    rw [toFixed2, round2_natCast, binary64_natCast T hT53]
  have hr2 : toFixed2 binary64 (10 * (T : ℚ) + T) = 10 * (T : ℚ) + T := by
    rw [hsum, toFixed2, round2_natCast, binary64_natCast _ h11]
  rw [hT, e1]
  constructor
  · simp only [generateReceiptTotals, hS, htax, htot]
  · simp only [showPaymentModalTotals, hS, htax, hr1, htot, hr2]

/-- The order handed on by `generateReceipt` is the one `buildOrder` computes. -/
theorem generateReceipt_result (toLowerCase : String → String) (st : State)
    (orderId date : String) (hne : st.cart ≠ []) :
    (generateReceipt toLowerCase st orderId date).2 = .placed (buildOrder st.cart orderId date) ∨
    (generateReceipt toLowerCase st orderId date).2 = .threw (buildOrder st.cart orderId date) := by
  have hlen : ¬ st.cart.length = 0 := by
    intro h
    exact hne (List.length_eq_zero.mp h)
  unfold generateReceipt
  rw [if_neg hlen]
  simp only
  cases getLoggedInUser st.storage with
  | none => exact Or.inl rfl
  | some user =>
    simp only
    split
    · exact Or.inr rfl
    · exact Or.inl rfl

/-- Without rounding the totals of `generateReceiptTotals` are those of `buildOrder`. -/
theorem generateReceiptTotals_id (cart : Cart) (orderId date : String) :
    generateReceiptTotals id cart =
      ⟨(buildOrder cart orderId date).subtotal, (buildOrder cart orderId date).tax,
        (buildOrder cart orderId date).total⟩ := by
  rfl

/-- Without rounding the totals of `showPaymentModalTotals` are those of the modal. -/
theorem showPaymentModalTotals_id (st : State) :
    showPaymentModalTotals id st.cart =
      ⟨(showPaymentModal st).subtotal, (showPaymentModal st).tax,
        (showPaymentModal st).total⟩ := by
  rfl

/-- The exact totals of a cart whose prices are multiples of ten. -/
theorem exact_totals_of_tens (st : State) (orderId date : String)
    (hprice : ∀ item ∈ st.cart, ∃ n : ℕ, item.price = 10 * n)
    (hqty : ∀ item ∈ st.cart, 0 ≤ item.quantity) :
    (showPaymentModal st).tax = calculateSubtotal st.cart / 10 ∧
    (showPaymentModal st).total = calculateSubtotal st.cart + calculateSubtotal st.cart / 10 ∧
    (buildOrder st.cart orderId date).tax = calculateSubtotal st.cart / 10 ∧
    (buildOrder st.cart orderId date).total =
      calculateSubtotal st.cart + calculateSubtotal st.cart / 10 := by
  obtain ⟨T, hT0⟩ := sum_lineTotals_nat st.cart 10 (by simpa using hprice) hqty
  have hT : calculateSubtotal st.cart = 10 * (T : ℚ) := by
    rw [calculateSubtotal_eq_sum, hT0]
    norm_num
  have e1 : 10 * (T : ℚ) * (1 / 10) = T := by field_simp
  have e2 : 10 * (T : ℚ) / 10 = T := by field_simp
  have e3 : 10 * (T : ℚ) + T = ((11 * T : ℕ) : ℚ) := by
    push_cast
    ring
  simp only [showPaymentModal, buildOrder, hT, e1, e2, round2_natCast, e3]
  exact ⟨trivial, trivial, trivial, trivial⟩

/-! ## Lemmas on the concrete inputs -/

theorem pastOrder_injective (i j : ℕ) (h : pastOrder i = pastOrder j) : i = j := by
  have h1 := congrArg Order.items h
  simp [pastOrder, buildOrder] at h1
  exact h1

theorem demoHistory_length : demoHistory.length = 100 := by
  simp [demoHistory]

theorem demoHistory_dropLast : demoHistory.dropLast = (List.range 99).map pastOrder := by
  rw [List.dropLast_eq_take, demoHistory_length]
  show List.take 99 ((List.range 100).map pastOrder) = _
  rw [← List.map_take, List.take_range]
  rfl

/-! ## Lemmas on the checkout in the arithmetic of the host -/

theorem buildOrderFl_items (fl : ℚ → ℚ) (cart : Cart) (orderId date : String) :
    (buildOrderFl fl cart orderId date).items = cart := by
  simp [buildOrderFl]

/-- For a non-empty cart `generateReceipt` hands on the order of `buildOrderFl`, which it
has passed to `saveOrderToHistory`. -/
theorem generateReceiptFl_result (fl : ℚ → ℚ) (toLowerCase : String → String) (st : State)
    (orderId date : String) (hne : st.cart ≠ []) :
    ((generateReceiptFl fl toLowerCase st orderId date).2 =
        .placed (buildOrderFl fl st.cart orderId date) ∨
      (generateReceiptFl fl toLowerCase st orderId date).2 =
        .threw (buildOrderFl fl st.cart orderId date)) ∧
    (generateReceiptFl fl toLowerCase st orderId date).1.storage.orders =
      (saveOrderToHistory st.storage (buildOrderFl fl st.cart orderId date)).orders := by
  have h0 : ¬ st.cart.length = 0 := fun h => hne (List.length_eq_zero.mp h)
  unfold generateReceiptFl
  simp only [h0, if_false]
  cases getLoggedInUser st.storage with
  | none => exact ⟨Or.inl rfl, rfl⟩
  | some user =>
    simp only []
    split
    · exact ⟨Or.inr rfl, rfl⟩
    · rename_i storage2 hsave
      exact ⟨Or.inl rfl, (saveUser_ok toLowerCase _ _ _ hsave).1⟩

/-- The run of `generateReceipt` on a healthy store, under any rounding. -/
theorem generateReceiptFl_nominal (fl : ℚ → ℚ) (toLowerCase : String → String) (st : State)
    (orderId date : String) (user : Account) (users : List Account) (e : String)
    (hcart : st.cart ≠ []) (hlog : getLoggedInUser st.storage = some user)
    (hemail : user.email = some e) (hne : e ≠ "")
    (hdir : getUsers st.storage = .array users) (hall : AllHaveEmail users)
    (hwu : st.storage.usersWritable = true) (hwc : st.storage.currentUserWritable = true) :
    ∃ idx, findIndexByEmail toLowerCase (toLowerCase e) users = .ok idx ∧
      generateReceiptFl fl toLowerCase st orderId date =
        (updateCartUIFl fl
          { st with
            cart := []
            storage :=
              { saveOrderToHistory st.storage (buildOrderFl fl st.cart orderId date) with
                users := .parsed (.array (upsertAt users idx
                  (awardedAccount user (buildOrderFl fl st.cart orderId date)
                    ⌊fl (calculateSubtotalFl fl st.cart / 1000)⌋)))
                currentUser := .parsed
                  (awardedAccount user (buildOrderFl fl st.cart orderId date)
                    ⌊fl (calculateSubtotalFl fl st.cart / 1000)⌋) } },
          .placed (buildOrderFl fl st.cart orderId date)) := by
  have h0 : ¬ st.cart.length = 0 := fun h => hcart (List.length_eq_zero.mp h)
  obtain ⟨f1, f2, f3, f4, f5⟩ :=
    saveOrderToHistory_frame st.storage (buildOrderFl fl st.cart orderId date)
  obtain ⟨idx, hidx, hsave⟩ := saveUser_nominal toLowerCase
    (saveOrderToHistory st.storage (buildOrderFl fl st.cart orderId date))
    (awardedAccount user (buildOrderFl fl st.cart orderId date)
      ⌊fl (calculateSubtotalFl fl st.cart / 1000)⌋)
    users e (by rw [getUsers_saveOrderToHistory]; exact hdir) hall hemail hne
    (by rw [f3]; exact hwu) (by rw [f4]; exact hwc)
  refine ⟨idx, hidx, ?_⟩
  unfold generateReceiptFl
  simp only [h0, if_false, hlog]
  have hsave' : saveUser toLowerCase
      (saveOrderToHistory st.storage (buildOrderFl fl st.cart orderId date))
      { user with
        orders := some (buildOrderFl fl st.cart orderId date :: user.orders.getD [])
        points := some (user.points.getD 0 + ⌊fl (calculateSubtotalFl fl st.cart / 1000)⌋) }
      = _ := hsave
  rw [hsave']


/-- The loyalty points of an integer subtotal: rounding the quotient by 1000 does not change
its floor. -/
theorem floor_binary64_div_thousand (S : ℕ) (h : S < 2 ^ 53) :
    ⌊binary64 ((S : ℚ) / 1000)⌋ = ⌊(S : ℚ) / 1000⌋ := by
  rcases Nat.eq_zero_or_pos S with hz | hpos
  · subst hz
    simp [binary64_zero]
  · have hS : (S : ℚ) < 2 ^ 53 := by exact_mod_cast h
    have hx0 : (0 : ℚ) < (S : ℚ) / 1000 := by positivity
    have hx53 : (S : ℚ) / 1000 < 2 ^ 53 := by
      rw [div_lt_iff₀ (by norm_num)]
      linarith
    have hq0 : ((⌊(S : ℚ) / 1000⌋ : ℤ) : ℚ) ≤ (S : ℚ) / 1000 := Int.floor_le _
    have hq1 : (S : ℚ) / 1000 < ⌊(S : ℚ) / 1000⌋ + 1 := Int.lt_floor_add_one _
    have hlow : ((⌊(S : ℚ) / 1000⌋ : ℤ) : ℚ) ≤ binary64 ((S : ℚ) / 1000) :=
      le_binary64 _ _ 0 ⌊(S : ℚ) / 1000⌋ (by simp) hx0 (by simpa using hx53) hq0
    have hfrac : (S : ℚ) / 1000 ≤ ⌊(S : ℚ) / 1000⌋ + 999 / 1000 := by
      have h1 : ((S : ℤ) : ℚ) < ((1000 * (⌊(S : ℚ) / 1000⌋ + 1) : ℤ) : ℚ) := by
        push_cast
        rw [div_lt_iff₀ (by norm_num)] at hq1
        linarith
      have h2 : (S : ℤ) < 1000 * (⌊(S : ℚ) / 1000⌋ + 1) := by exact_mod_cast h1
      have h3 : (S : ℤ) ≤ 1000 * ⌊(S : ℚ) / 1000⌋ + 999 := by omega
      have h4 : ((S : ℤ) : ℚ) ≤ ((1000 * ⌊(S : ℚ) / 1000⌋ + 999 : ℤ) : ℚ) := by
        exact_mod_cast h3
      push_cast at h4
      rw [div_le_iff₀ (by norm_num)]
      linarith
    obtain ⟨j, hlo, hhi⟩ := rat_scale _ hx0 hx53
    have hj0 : (0 : ℚ) < 2 ^ j := by positivity
    have hj : (500 : ℚ) < 2 ^ j := by
      by_contra hc
      have h1 : (S : ℚ) / 1000 * 2 ^ j ≤ (S : ℚ) / 1000 * 500 :=
        mul_le_mul_of_nonneg_left (not_lt.mp hc) hx0.le
      norm_num at hlo
      linarith
    have herr := (abs_le.mp (binary64_sub_le _ j hlo hhi)).2
    have hsmall : (1 : ℚ) / (2 * 2 ^ j) < 1 / 1000 := by
      rw [div_lt_div_iff₀ (by positivity) (by norm_num)]
      linarith
    have hup : binary64 ((S : ℚ) / 1000) < ⌊(S : ℚ) / 1000⌋ + 1 := by linarith
    rw [Int.floor_eq_iff]
    exact ⟨hlow, hup⟩

/-- For integer prices whose subtotal is a multiple of ten, the subtotal, its tenth and their
sum are computed exactly in binary64 arithmetic. -/
theorem binary64_totals (cart : Cart) (hnat : ∀ item ∈ cart, ∃ n : ℕ, item.price = n)
    (hqty : ∀ item ∈ cart, 0 ≤ item.quantity) (T : ℕ)
    (hT : calculateSubtotal cart = 10 * (T : ℚ))
    (hb : calculateSubtotal cart + calculateSubtotal cart / 10 < 2 ^ 53) :
    calculateSubtotalFl binary64 cart = calculateSubtotal cart ∧
    binary64 (calculateSubtotal cart * binary64 (1 / 10)) = calculateSubtotal cart / 10 ∧
    binary64 (calculateSubtotal cart + calculateSubtotal cart / 10) =
      calculateSubtotal cart + calculateSubtotal cart / 10 ∧
    ⌊binary64 (calculateSubtotal cart / 1000)⌋ = ⌊calculateSubtotal cart / 1000⌋ := by
  rw [hT] at hb ⊢
  have h11 : 11 * T < 2 ^ 53 := by
    have : ((11 * T : ℕ) : ℚ) < ((2 ^ 53 : ℕ) : ℚ) := by
      push_cast
      linarith
    exact_mod_cast this
  have hT53 : T < 2 ^ 53 := by omega
  have hS53 : 10 * T < 2 ^ 53 := by omega
  have hS53' : (10 : ℚ) * T < 2 ^ 53 := by exact_mod_cast hS53
  have e1 : 10 * (T : ℚ) / 10 = T := by field_simp
  have hsum : (10 * (T : ℚ) + T) = ((11 * T : ℕ) : ℚ) := by
    push_cast
    ring
  refine ⟨?_, ?_, ?_, ?_⟩
  · rw [calculateSubtotalFl_binary64 cart hnat hqty (by rw [hT]; exact hS53'), hT]
  · rw [binary64_tenth, binary64_mul_tenth T hT53, e1]
  · rw [e1, hsum, binary64_natCast _ h11]
  · have := floor_binary64_div_thousand (10 * T) hS53
    push_cast at this
    exact this


/-- A concrete value of `binary64` at a tie: the scaled number lies halfway between two
integers and the even one is taken. -/
theorem binary64_eq_of_tie (x : ℚ) (j : ℕ) (n : ℤ) (hlo : (2 : ℚ) ^ 52 ≤ x * 2 ^ j)
    (hhi : x * 2 ^ j < (2 : ℚ) ^ 53) (hn : x * 2 ^ j = (n : ℚ) + 1 / 2) :
    binary64 x = ((if n % 2 = 0 then n else n + 1 : ℤ) : ℚ) / 2 ^ j := by
  rw [binary64_scaled x j hlo hhi, hn, roundHalfEven_tie]

/-- In binary64 arithmetic `3 * 0.1` is `0.30000000000000004`. -/
theorem binary64_three_tenths :
    binary64 (3 * binary64 (1 / 10)) = 5404319552844596 / 2 ^ 54 := by
  rw [binary64_tenth, binary64_eq_of_tie _ 54 5404319552844595 (by norm_num) (by norm_num)
    (by norm_num)]
  norm_num

/-- In binary64 arithmetic `6 * 0.1` is `0.6000000000000001`. -/
theorem binary64_six_tenths :
    binary64 (6 * binary64 (1 / 10)) = 5404319552844596 / 2 ^ 53 := by
  rw [binary64_tenth, binary64_eq_of_tie _ 53 5404319552844595 (by norm_num) (by norm_num)
    (by norm_num)]
  norm_num

/-- The binary64 number written `0.2`. -/
theorem binary64_two_tenths : binary64 (2 / 10) = 3602879701896397 / 2 ^ 54 := by
  rw [binary64_eq_of_near _ 55 7205759403792794 (by norm_num) (by norm_num)
    (by rw [abs_lt]; constructor <;> norm_num)]
  norm_num

/-- The binary64 number written `0.3`. -/
theorem binary64_three_tenths_lit : binary64 (3 / 10) = 5404319552844595 / 2 ^ 54 := by
  rw [binary64_eq_of_near _ 54 5404319552844595 (by norm_num) (by norm_num)
    (by rw [abs_lt]; constructor <;> norm_num)]
  norm_num

/-- The sums of `0.1`, `0.2` and `0.3` in binary64 arithmetic, taken from the left and from
the right: `0.6000000000000001` and `0.6`. -/
theorem binary64_sums :
    binary64 (3602879701896397 / 2 ^ 55) = 3602879701896397 / 2 ^ 55 ∧
    binary64 (3602879701896397 / 2 ^ 54) = 3602879701896397 / 2 ^ 54 ∧
    binary64 (5404319552844595 / 2 ^ 54) = 5404319552844595 / 2 ^ 54 ∧
    binary64 (3602879701896397 / 2 ^ 55 + 3602879701896397 / 2 ^ 54)
      = 5404319552844596 / 2 ^ 54 ∧
    binary64 (5404319552844596 / 2 ^ 54 + 5404319552844595 / 2 ^ 54)
      = 5404319552844596 / 2 ^ 53 ∧
    binary64 (5404319552844595 / 2 ^ 54 + 3602879701896397 / 2 ^ 54) = 1 / 2 ∧
    binary64 (1 / 2 + 3602879701896397 / 2 ^ 55) = 5404319552844595 / 2 ^ 53 ∧
    binary64 (3602879701896397 / 2 ^ 55 * 3) = 5404319552844596 / 2 ^ 54 ∧
    binary64 (5404319552844596 / 2 ^ 54) = 5404319552844596 / 2 ^ 54 := by
  refine ⟨?_, ?_, ?_, ?_, ?_, ?_, ?_, ?_, ?_⟩
  · rw [binary64_eq_of_near _ 56 7205759403792794 (by norm_num) (by norm_num) (by norm_num)]
    norm_num
  · rw [binary64_eq_of_near _ 55 7205759403792794 (by norm_num) (by norm_num) (by norm_num)]
    norm_num
  · rw [binary64_eq_of_near _ 54 5404319552844595 (by norm_num) (by norm_num) (by norm_num)]
    norm_num
  · rw [binary64_eq_of_tie _ 54 5404319552844595 (by norm_num) (by norm_num) (by norm_num)]
    norm_num
  · rw [binary64_eq_of_tie _ 53 5404319552844595 (by norm_num) (by norm_num) (by norm_num)]
    norm_num
  · rw [binary64_eq_of_near _ 53 4503599627370496 (by norm_num) (by norm_num) (by norm_num)]
    norm_num
  · rw [binary64_eq_of_near _ 53 5404319552844595 (by norm_num) (by norm_num)
      (by rw [abs_lt]; constructor <;> norm_num)]
    norm_num
  · rw [binary64_eq_of_tie _ 54 5404319552844595 (by norm_num) (by norm_num) (by norm_num)]
    norm_num
  · rw [binary64_eq_of_near _ 54 5404319552844596 (by norm_num) (by norm_num) (by norm_num)]
    norm_num


theorem demoAccount_allHaveEmail : AllHaveEmail [demoAccount] := by
  intro u hu
  rw [List.mem_singleton] at hu
  subst hu
  decide

/-- The end-to-end scenario on a healthy store, under any rounding: the cart holds one line
with quantity 2 before checkout, the order of that cart is placed, the cart is emptied and
the awarded account becomes the session account and an entry of the directory. -/
theorem twoItemCheckout_nominal (fl : ℚ → ℚ) (trim toLowerCase : String → String)
    (st0 : State) (user : Account) (users : List Account) (e name : String) (p : ℚ)
    (orderId date : String)
    (hempty : st0.cart = [])
    (hlog : getLoggedInUser st0.storage = some user)
    (hemail : user.email = some e) (hne : e ≠ "")
    (hdir : getUsers st0.storage = .array users) (hall : AllHaveEmail users)
    (hwu : st0.storage.usersWritable = true) (hwc : st0.storage.currentUserWritable = true) :
    (addToCartClickFl fl (addToCartClickFl fl st0 name p) name p).cart = [⟨name, p, 2⟩] ∧
    ∃ users' : List Account,
      (twoItemCheckout fl trim toLowerCase st0 name p orderId date).2 =
        some (.placed (buildOrderFl fl [⟨name, p, 2⟩] orderId date)) ∧
      (twoItemCheckout fl trim toLowerCase st0 name p orderId date).1.cart = [] ∧
      getLoggedInUser (twoItemCheckout fl trim toLowerCase st0 name p orderId date).1.storage
        = some (awardedAccount user (buildOrderFl fl [⟨name, p, 2⟩] orderId date)
            ⌊fl (calculateSubtotalFl fl [⟨name, p, 2⟩] / 1000)⌋) ∧
      getUsers (twoItemCheckout fl trim toLowerCase st0 name p orderId date).1.storage
        = .array users' ∧
      awardedAccount user (buildOrderFl fl [⟨name, p, 2⟩] orderId date)
        ⌊fl (calculateSubtotalFl fl [⟨name, p, 2⟩] / 1000)⌋ ∈ users' := by
  have hc2 : (addToCartClickFl fl (addToCartClickFl fl st0 name p) name p).cart
      = [⟨name, p, 2⟩] := by
    simp [addToCartClickFl, updateCartUIFl, hempty, addItem, findIndex, modifyAt]
  have hst : (addToCartClickFl fl (addToCartClickFl fl st0 name p) name p).storage
      = st0.storage := rfl
  have hcart : (addToCartClickFl fl (addToCartClickFl fl st0 name p) name p).cart ≠ [] := by
    rw [hc2]; simp
  have hclick : onCheckoutClick (addToCartClickFl fl (addToCartClickFl fl st0 name p) name p) =
      (addToCartClickFl fl (addToCartClickFl fl st0 name p) name p, .showPaymentModal) := by
    unfold onCheckoutClick
    rw [hst, hlog]
    simp [hc2]
  obtain ⟨idx, hidx, hgen⟩ := generateReceiptFl_nominal fl toLowerCase
    (addToCartClickFl fl (addToCartClickFl fl st0 name p) name p) orderId date user users e
    hcart (by rw [hst]; exact hlog) hemail hne (by rw [hst]; exact hdir) hall
    (by rw [hst]; exact hwu) (by rw [hst]; exact hwc)
  obtain ⟨idx', hidx', hsome, _⟩ :=
    findIndexByEmail_ok toLowerCase (toLowerCase e) users hall
  have hii : idx' = idx := by
    rw [hidx] at hidx'
    exact (Except.ok.inj hidx').symm
  subst hii
  have hrun : twoItemCheckout fl trim toLowerCase st0 name p orderId date =
      ((generateReceiptFl fl toLowerCase
          (addToCartClickFl fl (addToCartClickFl fl st0 name p) name p) orderId date).1,
        some (generateReceiptFl fl toLowerCase
          (addToCartClickFl fl (addToCartClickFl fl st0 name p) name p) orderId date).2) := by
    unfold twoItemCheckout
    rw [hclick]
    simp [payAndComplete, payBtnClick]
  rw [hc2] at hgen
  refine ⟨hc2, upsertAt users idx' (awardedAccount user
      (buildOrderFl fl [⟨name, p, 2⟩] orderId date)
      ⌊fl (calculateSubtotalFl fl [⟨name, p, 2⟩] / 1000)⌋), ?_, ?_, ?_, ?_, ?_⟩
  · rw [hrun, hgen]
  · rw [hrun, hgen]; rfl
  · rw [hrun, hgen]; rfl
  · rw [hrun, hgen]; rfl
  · apply mem_upsertAt
    intro i hi
    obtain ⟨⟨u, hu, _⟩, _⟩ := hsome i hi
    exact (List.getElem?_eq_some.mp hu).1

/-- A property of line items that survives `quantity++` and holds for every fresh line item
of the calls holds for every line item after the calls. -/
theorem addItems_forall (P : LineItem → Prop)
    (hstep : ∀ item : LineItem, P item → P { item with quantity := item.quantity + 1 })
    (calls : List (String × ℚ)) (cart : Cart)
    (hnew : ∀ c ∈ calls, P ⟨c.1, c.2, 1⟩) (hcart : ∀ item ∈ cart, P item) :
    ∀ item ∈ addItems cart calls, P item := by
  induction calls generalizing cart with
  | nil => simpa [addItems] using hcart
  | cons c rest ih =>
    have hone : ∀ item ∈ addItem cart c.1 c.2, P item := by
      intro item hi
      unfold addItem at hi
      split at hi
      · rcases mem_modifyAt _ _ _ _ hi with h | ⟨x, hx, hy⟩
        · exact hcart item h
        · rw [hy]
          exact hstep x (hcart x (mem_of_getElem?_eq_some hx))
      · rw [List.mem_append, List.mem_singleton] at hi
        rcases hi with h | h
        · exact hcart item h
        · rw [h]
          exact hnew c (List.mem_cons_self _ _)
    have := ih (addItem cart c.1 c.2) (fun d hd => hnew d (List.mem_cons_of_mem _ hd)) hone
    simpa [addItems] using this

/-- After calls with integer prices whose sum stays below `2 ^ 53`, the subtotal is computed
exactly. -/
theorem calculateSubtotalFl_addItems (calls : List (String × ℚ))
    (hsame : SamePrice calls) (hnat : ∀ c ∈ calls, ∃ n : ℕ, c.2 = n)
    (hb : (calls.map Prod.snd).sum < 2 ^ 53) :
    calculateSubtotalFl binary64 (addItems [] calls) = (calls.map Prod.snd).sum := by
  have hnil : Agree [] calls := fun item hitem => by simp at hitem
  have hex := calculateSubtotal_addItems calls [] hnil hsame
  have h0 : calculateSubtotal [] = 0 := rfl
  rw [h0, zero_add] at hex
  have hP := addItems_forall (fun item => (∃ n : ℕ, item.price = n) ∧ 0 ≤ item.quantity)
    (fun item h => ⟨h.1, by have := h.2; simp only; omega⟩) calls []
    (fun c hc => ⟨hnat c hc, by norm_num⟩) (fun item hi => by simp at hi)
  rw [calculateSubtotalFl_binary64 _ (fun item hi => (hP item hi).1)
    (fun item hi => (hP item hi).2) (by rw [hex]; exact hb), hex]

/-- Without rounding the definitions of this section are the exact ones. -/
theorem exact_instances (toLowerCase : String → String) (st : State) (cart : Cart)
    (name : String) (price : ℚ) (orderId date : String) :
    calculateSubtotalFl id cart = calculateSubtotal cart ∧
    updateCartUIFl id st = updateCartUI st ∧
    addToCartClickFl id st name price = addToCartClick st name price ∧
    buildOrderFl id cart orderId date = buildOrder cart orderId date ∧
    generateReceiptFl id toLowerCase st orderId date =
      generateReceipt toLowerCase st orderId date ∧
    showPaymentModalFl id st = showPaymentModal st :=
  ⟨rfl, rfl, rfl, rfl, rfl, rfl⟩

/-! ## Claims -/

/-- C1. `addItem`: when the cart holds a line item with the given name, the first such item
(position `i`) gets its quantity increased by exactly 1 while its name, its price, the cart
length and every other position stay as they were; when no line item has the name, the result
is the old cart with `{name, price, quantity: 1}` appended at the end. -/
theorem addItem_spec (cart : Cart) (name : String) (price : ℚ) :
    ((∃ item ∈ cart, item.name = name) →
      ∃ (i : Nat) (item : LineItem), cart[i]? = some item ∧ item.name = name ∧
        (∀ (j : Nat) (other : LineItem), j < i → cart[j]? = some other → other.name ≠ name) ∧
        (addItem cart name price).length = cart.length ∧
        (addItem cart name price)[i]? = some ⟨item.name, item.price, item.quantity + 1⟩ ∧
        ∀ j, j ≠ i → (addItem cart name price)[j]? = cart[j]?) ∧
    ((∀ item ∈ cart, item.name ≠ name) →
      addItem cart name price = cart ++ [⟨name, price, 1⟩]) := by
  refine ⟨?_, addItem_of_fresh cart name price⟩
  intro h
  obtain ⟨i, item, hget, hname, hfirst, heq⟩ := addItem_of_present cart name price h
  refine ⟨i, item, hget, hname, hfirst, ?_, ?_, ?_⟩
  · rw [heq, length_modifyAt]
  · rw [heq, getElem?_modifyAt]
    simp [hget]
  · intro j hj
    rw [heq, getElem?_modifyAt]
    simp [hj]

/-- Witness for C1 on the cart `[Pizza x1, Cola x3]`: adding `Cola` again and adding the new
name `Fries`. -/
theorem addItem_spec_witness :
    (∃ item ∈ ([⟨"Pizza", 5000, 1⟩, ⟨"Cola", 500, 3⟩] : Cart), item.name = "Cola") ∧
    (∀ item ∈ ([⟨"Pizza", 5000, 1⟩, ⟨"Cola", 500, 3⟩] : Cart), item.name ≠ "Fries") ∧
    (∃ (i : Nat) (item : LineItem),
      ([⟨"Pizza", 5000, 1⟩, ⟨"Cola", 500, 3⟩] : Cart)[i]? = some item ∧
      item.name = "Cola" ∧
      (addItem [⟨"Pizza", 5000, 1⟩, ⟨"Cola", 500, 3⟩] "Cola" 700)[i]? =
        some ⟨item.name, item.price, item.quantity + 1⟩) ∧
    addItem [⟨"Pizza", 5000, 1⟩, ⟨"Cola", 500, 3⟩] "Fries" 900 =
      [⟨"Pizza", 5000, 1⟩, ⟨"Cola", 500, 3⟩, ⟨"Fries", 900, 1⟩] :=
  have hpresent : ∃ item ∈ ([⟨"Pizza", 5000, 1⟩, ⟨"Cola", 500, 3⟩] : Cart),
      item.name = "Cola" := ⟨⟨"Cola", 500, 3⟩, by decide, rfl⟩
  have hfresh : ∀ item ∈ ([⟨"Pizza", 5000, 1⟩, ⟨"Cola", 500, 3⟩] : Cart),
      item.name ≠ "Fries" := by decide
  ⟨hpresent, hfresh,
    match (addItem_spec [⟨"Pizza", 5000, 1⟩, ⟨"Cola", 500, 3⟩] "Cola" 700).1 hpresent with
    | ⟨i, item, hget, hname, _, _, hres, _⟩ => ⟨i, item, hget, hname, hres⟩,
    (addItem_spec [⟨"Pizza", 5000, 1⟩, ⟨"Cola", 500, 3⟩] "Fries" 900).2 hfresh⟩

/-- C2. Cart well-formedness (names pairwise distinct, every quantity at least 1) holds for
the empty cart and is preserved by `addItem`, by the plus handler, by the minus handler and by
the `cart = []` of `generateReceipt`; hence every reachable cart has pairwise distinct names
and stores no quantity below 1, in particular none equal to 0. -/
theorem cart_wellFormed_invariant (toLowerCase : String → String) :
    WellFormed [] ∧
    (∀ cart name price, WellFormed cart → WellFormed (addItem cart name price)) ∧
    (∀ cart i, WellFormed cart → WellFormed (plusBtnClick cart i)) ∧
    (∀ cart i, WellFormed cart → WellFormed (minusBtnClick cart i)) ∧
    (∀ st orderId date, WellFormed st.cart →
      WellFormed (generateReceipt toLowerCase st orderId date).1.cart) ∧
    (∀ cart, Reachable cart →
      (cart.map LineItem.name).Nodup ∧ ∀ item ∈ cart, 1 ≤ item.quantity ∧ item.quantity ≠ 0) := by
  refine ⟨wellFormed_nil, wellFormed_addItem, wellFormed_plusBtnClick,
    wellFormed_minusBtnClick, ?_, ?_⟩
  · intro st orderId date h
    rcases generateReceipt_cart toLowerCase st orderId date with h1 | h1
    · rw [h1]; exact h
    · rw [h1]; exact wellFormed_nil
  · intro cart h
    obtain ⟨hnd, hq⟩ := wellFormed_of_reachable cart h
    refine ⟨hnd, fun item hmem => ⟨hq item hmem, ?_⟩⟩
    have := hq item hmem
    omega

/-- Witness for C2 on the one-item cart `[Pizza x1]` and on the cart reached by one click. -/
theorem cart_wellFormed_invariant_witness :
    WellFormed [⟨"Pizza", 5000, 1⟩] ∧
    WellFormed (addItem [⟨"Pizza", 5000, 1⟩] "Pizza" 5000) ∧
    WellFormed (plusBtnClick [⟨"Pizza", 5000, 1⟩] 0) ∧
    WellFormed (minusBtnClick [⟨"Pizza", 5000, 1⟩] 0) ∧
    WellFormed (generateReceipt asciiLower (demoState [⟨"Pizza", 5000, 1⟩]) "K3X9" "d").1.cart ∧
    Reachable (addItem [] "Pizza" 5000) ∧
    ((addItem [] "Pizza" 5000).map LineItem.name).Nodup ∧
    (∀ item ∈ addItem [] "Pizza" 5000, 1 ≤ item.quantity ∧ item.quantity ≠ 0) :=
  have hwf : WellFormed [⟨"Pizza", 5000, 1⟩] := by decide
  have hreach : Reachable (addItem [] "Pizza" 5000) := Reachable.add [] "Pizza" 5000 Reachable.init
  ⟨hwf,
    (cart_wellFormed_invariant asciiLower).2.1 _ "Pizza" 5000 hwf,
    (cart_wellFormed_invariant asciiLower).2.2.1 _ 0 hwf,
    (cart_wellFormed_invariant asciiLower).2.2.2.1 _ 0 hwf,
    (cart_wellFormed_invariant asciiLower).2.2.2.2.1 (demoState [⟨"Pizza", 5000, 1⟩]) "K3X9" "d" hwf,
    hreach,
    ((cart_wellFormed_invariant asciiLower).2.2.2.2.2 _ hreach).1,
    ((cart_wellFormed_invariant asciiLower).2.2.2.2.2 _ hreach).2⟩

/-- C3, as amended. `calculateSubtotal` in the binary64 arithmetic of the host: it is 0 for
the empty cart; a line item appended to the cart adds its price × quantity, the product and
the new running sum each rounded to binary64, so the subtotal is the left-to-right rounded
sum; for every cart whose prices are non-negative integers, with no negative quantity and a
sum below `2 ^ 53`, it equals the sum over all line items of price × quantity; and the
callers that compute it (`updateCartTotal`, `applyPromoCode`) hand back the cart they were
given. -/
theorem calculateSubtotal_spec (toUpperCase : String → String) (st : State) (cart : Cart) :
    calculateSubtotalFl binary64 [] = 0 ∧
    (∀ item : LineItem, calculateSubtotalFl binary64 (cart ++ [item]) =
      binary64 (calculateSubtotalFl binary64 cart +
        binary64 (item.price * (item.quantity : ℚ)))) ∧
    ((∀ item ∈ cart, ∃ n : ℕ, item.price = n) → (∀ item ∈ cart, 0 ≤ item.quantity) →
      (cart.map (fun item => item.price * (item.quantity : ℚ))).sum < 2 ^ 53 →
      calculateSubtotalFl binary64 cart =
        (cart.map (fun item => item.price * (item.quantity : ℚ))).sum) ∧
    (∀ discount, (updateCartTotal st discount).cart = st.cart) ∧
    (∀ code, (applyPromoCode toUpperCase st code).cart = st.cart) := by
  refine ⟨rfl, ?_, ?_, fun _ => rfl, ?_⟩
  · intro item
    simp [calculateSubtotalFl, List.foldl_append]
  · intro hnat hqty hb
    rw [← calculateSubtotal_eq_sum] at hb ⊢
    exact calculateSubtotalFl_binary64 cart hnat hqty hb
  · intro code
    unfold applyPromoCode
    by_cases hc : code = ""
    · simp [hc]
    · simp only [hc, if_false]
      cases validCodes (toUpperCase code) <;> rfl

/-- Witness for C3 as amended: two Pizzas at 5000 and three Colas at 500 give 11500, and
appending the Colas to the Pizzas is one rounded addition. -/
theorem calculateSubtotal_spec_witness :
    calculateSubtotalFl binary64 [⟨"Pizza", 5000, 2⟩, ⟨"Cola", 500, 3⟩] = 11500 ∧
    calculateSubtotalFl binary64 ([⟨"Pizza", 5000, 2⟩] ++ [⟨"Cola", 500, 3⟩]) =
      binary64 (calculateSubtotalFl binary64 [⟨"Pizza", 5000, 2⟩] + binary64 (500 * 3)) := by
  have h := calculateSubtotal_spec asciiUpper ⟨[], demoStorage, demoView⟩
    [⟨"Pizza", 5000, 2⟩, ⟨"Cola", 500, 3⟩]
  have h' := calculateSubtotal_spec asciiUpper ⟨[], demoStorage, demoView⟩
    [⟨"Pizza", 5000, 2⟩]
  constructor
  · rw [h.2.2.1 (by
        intro item hi
        simp only [List.mem_cons, List.mem_singleton, List.not_mem_nil, or_false] at hi
        rcases hi with hi | hi <;> subst hi
        · exact ⟨5000, by norm_num⟩
        · exact ⟨500, by norm_num⟩) (by
        intro item hi
        simp only [List.mem_cons, List.mem_singleton, List.not_mem_nil, or_false] at hi
        rcases hi with hi | hi <;> subst hi <;> decide) (by norm_num)]
    norm_num
  · have := h'.2.1 ⟨"Cola", 500, 3⟩
    simpa using this

/-- Counterexample to C3 as stated: three Gums at the price `0.1`, the binary64 number
`3602879701896397 / 2 ^ 55`.  The code computes `0.1 * 3` rounded to binary64,
`5404319552844596 / 2 ^ 54` (printed `0.30000000000000004`), which is not the sum of price ×
quantity, `10808639105689191 / 2 ^ 55`. -/
theorem calculateSubtotal_sum_counterexample :
    calculateSubtotalFl binary64 [⟨"Gum", binary64 (1 / 10), 3⟩] = 5404319552844596 / 2 ^ 54 ∧
    (([⟨"Gum", binary64 (1 / 10), 3⟩] : Cart).map
      (fun item => item.price * (item.quantity : ℚ))).sum = 10808639105689191 / 2 ^ 55 ∧
    calculateSubtotalFl binary64 [⟨"Gum", binary64 (1 / 10), 3⟩] ≠
      (([⟨"Gum", binary64 (1 / 10), 3⟩] : Cart).map
        (fun item => item.price * (item.quantity : ℚ))).sum := by
  obtain ⟨_, _, _, _, _, _, _, a8, a9⟩ := binary64_sums
  have h1 : calculateSubtotalFl binary64 [⟨"Gum", binary64 (1 / 10), 3⟩]
      = 5404319552844596 / 2 ^ 54 := by
    have hc : ((3 : ℤ) : ℚ) = 3 := by norm_num
    simp only [calculateSubtotalFl, List.foldl_cons, List.foldl_nil, hc, zero_add,
      binary64_tenth, a8, a9]
  have h2 : (([⟨"Gum", binary64 (1 / 10), 3⟩] : Cart).map
      (fun item => item.price * (item.quantity : ℚ))).sum = 10808639105689191 / 2 ^ 55 := by
    simp only [List.map_cons, List.map_nil, List.sum_cons, List.sum_nil, binary64_tenth]
    norm_num
  refine ⟨h1, h2, ?_⟩
  rw [h1, h2]
  norm_num

/-- C4, as amended. For every sequence of `addItem` calls on the empty cart in which calls
with the same name carry the same unit price, the unit prices are non-negative integers and
their sum is below `2 ^ 53`, and for every permutation of that sequence, the resulting
subtotal, computed in binary64 arithmetic, is the same, and it equals the sum of
unitPrice × quantity over the merged-by-name set. -/
theorem addItems_order_independent (calls calls' : List (String × ℚ))
    (hperm : calls.Perm calls')
    (hsame : ∀ c ∈ calls, ∀ d ∈ calls, c.1 = d.1 → c.2 = d.2)
    (hnat : ∀ c ∈ calls, ∃ n : ℕ, c.2 = n)
    (hb : (calls.map Prod.snd).sum < 2 ^ 53) :
    calculateSubtotalFl binary64 (addItems [] calls) =
      calculateSubtotalFl binary64 (addItems [] calls') ∧
    calculateSubtotalFl binary64 (addItems [] calls) = mergedTotal calls := by
  have hsame' : SamePrice calls' := fun c hc d hd =>
    hsame c (hperm.mem_iff.mpr hc) d (hperm.mem_iff.mpr hd)
  have hnat' : ∀ c ∈ calls', ∃ n : ℕ, c.2 = n := fun c hc => hnat c (hperm.mem_iff.mpr hc)
  have hsum : (calls'.map Prod.snd).sum = (calls.map Prod.snd).sum :=
    ((hperm.map Prod.snd).sum_eq).symm
  have h1 := calculateSubtotalFl_addItems calls hsame hnat hb
  have h2 := calculateSubtotalFl_addItems calls' hsame' hnat' (by rw [hsum]; exact hb)
  refine ⟨?_, ?_⟩
  · rw [h1, h2, hsum]
  · rw [h1, mergedTotal_eq_sum calls hsame]

/-- Witness for C4 as amended: Pizza, Cola, Pizza against Cola, Pizza, Pizza, both 10500. -/
theorem addItems_order_independent_witness :
    List.Perm [("Pizza", (5000 : ℚ)), ("Cola", 500), ("Pizza", 5000)]
      [("Cola", 500), ("Pizza", 5000), ("Pizza", 5000)] ∧
    (∀ c ∈ [("Pizza", (5000 : ℚ)), ("Cola", 500), ("Pizza", 5000)],
      ∀ d ∈ [("Pizza", (5000 : ℚ)), ("Cola", 500), ("Pizza", 5000)], c.1 = d.1 → c.2 = d.2) ∧
    calculateSubtotalFl binary64
        (addItems [] [("Pizza", 5000), ("Cola", 500), ("Pizza", 5000)]) =
      calculateSubtotalFl binary64
        (addItems [] [("Cola", 500), ("Pizza", 5000), ("Pizza", 5000)]) ∧
    calculateSubtotalFl binary64
        (addItems [] [("Pizza", 5000), ("Cola", 500), ("Pizza", 5000)]) =
      mergedTotal [("Pizza", 5000), ("Cola", 500), ("Pizza", 5000)] ∧
    mergedTotal [("Pizza", 5000), ("Cola", 500), ("Pizza", 5000)] = 10500 := by
  have hperm : List.Perm [("Pizza", (5000 : ℚ)), ("Cola", 500), ("Pizza", 5000)]
      [("Cola", 500), ("Pizza", 5000), ("Pizza", 5000)] := List.Perm.swap _ _ _
  have hsame : ∀ c ∈ [("Pizza", (5000 : ℚ)), ("Cola", 500), ("Pizza", 5000)],
      ∀ d ∈ [("Pizza", (5000 : ℚ)), ("Cola", 500), ("Pizza", 5000)], c.1 = d.1 → c.2 = d.2 := by
    decide
  have hnat : ∀ c ∈ [("Pizza", (5000 : ℚ)), ("Cola", 500), ("Pizza", 5000)],
      ∃ n : ℕ, c.2 = n := by
    intro c hc
    simp only [List.mem_cons, List.mem_singleton, List.not_mem_nil, or_false] at hc
    rcases hc with hc | hc | hc <;> subst hc
    · exact ⟨5000, by norm_num⟩
    · exact ⟨500, by norm_num⟩
    · exact ⟨5000, by norm_num⟩
  have h := addItems_order_independent _ _ hperm hsame hnat (by norm_num)
  refine ⟨hperm, hsame, h.1, h.2, ?_⟩
  rw [mergedTotal_eq_sum _ hsame]
  norm_num

/-- Counterexample to C4 as stated, twice.  Two clicks on the name Pizza, one reading the
price 5000 and one reading 4500: the line item keeps the price of the first click, so the two
orders of the same two calls give 10000 and 9000.  And three names with one price each, the
binary64 numbers `0.1`, `0.2` and `0.3`: added in this order the rounded sums give
`0.6000000000000001`, in the reverse order `0.6`. -/
theorem addItems_order_counterexample :
    List.Perm [("Pizza", (5000 : ℚ)), ("Pizza", 4500)] [("Pizza", 4500), ("Pizza", 5000)] ∧
    calculateSubtotalFl binary64 (addItems [] [("Pizza", 5000), ("Pizza", 4500)]) = 10000 ∧
    calculateSubtotalFl binary64 (addItems [] [("Pizza", 4500), ("Pizza", 5000)]) = 9000 ∧
    List.Perm [("Tea", binary64 (1 / 10)), ("Bun", binary64 (2 / 10)), ("Gum", binary64 (3 / 10))]
      [("Gum", binary64 (3 / 10)), ("Bun", binary64 (2 / 10)), ("Tea", binary64 (1 / 10))] ∧
    calculateSubtotalFl binary64 (addItems []
      [("Tea", binary64 (1 / 10)), ("Bun", binary64 (2 / 10)), ("Gum", binary64 (3 / 10))])
      = 5404319552844596 / 2 ^ 53 ∧
    calculateSubtotalFl binary64 (addItems []
      [("Gum", binary64 (3 / 10)), ("Bun", binary64 (2 / 10)), ("Tea", binary64 (1 / 10))])
      = 5404319552844595 / 2 ^ 53 ∧
    calculateSubtotalFl binary64 (addItems []
      [("Tea", binary64 (1 / 10)), ("Bun", binary64 (2 / 10)), ("Gum", binary64 (3 / 10))]) ≠
    calculateSubtotalFl binary64 (addItems []
      [("Gum", binary64 (3 / 10)), ("Bun", binary64 (2 / 10)), ("Tea", binary64 (1 / 10))]) := by
  obtain ⟨a1, a2, a3, a4, a5, a6, a7, _, _⟩ := binary64_sums
  have h1 : addItems [] [("Pizza", 5000), ("Pizza", 4500)] = [⟨"Pizza", 5000, 2⟩] := by decide
  have h2 : addItems [] [("Pizza", 4500), ("Pizza", 5000)] = [⟨"Pizza", 4500, 2⟩] := by decide
  have hq : ∀ (p : ℚ) (n : ℕ), p = n → (n : ℚ) * 2 < 2 ^ 53 →
      calculateSubtotalFl binary64 [⟨"Pizza", p, 2⟩] = p * 2 := by
    intro p n hp hb
    rw [calculateSubtotalFl_binary64 _ (by
        intro item hi
        rw [List.mem_singleton] at hi
        subst hi
        exact ⟨n, hp⟩) (by
        intro item hi
        rw [List.mem_singleton] at hi
        subst hi
        norm_num) (by simp [calculateSubtotal, hp]; linarith)]
    simp [calculateSubtotal]
  have h3 : addItems []
      [("Tea", binary64 (1 / 10)), ("Bun", binary64 (2 / 10)), ("Gum", binary64 (3 / 10))]
      = [⟨"Tea", binary64 (1 / 10), 1⟩, ⟨"Bun", binary64 (2 / 10), 1⟩,
          ⟨"Gum", binary64 (3 / 10), 1⟩] := by
    simp [addItems, addItem, findIndex]
  have h4 : addItems []
      [("Gum", binary64 (3 / 10)), ("Bun", binary64 (2 / 10)), ("Tea", binary64 (1 / 10))]
      = [⟨"Gum", binary64 (3 / 10), 1⟩, ⟨"Bun", binary64 (2 / 10), 1⟩,
          ⟨"Tea", binary64 (1 / 10), 1⟩] := by
    simp [addItems, addItem, findIndex]
  have h5 : calculateSubtotalFl binary64 [⟨"Tea", binary64 (1 / 10), 1⟩,
      ⟨"Bun", binary64 (2 / 10), 1⟩, ⟨"Gum", binary64 (3 / 10), 1⟩]
      = 5404319552844596 / 2 ^ 53 := by
    simp only [calculateSubtotalFl, List.foldl_cons, List.foldl_nil, Int.cast_one, mul_one,
      zero_add, binary64_tenth, binary64_two_tenths, binary64_three_tenths_lit, a1, a2, a3, a4,
      a5]
  have h6 : calculateSubtotalFl binary64 [⟨"Gum", binary64 (3 / 10), 1⟩,
      ⟨"Bun", binary64 (2 / 10), 1⟩, ⟨"Tea", binary64 (1 / 10), 1⟩]
      = 5404319552844595 / 2 ^ 53 := by
    simp only [calculateSubtotalFl, List.foldl_cons, List.foldl_nil, Int.cast_one, mul_one,
      zero_add, binary64_tenth, binary64_two_tenths, binary64_three_tenths_lit, a1, a2, a3, a6,
      a7]
  refine ⟨List.Perm.swap _ _ _, ?_, ?_, ?_, ?_, ?_, ?_⟩
  · rw [h1, hq 5000 5000 (by norm_num) (by norm_num)]
    norm_num
  · rw [h2, hq 4500 4500 (by norm_num) (by norm_num)]
    norm_num
  · exact (List.reverse_perm _).symm
  · rw [h3, h5]
  · rw [h4, h6]
  · rw [h3, h4, h5, h6]
    norm_num

/-- C5. Quantity adjustment on a well-formed cart, for the line item at position `i` with
quantity `q`: the plus handler stores `q + 1`; for `q >= 2` the minus handler stores `q - 1`;
in both cases the length, the item's name and price and every other position are unchanged;
and the minus handler after the plus handler gives back the original cart. -/
theorem quantity_adjustment (cart : Cart) (i : Nat) (item : LineItem)
    (hwf : WellFormed cart) (hget : cart[i]? = some item) :
    ((plusBtnClick cart i).length = cart.length ∧
      (plusBtnClick cart i)[i]? = some ⟨item.name, item.price, item.quantity + 1⟩ ∧
      ∀ j, j ≠ i → (plusBtnClick cart i)[j]? = cart[j]?) ∧
    (2 ≤ item.quantity →
      (minusBtnClick cart i).length = cart.length ∧
      (minusBtnClick cart i)[i]? = some ⟨item.name, item.price, item.quantity - 1⟩ ∧
      ∀ j, j ≠ i → (minusBtnClick cart i)[j]? = cart[j]?) ∧
    minusBtnClick (plusBtnClick cart i) i = cart := by
  have hq : 1 ≤ item.quantity := hwf.2 item (mem_of_getElem?_eq_some hget)
  refine ⟨⟨?_, ?_, ?_⟩, ?_, ?_⟩
  · exact length_modifyAt _ _ _
  · unfold plusBtnClick
    rw [getElem?_modifyAt]
    simp [hget]
  · intro j hj
    unfold plusBtnClick
    rw [getElem?_modifyAt]
    simp [hj]
  · intro h2
    have hnle : ¬ item.quantity - 1 ≤ 0 := by omega
    have hm : minusBtnClick cart i =
        modifyAt (fun it => { it with quantity := it.quantity - 1 }) cart i := by
      simp [minusBtnClick, hget, hnle]
    rw [hm]
    refine ⟨length_modifyAt _ _ _, ?_, ?_⟩
    · rw [getElem?_modifyAt]
      simp [hget]
    · intro j hj
      rw [getElem?_modifyAt]
      simp [hj]
  · have hp : (plusBtnClick cart i)[i]? = some ⟨item.name, item.price, item.quantity + 1⟩ := by
      unfold plusBtnClick
      rw [getElem?_modifyAt]
      simp [hget]
    have hnle : ¬ item.quantity ≤ 0 := by omega
    have hm : minusBtnClick (plusBtnClick cart i) i =
        modifyAt (fun it => { it with quantity := it.quantity - 1 }) (plusBtnClick cart i) i := by
      simp [minusBtnClick, hp, hnle]
    rw [hm]
    apply List.ext_getElem?
    intro j
    rw [getElem?_modifyAt]
    by_cases hj : j = i
    · subst hj
      simp [hp, hget]
    · simp only [hj, if_false]
      unfold plusBtnClick
      rw [getElem?_modifyAt]
      simp [hj]

/-- Witness for C5: position 1 of `[Pizza x1, Cola x3]`, whose quantity 3 is at least 2. -/
theorem quantity_adjustment_witness :
    WellFormed [⟨"Pizza", 5000, 1⟩, ⟨"Cola", 500, 3⟩] ∧
    (plusBtnClick [⟨"Pizza", 5000, 1⟩, ⟨"Cola", 500, 3⟩] 1)[1]? = some ⟨"Cola", 500, 3 + 1⟩ ∧
    (minusBtnClick [⟨"Pizza", 5000, 1⟩, ⟨"Cola", 500, 3⟩] 1)[1]? = some ⟨"Cola", 500, 3 - 1⟩ ∧
    minusBtnClick (plusBtnClick [⟨"Pizza", 5000, 1⟩, ⟨"Cola", 500, 3⟩] 1) 1 =
      [⟨"Pizza", 5000, 1⟩, ⟨"Cola", 500, 3⟩] :=
  have hwf : WellFormed [⟨"Pizza", 5000, 1⟩, ⟨"Cola", 500, 3⟩] := by decide
  have h := quantity_adjustment [⟨"Pizza", 5000, 1⟩, ⟨"Cola", 500, 3⟩] 1 ⟨"Cola", 500, 3⟩ hwf rfl
  ⟨hwf, h.1.2.1, (h.2.1 (by decide)).2.1, h.2.2⟩

/-- C6. Removal at zero and fresh re-add on a well-formed cart: for the line item at position
`i` with quantity 1 the minus handler removes exactly that position (the length drops by
exactly 1, positions before `i` keep their item, positions from `i` on hold the item that
followed), and a following `addItem` with the same name appends a new line item with
quantity 1. -/
theorem removal_and_fresh_readd (cart : Cart) (i : Nat) (item : LineItem) (price : ℚ)
    (hwf : WellFormed cart) (hget : cart[i]? = some item) (hone : item.quantity = 1) :
    minusBtnClick cart i = cart.eraseIdx i ∧
    (minusBtnClick cart i).length + 1 = cart.length ∧
    (∀ j, j < i → (minusBtnClick cart i)[j]? = cart[j]?) ∧
    (∀ j, i ≤ j → (minusBtnClick cart i)[j]? = cart[j + 1]?) ∧
    (∀ other ∈ minusBtnClick cart i, other.name ≠ item.name) ∧
    addItem (minusBtnClick cart i) item.name price =
      minusBtnClick cart i ++ [⟨item.name, price, 1⟩] := by
  have hi : i < cart.length := (List.getElem?_eq_some.mp hget).1
  have hm : minusBtnClick cart i = cart.eraseIdx i := by
    simp [minusBtnClick, hget, hone]
  have hfresh : ∀ other ∈ minusBtnClick cart i, other.name ≠ item.name := by
    rw [hm]
    exact name_ne_of_mem_eraseIdx cart i item hwf.1 hget
  refine ⟨hm, ?_, ?_, ?_, hfresh, addItem_of_fresh _ _ _ hfresh⟩
  · rw [hm, List.length_eraseIdx]
    simp only [hi, if_true]
    omega
  · intro j hj
    rw [hm, List.getElem?_eraseIdx]
    simp [hj]
  · intro j hj
    rw [hm, List.getElem?_eraseIdx]
    have : ¬ j < i := by omega
    simp [this]

/-- Witness for C6: position 0 of `[Pizza x1, Cola x3]`, then `Pizza` added again. -/
theorem removal_and_fresh_readd_witness :
    WellFormed [⟨"Pizza", 5000, 1⟩, ⟨"Cola", 500, 3⟩] ∧
    minusBtnClick [⟨"Pizza", 5000, 1⟩, ⟨"Cola", 500, 3⟩] 0 =
      List.eraseIdx [⟨"Pizza", 5000, 1⟩, ⟨"Cola", 500, 3⟩] 0 ∧
    addItem (minusBtnClick [⟨"Pizza", 5000, 1⟩, ⟨"Cola", 500, 3⟩] 0) "Pizza" 4500 =
      minusBtnClick [⟨"Pizza", 5000, 1⟩, ⟨"Cola", 500, 3⟩] 0 ++ [⟨"Pizza", 4500, 1⟩] :=
  have hwf : WellFormed [⟨"Pizza", 5000, 1⟩, ⟨"Cola", 500, 3⟩] := by decide
  have h := removal_and_fresh_readd [⟨"Pizza", 5000, 1⟩, ⟨"Cola", 500, 3⟩] 0 ⟨"Pizza", 5000, 1⟩
    4500 hwf rfl rfl
  ⟨hwf, h.1, h.2.2.2.2.2⟩

/-- C7. Promo hit: for every state and every code whose upper-cased form is SAVE20, WELCOME10,
FOODIE15 or FIRSTORDER50 (percent 20, 10, 15, 50), `applyPromoCode` marks the message as
success, the discount amount it reports is subtotal × percent / 100, the displayed total
becomes subtotal minus that discount, and the cart and the store are untouched; with SAVE20
on a subtotal of 10000 the discount is 2000. -/
theorem applyPromoCode_hit (toUpperCase : String → String) (hempty : toUpperCase "" = "")
    (st : State) (code : String) (percent : ℚ)
    (hcode : (toUpperCase code = "SAVE20" ∧ percent = 20) ∨
      (toUpperCase code = "WELCOME10" ∧ percent = 10) ∨
      (toUpperCase code = "FOODIE15" ∧ percent = 15) ∨
      (toUpperCase code = "FIRSTORDER50" ∧ percent = 50)) :
    (applyPromoCode toUpperCase st code).view.promoSuccess = true ∧
    (applyPromoCode toUpperCase st code).view.promoError = false ∧
    (∃ description, (applyPromoCode toUpperCase st code).view.promoMessage =
      .applied description (calculateSubtotal st.cart * percent / 100)) ∧
    (applyPromoCode toUpperCase st code).view.total =
      calculateSubtotal st.cart - calculateSubtotal st.cart * percent / 100 ∧
    (applyPromoCode toUpperCase st code).cart = st.cart ∧
    (applyPromoCode toUpperCase st code).storage = st.storage ∧
    (toUpperCase code = "SAVE20" → calculateSubtotal st.cart = 10000 →
      (applyPromoCode toUpperCase st code).view.promoMessage = .applied "20% off" 2000 ∧
      (applyPromoCode toUpperCase st code).view.total = 8000) := by
  have hne : code ≠ "" := by
    intro hc
    rw [hc, hempty] at hcode
    have h1 : ("" : String) ≠ "SAVE20" := by decide
    have h2 : ("" : String) ≠ "WELCOME10" := by decide
    have h3 : ("" : String) ≠ "FOODIE15" := by decide
    have h4 : ("" : String) ≠ "FIRSTORDER50" := by decide
    rcases hcode with ⟨h, _⟩ | ⟨h, _⟩ | ⟨h, _⟩ | ⟨h, _⟩
    · exact h1 h
    · exact h2 h
    · exact h3 h
    · exact h4 h
  rcases hcode with ⟨hu, hp⟩ | ⟨hu, hp⟩ | ⟨hu, hp⟩ | ⟨hu, hp⟩
  · subst hp
    refine ⟨?_, ?_, ⟨"20% off", ?_⟩, ?_, ?_, ?_, ?_⟩ <;>
      simp [applyPromoCode, hne, hu, validCodes, updateCartTotal]
    intro hs
    rw [hs]
    norm_num
  · subst hp
    refine ⟨?_, ?_, ⟨"10% off", ?_⟩, ?_, ?_, ?_, ?_⟩ <;>
      simp [applyPromoCode, hne, hu, validCodes, updateCartTotal]
  · subst hp
    refine ⟨?_, ?_, ⟨"15% off", ?_⟩, ?_, ?_, ?_, ?_⟩ <;>
      simp [applyPromoCode, hne, hu, validCodes, updateCartTotal]
  · subst hp
    refine ⟨?_, ?_, ⟨"50% off", ?_⟩, ?_, ?_, ?_, ?_⟩ <;>
      simp [applyPromoCode, hne, hu, validCodes, updateCartTotal]

/-- Witness for C7: the code `save20` typed in lower case on a cart of two Pizzas at 5000. -/
theorem applyPromoCode_hit_witness :
    asciiUpper "" = "" ∧
    asciiUpper "save20" = "SAVE20" ∧
    calculateSubtotal (demoState [⟨"Pizza", 5000, 2⟩]).cart = 10000 ∧
    (applyPromoCode asciiUpper (demoState [⟨"Pizza", 5000, 2⟩]) "save20").view.promoSuccess
      = true ∧
    (applyPromoCode asciiUpper (demoState [⟨"Pizza", 5000, 2⟩]) "save20").view.promoMessage
      = .applied "20% off" 2000 ∧
    (applyPromoCode asciiUpper (demoState [⟨"Pizza", 5000, 2⟩]) "save20").view.total = 8000 :=
  have h0 : asciiUpper "" = "" := by decide
  have h1 : asciiUpper "save20" = "SAVE20" := by decide
  have h2 : calculateSubtotal (demoState [⟨"Pizza", 5000, 2⟩]).cart = 10000 := by
    norm_num [calculateSubtotal, demoState, updateCartUI]
  have h := applyPromoCode_hit asciiUpper h0 (demoState [⟨"Pizza", 5000, 2⟩]) "save20" 20
    (Or.inl ⟨h1, rfl⟩)
  ⟨h0, h1, h2, h.1, (h.2.2.2.2.2.2 h1 h2).1, (h.2.2.2.2.2.2 h1 h2).2⟩

/-- C8, as amended. Promo miss: for every state and every non-empty code whose upper-cased
form is none of the four table codes, `applyPromoCode` marks the message as error, names the
code as invalid and sets the displayed total to the undiscounted subtotal.  For the empty
code it shows the prompt to enter a code with neither the success nor the error mark and
leaves the displayed total, the cart and the store as they were, so no discount is applied
either. -/
theorem applyPromoCode_miss (toUpperCase : String → String) (st : State) (code : String) :
    (code ≠ "" → toUpperCase code ≠ "SAVE20" → toUpperCase code ≠ "WELCOME10" →
      toUpperCase code ≠ "FOODIE15" → toUpperCase code ≠ "FIRSTORDER50" →
      (applyPromoCode toUpperCase st code).view.promoError = true ∧
      (applyPromoCode toUpperCase st code).view.promoSuccess = false ∧
      (applyPromoCode toUpperCase st code).view.promoMessage = .invalid code ∧
      (applyPromoCode toUpperCase st code).view.total = calculateSubtotal st.cart ∧
      (applyPromoCode toUpperCase st code).view.promoInputDisabled =
        st.view.promoInputDisabled ∧
      (applyPromoCode toUpperCase st code).cart = st.cart ∧
      (applyPromoCode toUpperCase st code).storage = st.storage) ∧
    (code = "" →
      (applyPromoCode toUpperCase st code).view.promoError = false ∧
      (applyPromoCode toUpperCase st code).view.promoSuccess = false ∧
      (applyPromoCode toUpperCase st code).view.promoMessage = .enterCode ∧
      (applyPromoCode toUpperCase st code).view.total = st.view.total ∧
      (applyPromoCode toUpperCase st code).view.promoInputDisabled =
        st.view.promoInputDisabled ∧
      (applyPromoCode toUpperCase st code).cart = st.cart ∧
      (applyPromoCode toUpperCase st code).storage = st.storage) := by
  refine ⟨?_, ?_⟩
  · intro hne h1 h2 h3 h4
    simp [applyPromoCode, hne, validCodes, h1, h2, h3, h4, updateCartTotal]
  · intro hc
    simp [applyPromoCode, hc]

/-- Witness for C8 as amended: the unknown code `bogus` and the empty code on a cart of two
Pizzas at 5000. -/
theorem applyPromoCode_miss_witness :
    ("bogus" ≠ "" ∧ asciiUpper "bogus" ≠ "SAVE20" ∧ asciiUpper "bogus" ≠ "WELCOME10" ∧
      asciiUpper "bogus" ≠ "FOODIE15" ∧ asciiUpper "bogus" ≠ "FIRSTORDER50") ∧
    (applyPromoCode asciiUpper (demoState [⟨"Pizza", 5000, 2⟩]) "bogus").view.promoError
      = true ∧
    (applyPromoCode asciiUpper (demoState [⟨"Pizza", 5000, 2⟩]) "bogus").view.total =
      calculateSubtotal (demoState [⟨"Pizza", 5000, 2⟩]).cart ∧
    (applyPromoCode asciiUpper (demoState [⟨"Pizza", 5000, 2⟩]) "").view.promoMessage
      = .enterCode ∧
    (applyPromoCode asciiUpper (demoState [⟨"Pizza", 5000, 2⟩]) "").view.total =
      (demoState [⟨"Pizza", 5000, 2⟩]).view.total :=
  have hb : "bogus" ≠ "" ∧ asciiUpper "bogus" ≠ "SAVE20" ∧ asciiUpper "bogus" ≠ "WELCOME10" ∧
      asciiUpper "bogus" ≠ "FOODIE15" ∧ asciiUpper "bogus" ≠ "FIRSTORDER50" := by decide
  have h1 := (applyPromoCode_miss asciiUpper (demoState [⟨"Pizza", 5000, 2⟩]) "bogus").1
    hb.1 hb.2.1 hb.2.2.1 hb.2.2.2.1 hb.2.2.2.2
  have h2 := (applyPromoCode_miss asciiUpper (demoState [⟨"Pizza", 5000, 2⟩]) "").2 rfl
  ⟨hb, h1.1, h1.2.2.2.1, h2.2.2.1, h2.2.2.2.1⟩

/-- Counterexample to C8 as stated, at the empty code.  On the page as loaded with two Pizzas
in the cart the empty code is not reported as invalid: the error mark stays off and the
message is the prompt to enter a code.  And no discount of 0 is applied: in the state left by
a successful SAVE20 (displayed total 8000 on a subtotal of 10000) the empty code leaves the
displayed total at 8000, which is not the undiscounted subtotal. -/
theorem applyPromoCode_empty_counterexample :
    (applyPromoCode asciiUpper (demoState [⟨"Pizza", 5000, 2⟩]) "").view.promoError = false ∧
    (applyPromoCode asciiUpper (demoState [⟨"Pizza", 5000, 2⟩]) "").view.promoMessage
      ≠ .invalid "" ∧
    (applyPromoCode asciiUpper (demoState [⟨"Pizza", 5000, 2⟩]) "").view.promoMessage
      = .enterCode ∧
    calculateSubtotal
      (applyPromoCode asciiUpper (demoState [⟨"Pizza", 5000, 2⟩]) "SAVE20").cart = 10000 ∧
    (applyPromoCode asciiUpper
      (applyPromoCode asciiUpper (demoState [⟨"Pizza", 5000, 2⟩]) "SAVE20") "").view.total
      = 8000 ∧
    (applyPromoCode asciiUpper
      (applyPromoCode asciiUpper (demoState [⟨"Pizza", 5000, 2⟩]) "SAVE20") "").view.total ≠
      calculateSubtotal
        (applyPromoCode asciiUpper (demoState [⟨"Pizza", 5000, 2⟩]) "SAVE20").cart := by
  have hu : asciiUpper "SAVE20" = "SAVE20" := by decide
  have hne : ("SAVE20" : String) ≠ "" := by decide
  refine ⟨?_, ?_, ?_, ?_, ?_, ?_⟩ <;>
    simp [applyPromoCode, hu, hne, validCodes, updateCartTotal, demoState, updateCartUI,
      calculateSubtotal]
  all_goals norm_num

/-- C9. Checkout entry guards: with no session user stored `onCheckoutClick` redirects to the
login page, with a session and an empty cart it shows the empty-cart notice, and
`generateReceipt` on an empty cart returns at its guard; in each of these cases the whole
state (cart, account directory, session, order history) is returned unchanged and no payment
step starts.  The payment step starts exactly when a session exists and the cart is not
empty, and `generateReceipt` never adds an order with an empty item list to the history or to
an account. -/
theorem checkout_entry_guards (toLowerCase : String → String) (st : State)
    (orderId date : String) :
    (getLoggedInUser st.storage = none → onCheckoutClick st = (st, .redirectToLogin)) ∧
    (getLoggedInUser st.storage ≠ none → st.cart = [] →
      onCheckoutClick st = (st, .emptyCartAlert)) ∧
    (st.cart = [] → generateReceipt toLowerCase st orderId date = (st, .emptyCart)) ∧
    (onCheckoutClick st).1 = st ∧
    ((onCheckoutClick st).2 = .showPaymentModal ↔
      getLoggedInUser st.storage ≠ none ∧ st.cart ≠ []) ∧
    (NoEmptyOrder st.storage →
      NoEmptyOrder (generateReceipt toLowerCase st orderId date).1.storage) := by
  refine ⟨?_, ?_, ?_, ?_, ?_, generateReceipt_noEmptyOrder toLowerCase st orderId date⟩
  · intro h
    simp [onCheckoutClick, h]
  · intro h hc
    cases hu : getLoggedInUser st.storage with
    | none => exact absurd hu h
    | some u => simp [onCheckoutClick, hu, hc]
  · intro hc
    simp [generateReceipt, hc]
  · unfold onCheckoutClick
    cases getLoggedInUser st.storage with
    | none => rfl
    | some u =>
      by_cases hc : st.cart.length = 0 <;> simp [hc]
  · unfold onCheckoutClick
    cases getLoggedInUser st.storage with
    | none => simp
    | some u =>
      by_cases hc : st.cart = [] <;> simp [hc]

/-- Witness for C9: a logged-out store with two Pizzas in the cart, the logged-in
`demoStorage` with an empty cart, and a completed checkout of two Pizzas. -/
theorem checkout_entry_guards_witness :
    getLoggedInUser (⟨.absent, .absent, .absent, true, true, true⟩ : Storage) = none ∧
    getLoggedInUser (demoState []).storage ≠ none ∧
    NoEmptyOrder (demoState [⟨"Pizza", 5000, 2⟩]).storage ∧
    onCheckoutClick
        ⟨[⟨"Pizza", 5000, 2⟩], ⟨.absent, .absent, .absent, true, true, true⟩, demoView⟩ =
      (⟨[⟨"Pizza", 5000, 2⟩], ⟨.absent, .absent, .absent, true, true, true⟩, demoView⟩,
        .redirectToLogin) ∧
    onCheckoutClick (demoState []) = (demoState [], .emptyCartAlert) ∧
    generateReceipt asciiLower (demoState []) "K3X9" "d" = (demoState [], .emptyCart) ∧
    NoEmptyOrder
      (generateReceipt asciiLower (demoState [⟨"Pizza", 5000, 2⟩]) "K3X9" "d").1.storage :=
  have h1 : getLoggedInUser (⟨.absent, .absent, .absent, true, true, true⟩ : Storage) = none :=
    rfl
  have h2 : getLoggedInUser (demoState []).storage ≠ none := by decide
  have h3 : NoEmptyOrder (demoState [⟨"Pizza", 5000, 2⟩]).storage := by
    intro o ho
    simp [demoState, updateCartUI, demoStorage, demoAccount, historyOrders, accountOrders] at ho
  ⟨h1, h2, h3,
    (checkout_entry_guards asciiLower
      ⟨[⟨"Pizza", 5000, 2⟩], ⟨.absent, .absent, .absent, true, true, true⟩, demoView⟩
      "K3X9" "d").1 h1,
    (checkout_entry_guards asciiLower (demoState []) "K3X9" "d").2.1 h2 rfl,
    (checkout_entry_guards asciiLower (demoState []) "K3X9" "d").2.2.1 rfl,
    (checkout_entry_guards asciiLower (demoState [⟨"Pizza", 5000, 2⟩]) "K3X9" "d").2.2.2.2.2 h3⟩

/-- C10, as amended. Receipt arithmetic and snapshot in the binary64 arithmetic of the host:
for every non-empty cart `generateReceipt` builds one order, whether it then runs to the end
or is left by an exception of `saveUser`; its items equal the cart's line items position by
position (same length, same name, price and quantity at every position); its subtotal is the
subtotal the code computes, its tax is `subtotal * 0.1` and its total `subtotal + tax`, each
rounded to binary64 and not to cents; when the unit prices are non-negative integers (no
negative quantity, sum below `2 ^ 53`) the subtotal is the sum of price × quantity, and when
they are multiples of 10 (sum plus its tenth below `2 ^ 53`) also tax = subtotal × 10 / 100
and total = subtotal + tax; it is the order handed to `saveOrderToHistory`. -/
theorem generateReceipt_order (toLowerCase : String → String) (st : State)
    (orderId date : String) (hne : st.cart ≠ []) :
    ∃ order : Order,
      ((generateReceiptFl binary64 toLowerCase st orderId date).2 = .placed order ∨
        (generateReceiptFl binary64 toLowerCase st orderId date).2 = .threw order) ∧
      order.subtotal = calculateSubtotalFl binary64 st.cart ∧
      order.tax = binary64 (order.subtotal * binary64 (1 / 10)) ∧
      order.total = binary64 (order.subtotal + order.tax) ∧
      ((∀ item ∈ st.cart, ∃ n : ℕ, item.price = n) → (∀ item ∈ st.cart, 0 ≤ item.quantity) →
        (st.cart.map (fun item => item.price * (item.quantity : ℚ))).sum < 2 ^ 53 →
        order.subtotal = (st.cart.map (fun item => item.price * (item.quantity : ℚ))).sum) ∧
      ((∀ item ∈ st.cart, ∃ n : ℕ, item.price = 10 * n) →
        (∀ item ∈ st.cart, 0 ≤ item.quantity) →
        (st.cart.map (fun item => item.price * (item.quantity : ℚ))).sum +
          (st.cart.map (fun item => item.price * (item.quantity : ℚ))).sum / 10 < 2 ^ 53 →
        order.subtotal = (st.cart.map (fun item => item.price * (item.quantity : ℚ))).sum ∧
        order.tax = order.subtotal * 10 / 100 ∧
        order.total = order.subtotal + order.tax) ∧
      order.items.length = st.cart.length ∧
      (∀ k : Nat, order.items[k]? = st.cart[k]?) ∧
      order.id = orderId ∧ order.date = date ∧
      (generateReceiptFl binary64 toLowerCase st orderId date).1.storage.orders =
        (saveOrderToHistory st.storage order).orders := by
  obtain ⟨hres, hst⟩ := generateReceiptFl_result binary64 toLowerCase st orderId date hne
  refine ⟨buildOrderFl binary64 st.cart orderId date, hres, rfl, rfl, rfl, ?_, ?_, ?_, ?_,
    rfl, rfl, hst⟩
  · intro hnat hqty hb
    rw [← calculateSubtotal_eq_sum] at hb ⊢
    exact calculateSubtotalFl_binary64 st.cart hnat hqty hb
  · intro hten hqty hb
    rw [← calculateSubtotal_eq_sum] at hb ⊢
    obtain ⟨T, hT0⟩ := sum_lineTotals_nat st.cart 10 (by simpa using hten) hqty
    have hT : calculateSubtotal st.cart = 10 * (T : ℚ) := by
      rw [calculateSubtotal_eq_sum, hT0]
      norm_num
    have hnat : ∀ item ∈ st.cart, ∃ n : ℕ, item.price = n := by
      intro item hi
      obtain ⟨n, hn⟩ := hten item hi
      exact ⟨10 * n, by rw [hn]; push_cast; ring⟩
    obtain ⟨h1, h2, h3, _⟩ := binary64_totals st.cart hnat hqty T hT hb
    have hs : (buildOrderFl binary64 st.cart orderId date).subtotal
        = calculateSubtotal st.cart := h1
    have ht : (buildOrderFl binary64 st.cart orderId date).tax
        = calculateSubtotal st.cart / 10 := by
      show binary64 (calculateSubtotalFl binary64 st.cart * binary64 (1 / 10)) = _
      rw [h1, h2]
    have hto : (buildOrderFl binary64 st.cart orderId date).total
        = calculateSubtotal st.cart + calculateSubtotal st.cart / 10 := by
      show binary64 (calculateSubtotalFl binary64 st.cart +
        binary64 (calculateSubtotalFl binary64 st.cart * binary64 (1 / 10))) = _
      rw [h1, h2, h3]
    refine ⟨hs, ?_, ?_⟩
    · rw [ht, hs]
      ring
    · rw [hto, hs, ht]
  · rw [buildOrderFl_items]
  · intro k
    rw [buildOrderFl_items]

/-- Witness for C10 as amended: two Pizzas at 5000 and three Colas at 500 over `demoStorage`
give an order with subtotal 11500, tax 1150 and total 12650. -/
theorem generateReceipt_order_witness :
    (⟨[⟨"Pizza", 5000, 2⟩, ⟨"Cola", 500, 3⟩], demoStorage, demoView⟩ : State).cart ≠ [] ∧
    ∃ order : Order,
      ((generateReceiptFl binary64 asciiLower
          ⟨[⟨"Pizza", 5000, 2⟩, ⟨"Cola", 500, 3⟩], demoStorage, demoView⟩ "K3X9" "d").2
          = .placed order ∨
        (generateReceiptFl binary64 asciiLower
          ⟨[⟨"Pizza", 5000, 2⟩, ⟨"Cola", 500, 3⟩], demoStorage, demoView⟩ "K3X9" "d").2
          = .threw order) ∧
      order.subtotal = 11500 ∧ order.tax = 1150 ∧ order.total = 12650 ∧
      (∀ k : Nat, order.items[k]? =
        ([⟨"Pizza", 5000, 2⟩, ⟨"Cola", 500, 3⟩] : Cart)[k]?) := by
  have hne : (⟨[⟨"Pizza", 5000, 2⟩, ⟨"Cola", 500, 3⟩], demoStorage, demoView⟩ : State).cart
      ≠ [] := by simp
  obtain ⟨order, h1, _, _, _, _, h6, _, h8, _⟩ :=
    generateReceipt_order asciiLower
      ⟨[⟨"Pizza", 5000, 2⟩, ⟨"Cola", 500, 3⟩], demoStorage, demoView⟩ "K3X9" "d" hne
  have hten : ∀ item ∈ ([⟨"Pizza", 5000, 2⟩, ⟨"Cola", 500, 3⟩] : Cart),
      ∃ n : ℕ, item.price = 10 * n := by
    intro item hi
    simp only [List.mem_cons, List.mem_singleton, List.not_mem_nil, or_false] at hi
    rcases hi with hi | hi <;> subst hi
    · exact ⟨500, by norm_num⟩
    · exact ⟨50, by norm_num⟩
  have hqty : ∀ item ∈ ([⟨"Pizza", 5000, 2⟩, ⟨"Cola", 500, 3⟩] : Cart),
      0 ≤ item.quantity := by
    intro item hi
    simp only [List.mem_cons, List.mem_singleton, List.not_mem_nil, or_false] at hi
    rcases hi with hi | hi <;> subst hi <;> decide
  obtain ⟨hs, ht, hto⟩ := h6 hten hqty (by norm_num)
  have hs' : order.subtotal = 11500 := by
    rw [hs]
    norm_num
  have ht' : order.tax = 1150 := by
    rw [ht, hs']
    norm_num
  refine ⟨hne, order, h1, hs', ht', ?_, h8⟩
  rw [hto, hs', ht']
  norm_num

/-- Counterexample to C10 as stated: one Water at 3 over `demoStorage`.  The order placed has
subtotal 3 and tax `5404319552844596 / 2 ^ 54` (printed `0.30000000000000004`), the binary64
product `3 * 0.1`, and not subtotal × 10 / 100 = 3 / 10. -/
theorem generateReceipt_tax_counterexample :
    ∃ order : Order,
      (generateReceiptFl binary64 asciiLower ⟨[⟨"Water", 3, 1⟩], demoStorage, demoView⟩
        "K3X9" "d").2 = .placed order ∧
      order.subtotal = 3 ∧
      order.tax = 5404319552844596 / 2 ^ 54 ∧
      order.subtotal * 10 / 100 = 3 / 10 ∧
      order.tax ≠ order.subtotal * 10 / 100 := by
  obtain ⟨_, _, hgen⟩ := generateReceiptFl_nominal binary64 asciiLower
    ⟨[⟨"Water", 3, 1⟩], demoStorage, demoView⟩ "K3X9" "d" demoAccount [demoAccount]
    "ada@example.com" (by simp) rfl rfl (by decide) rfl demoAccount_allHaveEmail rfl rfl
  have hS : calculateSubtotalFl binary64 [⟨"Water", 3, 1⟩] = 3 := by
    rw [calculateSubtotalFl_binary64 _ (by
        intro item hi
        rw [List.mem_singleton] at hi
        subst hi
        exact ⟨3, by norm_num⟩) (by
        intro item hi
        rw [List.mem_singleton] at hi
        subst hi
        decide) (by norm_num [calculateSubtotal])]
    norm_num [calculateSubtotal]
  have hs : (buildOrderFl binary64 [⟨"Water", 3, 1⟩] "K3X9" "d").subtotal = 3 := hS
  have ht : (buildOrderFl binary64 [⟨"Water", 3, 1⟩] "K3X9" "d").tax
      = 5404319552844596 / 2 ^ 54 := by
    show binary64 (calculateSubtotalFl binary64 [⟨"Water", 3, 1⟩] * binary64 (1 / 10)) = _
    rw [hS, binary64_three_tenths]
  refine ⟨buildOrderFl binary64 [⟨"Water", 3, 1⟩] "K3X9" "d", ?_, hs, ht, ?_, ?_⟩
  · rw [hgen]
  · rw [hs]
    norm_num
  · rw [ht, hs]
    norm_num

/-- C11. Loyalty credit: for a logged-in account with points `p` (missing points counting as
0) and a non-empty cart with subtotal `s >= 0`, the account `generateReceipt` persists has
points `p + floor(s / 1000)`: when the account has a non-empty email, the directory reads as
a list of accounts with emails and the store accepts the writes, that account is the session
account and an entry of the directory afterwards.  Under every storage condition the session
account's points after `generateReceipt` are at least `p`. -/
theorem loyalty_credit (toLowerCase : String → String) (st : State) (orderId date : String)
    (user : Account) (hcart : st.cart ≠ [])
    (hlog : getLoggedInUser st.storage = some user)
    (hs : 0 ≤ calculateSubtotal st.cart) :
    (∀ (users : List Account) (e : String), user.email = some e → e ≠ "" →
      getUsers st.storage = .array users → AllHaveEmail users →
      st.storage.usersWritable = true → st.storage.currentUserWritable = true →
      ∃ (persisted : Account) (users' : List Account),
        getLoggedInUser (generateReceipt toLowerCase st orderId date).1.storage
          = some persisted ∧
        getUsers (generateReceipt toLowerCase st orderId date).1.storage = .array users' ∧
        persisted ∈ users' ∧
        persisted.email = some e ∧
        persisted.points =
          some (user.points.getD 0 + ⌊calculateSubtotal st.cart / 1000⌋)) ∧
    (∃ after : Account,
      getLoggedInUser (generateReceipt toLowerCase st orderId date).1.storage = some after ∧
      user.points.getD 0 ≤ after.points.getD 0) := by
  have hfloor : (0 : ℤ) ≤ ⌊calculateSubtotal st.cart / 1000⌋ :=
    Int.floor_nonneg.mpr (div_nonneg hs (by norm_num))
  refine ⟨?_, ?_⟩
  · intro users e hemail hne hdir hall hwu hwc
    obtain ⟨idx, hidx, hgen⟩ := generateReceipt_nominal toLowerCase st orderId date user users e
      hcart hlog hemail hne hdir hall hwu hwc
    obtain ⟨idx', hidx', hsome, _⟩ :=
      findIndexByEmail_ok toLowerCase (toLowerCase e) users hall
    have hii : idx' = idx := by
      rw [hidx] at hidx'
      exact (Except.ok.inj hidx').symm
    subst hii
    refine ⟨awardedAccount user (buildOrder st.cart orderId date)
      ⌊calculateSubtotal st.cart / 1000⌋,
      upsertAt users idx' (awardedAccount user (buildOrder st.cart orderId date)
        ⌊calculateSubtotal st.cart / 1000⌋), ?_, ?_, ?_, hemail, rfl⟩
    · rw [hgen]; rfl
    · rw [hgen]; rfl
    · apply mem_upsertAt
      intro i hi
      obtain ⟨⟨u, hu, _⟩, _⟩ := hsome i hi
      exact (List.getElem?_eq_some.mp hu).1
  · rcases generateReceipt_session toLowerCase st orderId date user hcart hlog with h | h
    · exact ⟨user, h, le_refl _⟩
    · refine ⟨_, h, ?_⟩
      show user.points.getD 0 ≤ user.points.getD 0 + ⌊calculateSubtotal st.cart / 1000⌋
      omega

/-- Witness for C11: the account of `demoStorage` (3 points) checks out two Pizzas at 5000 and
is persisted with 13 points. -/
theorem loyalty_credit_witness :
    (demoState [⟨"Pizza", 5000, 2⟩]).cart ≠ [] ∧
    getLoggedInUser (demoState [⟨"Pizza", 5000, 2⟩]).storage = some demoAccount ∧
    0 ≤ calculateSubtotal (demoState [⟨"Pizza", 5000, 2⟩]).cart ∧
    AllHaveEmail [demoAccount] ∧
    (∃ (persisted : Account) (users' : List Account),
      getLoggedInUser
        (generateReceipt asciiLower (demoState [⟨"Pizza", 5000, 2⟩]) "K3X9" "d").1.storage
        = some persisted ∧
      getUsers
        (generateReceipt asciiLower (demoState [⟨"Pizza", 5000, 2⟩]) "K3X9" "d").1.storage
        = .array users' ∧
      persisted ∈ users' ∧
      persisted.points = some 13) := by
  have hcart : (demoState [⟨"Pizza", 5000, 2⟩]).cart ≠ [] := by decide
  have hlog : getLoggedInUser (demoState [⟨"Pizza", 5000, 2⟩]).storage = some demoAccount := rfl
  have hsub : calculateSubtotal (demoState [⟨"Pizza", 5000, 2⟩]).cart = 10000 := by
    norm_num [calculateSubtotal, demoState, updateCartUI]
  have hs : 0 ≤ calculateSubtotal (demoState [⟨"Pizza", 5000, 2⟩]).cart := by
    rw [hsub]; norm_num
  have hall : AllHaveEmail [demoAccount] := by
    intro u hu
    rw [List.mem_singleton] at hu
    subst hu
    decide
  obtain ⟨persisted, users', h1, h2, h3, _, h5⟩ :=
    (loyalty_credit asciiLower (demoState [⟨"Pizza", 5000, 2⟩]) "K3X9" "d" demoAccount
      hcart hlog hs).1 [demoAccount] "ada@example.com" rfl (by decide) rfl hall rfl rfl
  refine ⟨hcart, hlog, hs, hall, persisted, users', h1, h2, h3, ?_⟩
  rw [h5, hsub]
  norm_num [demoAccount]

/-- C12, as amended. End-to-end checkout in the binary64 arithmetic of the host: from an
empty cart with a logged-in account, two add-to-cart clicks for the same name with a unit
price `p` that is a non-negative integer multiple of 5 (so that `2p` is a multiple of 10,
with `2p + 2p/10` below `2 ^ 53`), the checkout click and a payment with method cash end with
a placed order whose subtotal is `2p`, tax `2p/10`, total `2p + 2p/10` and whose items are
that one line with quantity 2; the persisted session account, also an entry of the directory,
has its points increased by `floor(2p/1000)`; the cart is empty.  The account has a non-empty
email, the directory reads as a list of accounts with emails and the store accepts the
writes. -/
theorem end_to_end_checkout (trim toLowerCase : String → String) (st0 : State)
    (user : Account) (users : List Account) (e name : String) (p : ℚ) (n : ℕ)
    (orderId date : String)
    (hempty : st0.cart = [])
    (hlog : getLoggedInUser st0.storage = some user)
    (hemail : user.email = some e) (hne : e ≠ "")
    (hdir : getUsers st0.storage = .array users) (hall : AllHaveEmail users)
    (hwu : st0.storage.usersWritable = true) (hwc : st0.storage.currentUserWritable = true)
    (hp : p = 5 * n) (hb : 2 * p + 2 * p / 10 < 2 ^ 53) :
    (addToCartClickFl binary64 (addToCartClickFl binary64 st0 name p) name p).cart
      = [⟨name, p, 2⟩] ∧
    ∃ (order : Order) (persisted : Account) (users' : List Account),
      (twoItemCheckout binary64 trim toLowerCase st0 name p orderId date).2
        = some (.placed order) ∧
      order.subtotal = 2 * p ∧
      order.tax = 2 * p / 10 ∧
      order.total = 2 * p + 2 * p / 10 ∧
      order.items = [⟨name, p, 2⟩] ∧
      (twoItemCheckout binary64 trim toLowerCase st0 name p orderId date).1.cart = [] ∧
      getLoggedInUser
        (twoItemCheckout binary64 trim toLowerCase st0 name p orderId date).1.storage
        = some persisted ∧
      getUsers (twoItemCheckout binary64 trim toLowerCase st0 name p orderId date).1.storage
        = .array users' ∧
      persisted ∈ users' ∧
      persisted.points = some (user.points.getD 0 + ⌊2 * p / 1000⌋) := by
  obtain ⟨hc2, users', h1, h2, h3, h4, h5⟩ := twoItemCheckout_nominal binary64 trim toLowerCase
    st0 user users e name p orderId date hempty hlog hemail hne hdir hall hwu hwc
  have hsub : calculateSubtotal [⟨name, p, 2⟩] = 2 * p := by
    simp [calculateSubtotal]
    ring
  have hnat : ∀ item ∈ ([⟨name, p, 2⟩] : Cart), ∃ m : ℕ, item.price = m := by
    intro item hi
    rw [List.mem_singleton] at hi
    subst hi
    exact ⟨5 * n, by rw [hp]; push_cast; ring⟩
  have hqty : ∀ item ∈ ([⟨name, p, 2⟩] : Cart), 0 ≤ item.quantity := by
    intro item hi
    rw [List.mem_singleton] at hi
    subst hi
    norm_num
  obtain ⟨t1, t2, t3, t4⟩ := binary64_totals [⟨name, p, 2⟩] hnat hqty n
    (by rw [hsub, hp]; ring) (by rw [hsub]; exact hb)
  rw [hsub] at t1 t2 t3 t4
  have hs : (buildOrderFl binary64 [⟨name, p, 2⟩] orderId date).subtotal = 2 * p := t1
  have ht : (buildOrderFl binary64 [⟨name, p, 2⟩] orderId date).tax = 2 * p / 10 := by
    show binary64 (calculateSubtotalFl binary64 [⟨name, p, 2⟩] * binary64 (1 / 10)) = _
    rw [t1, t2]
  have hto : (buildOrderFl binary64 [⟨name, p, 2⟩] orderId date).total
      = 2 * p + 2 * p / 10 := by
    show binary64 (calculateSubtotalFl binary64 [⟨name, p, 2⟩] +
      binary64 (calculateSubtotalFl binary64 [⟨name, p, 2⟩] * binary64 (1 / 10))) = _
    rw [t1, t2, t3]
  refine ⟨hc2, buildOrderFl binary64 [⟨name, p, 2⟩] orderId date, _, users', h1, hs, ht, hto,
    buildOrderFl_items _ _ _ _, h2, h3, h4, h5, ?_⟩
  show some (user.points.getD 0 + ⌊binary64 (calculateSubtotalFl binary64 [⟨name, p, 2⟩] / 1000)⌋)
    = _
  rw [t1, t4]

/-- Witness for C12 as amended: the account of `demoStorage` (3 points) adds Pizza at 5000
twice and pays cash: subtotal 10000, tax 1000, total 11000, 13 points, empty cart. -/
theorem end_to_end_checkout_witness :
    (⟨[], demoStorage, demoView⟩ : State).cart = [] ∧
    getLoggedInUser (⟨[], demoStorage, demoView⟩ : State).storage = some demoAccount ∧
    AllHaveEmail [demoAccount] ∧
    ∃ (order : Order) (persisted : Account),
      (twoItemCheckout binary64 asciiTrim asciiLower ⟨[], demoStorage, demoView⟩
        "Pizza" 5000 "K3X9" "d").2 = some (.placed order) ∧
      order.subtotal = 10000 ∧ order.tax = 1000 ∧ order.total = 11000 ∧
      (twoItemCheckout binary64 asciiTrim asciiLower ⟨[], demoStorage, demoView⟩
        "Pizza" 5000 "K3X9" "d").1.cart = [] ∧
      getLoggedInUser
        (twoItemCheckout binary64 asciiTrim asciiLower ⟨[], demoStorage, demoView⟩
          "Pizza" 5000 "K3X9" "d").1.storage = some persisted ∧
      persisted.points = some 13 := by
  obtain ⟨_, order, persisted, _, h1, h2, h3, h4, _, h6, h7, _, _, h10⟩ :=
    end_to_end_checkout asciiTrim asciiLower ⟨[], demoStorage, demoView⟩ demoAccount
      [demoAccount] "ada@example.com" "Pizza" 5000 1000 "K3X9" "d" rfl rfl rfl (by decide) rfl
      demoAccount_allHaveEmail rfl rfl (by norm_num) (by norm_num)
  refine ⟨rfl, rfl, demoAccount_allHaveEmail, order, persisted, h1, ?_, ?_, ?_, h6, h7, ?_⟩
  · rw [h2]; norm_num
  · rw [h3]; norm_num
  · rw [h4]; norm_num
  · rw [h10]
    norm_num [demoAccount]

/-- Counterexample to C12 as stated: the account of `demoStorage` adds Water at 3 twice and
pays cash.  The order placed has subtotal 6 and tax `5404319552844596 / 2 ^ 53` (printed
`0.6000000000000001`), the binary64 product `6 * 0.1`, and not 2p/10 = 6/10. -/
theorem end_to_end_tax_counterexample :
    ∃ order : Order,
      (twoItemCheckout binary64 asciiTrim asciiLower ⟨[], demoStorage, demoView⟩
        "Water" 3 "K3X9" "d").2 = some (.placed order) ∧
      order.subtotal = 2 * 3 ∧
      order.tax = 5404319552844596 / 2 ^ 53 ∧
      order.tax ≠ 2 * 3 / 10 := by
  obtain ⟨_, _, h1, _⟩ := twoItemCheckout_nominal binary64 asciiTrim asciiLower
    ⟨[], demoStorage, demoView⟩ demoAccount [demoAccount] "ada@example.com" "Water" 3
    "K3X9" "d" rfl rfl rfl (by decide) rfl demoAccount_allHaveEmail rfl rfl
  have hS : calculateSubtotalFl binary64 [⟨"Water", 3, 2⟩] = 6 := by
    rw [calculateSubtotalFl_binary64 _ (by
        intro item hi
        rw [List.mem_singleton] at hi
        subst hi
        exact ⟨3, by norm_num⟩) (by
        intro item hi
        rw [List.mem_singleton] at hi
        subst hi
        decide) (by norm_num [calculateSubtotal])]
    norm_num [calculateSubtotal]
  have hs : (buildOrderFl binary64 [⟨"Water", 3, 2⟩] "K3X9" "d").subtotal = 2 * 3 := by
    show calculateSubtotalFl binary64 [⟨"Water", 3, 2⟩] = 2 * 3
    rw [hS]
    norm_num
  have ht : (buildOrderFl binary64 [⟨"Water", 3, 2⟩] "K3X9" "d").tax
      = 5404319552844596 / 2 ^ 53 := by
    show binary64 (calculateSubtotalFl binary64 [⟨"Water", 3, 2⟩] * binary64 (1 / 10)) = _
    rw [hS, binary64_six_tenths]
  refine ⟨buildOrderFl binary64 [⟨"Water", 3, 2⟩] "K3X9" "d", h1, hs, ht, ?_⟩
  rw [ht]
  norm_num

/-- C13. Bounded order history: for a stored history list `h` (no stored value counting as
the empty list) on a store that accepts the write, `saveOrderToHistory` stores exactly the
first 100 elements of `o` followed by `h`: `o` is first, the length is `min 100 (|h| + 1)`,
position `k + 1` holds what position `k` of `h` held for every `k + 1 < 100`, a history
shorter than 100 is kept whole, and a history of exactly 100 entries loses its last entry. -/
theorem saveOrderToHistory_bounded (s : Storage) (h : List Order) (o : Order)
    (hstored : s.orders = .parsed (.array h) ∨ (s.orders = .absent ∧ h = []))
    (hw : s.ordersWritable = true) :
    (saveOrderToHistory s o).orders = .parsed (.array ((o :: h).take 100)) ∧
    historyOrders (saveOrderToHistory s o) = (o :: h).take 100 ∧
    (historyOrders (saveOrderToHistory s o))[0]? = some o ∧
    (historyOrders (saveOrderToHistory s o)).length = min 100 (h.length + 1) ∧
    (∀ k, k + 1 < 100 → (historyOrders (saveOrderToHistory s o))[k + 1]? = h[k]?) ∧
    (h.length < 100 → historyOrders (saveOrderToHistory s o) = o :: h) ∧
    (h.length = 100 → historyOrders (saveOrderToHistory s o) = o :: h.dropLast) := by
  obtain ⟨hst, hh⟩ := historyOrders_saveOrderToHistory s h o hstored hw
  refine ⟨hst, hh, ?_, ?_, ?_, ?_, ?_⟩
  · rw [hh]; simp
  · rw [hh, List.length_take]; simp
  · intro k hk
    rw [hh, List.getElem?_take]
    simp [hk]
  · intro hl
    rw [hh]
    exact List.take_of_length_le (by simp; omega)
  · intro hl
    rw [hh, List.dropLast_eq_take, hl]
    rfl

/-- Witness for C13: the store `busyStorage` holds the 100 orders of `demoHistory`; the new
order becomes the first of 100 entries, `pastOrder 0` to `pastOrder 98` each move one place
down and the oldest, `pastOrder 99`, is gone.  A history of two entries is kept whole. -/
theorem saveOrderToHistory_bounded_witness :
    demoHistory.length = 100 ∧
    busyStorage.orders = .parsed (.array demoHistory) ∧ busyStorage.ordersWritable = true ∧
    historyOrders (saveOrderToHistory busyStorage (buildOrder [⟨"Pizza", 5000, 2⟩] "K3X9" "d"))
      = buildOrder [⟨"Pizza", 5000, 2⟩] "K3X9" "d" :: (List.range 99).map pastOrder ∧
    (historyOrders
      (saveOrderToHistory busyStorage (buildOrder [⟨"Pizza", 5000, 2⟩] "K3X9" "d"))).length
      = 100 ∧
    (historyOrders
      (saveOrderToHistory busyStorage (buildOrder [⟨"Pizza", 5000, 2⟩] "K3X9" "d")))[1]?
      = some (pastOrder 0) ∧
    (historyOrders
      (saveOrderToHistory busyStorage (buildOrder [⟨"Pizza", 5000, 2⟩] "K3X9" "d")))[99]?
      = some (pastOrder 98) ∧
    demoHistory[99]? = some (pastOrder 99) ∧
    pastOrder 99 ∉ historyOrders
      (saveOrderToHistory busyStorage (buildOrder [⟨"Pizza", 5000, 2⟩] "K3X9" "d")) ∧
    historyOrders (saveOrderToHistory
        ⟨.absent, .absent, .parsed (.array [pastOrder 0, pastOrder 1]), true, true, true⟩
        (buildOrder [⟨"Pizza", 5000, 2⟩] "K3X9" "d"))
      = [buildOrder [⟨"Pizza", 5000, 2⟩] "K3X9" "d", pastOrder 0, pastOrder 1] := by
  have h := saveOrderToHistory_bounded busyStorage demoHistory
    (buildOrder [⟨"Pizza", 5000, 2⟩] "K3X9" "d") (Or.inl rfl) rfl
  obtain ⟨_, _, _, h4, h5, _, h7⟩ := h
  have hres := h7 demoHistory_length
  rw [demoHistory_dropLast] at hres
  have hget : ∀ k, k < 100 → demoHistory[k]? = some (pastOrder k) := by
    intro k hk
    simp [demoHistory, List.getElem?_range, hk]
  refine ⟨demoHistory_length, rfl, rfl, hres, ?_, ?_, ?_, hget 99 (by norm_num), ?_, ?_⟩
  · rw [h4, demoHistory_length]
    rfl
  · rw [h5 0 (by norm_num), hget 0 (by norm_num)]
  · rw [h5 98 (by norm_num), hget 98 (by norm_num)]
  · rw [hres, List.mem_cons, List.mem_map]
    rintro (hc | ⟨i, hi, hc⟩)
    · have h1 := congrArg Order.items hc
      simp [pastOrder, buildOrder] at h1
    · have := pastOrder_injective i 99 hc
      rw [List.mem_range] at hi
      omega
  · exact (saveOrderToHistory_bounded
      ⟨.absent, .absent, .parsed (.array [pastOrder 0, pastOrder 1]), true, true, true⟩
      [pastOrder 0, pastOrder 1] (buildOrder [⟨"Pizza", 5000, 2⟩] "K3X9" "d")
      (Or.inl rfl) rfl).2.2.2.2.2.1 (by decide)

/-- C14. Per-account order list: for a logged-in account with order list `L` (a missing list
counting as empty) and a checkout that completes with order `o`, the account persisted as
session account and as directory entry has the order list `o` followed by all of `L`, and
`o` is the order handed to `saveOrderToHistory`, so it heads the global history whenever
that history is stored as a list on a store that accepts the write.  The account is
persisted when it has a non-empty email, the directory reads as a list of accounts with
emails and the store accepts the writes. -/
theorem account_order_list (toLowerCase : String → String) (st : State)
    (orderId date : String) (user : Account) (users : List Account) (e : String) (o : Order)
    (hdone : (generateReceipt toLowerCase st orderId date).2 = .placed o)
    (hlog : getLoggedInUser st.storage = some user)
    (hemail : user.email = some e) (hne : e ≠ "")
    (hdir : getUsers st.storage = .array users) (hall : AllHaveEmail users)
    (hwu : st.storage.usersWritable = true) (hwc : st.storage.currentUserWritable = true) :
    (∃ (persisted : Account) (users' : List Account),
      getLoggedInUser (generateReceipt toLowerCase st orderId date).1.storage
        = some persisted ∧
      getUsers (generateReceipt toLowerCase st orderId date).1.storage = .array users' ∧
      persisted ∈ users' ∧
      persisted.email = some e ∧
      persisted.orders = some (o :: user.orders.getD []) ∧
      (persisted.orders.getD []).length = (user.orders.getD []).length + 1) ∧
    (generateReceipt toLowerCase st orderId date).1.storage.orders =
      (saveOrderToHistory st.storage o).orders ∧
    (∀ h, st.storage.orders = .parsed (.array h) → st.storage.ordersWritable = true →
      (historyOrders (generateReceipt toLowerCase st orderId date).1.storage)[0]? = some o) := by
  have hcart : st.cart ≠ [] := by
    intro hc
    simp [generateReceipt, hc] at hdone
  obtain ⟨idx, hidx, hgen⟩ := generateReceipt_nominal toLowerCase st orderId date user users e
    hcart hlog hemail hne hdir hall hwu hwc
  have ho : o = buildOrder st.cart orderId date := by
    rw [hgen] at hdone
    exact (ReceiptResult.placed.inj hdone).symm
  obtain ⟨idx', hidx', hsome, _⟩ :=
    findIndexByEmail_ok toLowerCase (toLowerCase e) users hall
  have hii : idx' = idx := by
    rw [hidx] at hidx'
    exact (Except.ok.inj hidx').symm
  subst hii
  have hord : (generateReceipt toLowerCase st orderId date).1.storage.orders =
      (saveOrderToHistory st.storage o).orders := by
    rw [hgen, ho]; rfl
  refine ⟨⟨awardedAccount user (buildOrder st.cart orderId date)
      ⌊calculateSubtotal st.cart / 1000⌋,
      upsertAt users idx' (awardedAccount user (buildOrder st.cart orderId date)
        ⌊calculateSubtotal st.cart / 1000⌋), ?_, ?_, ?_, hemail, ?_, ?_⟩, hord, ?_⟩
  · rw [hgen]; rfl
  · rw [hgen]; rfl
  · apply mem_upsertAt
    intro i hi
    obtain ⟨⟨u, hu, _⟩, _⟩ := hsome i hi
    exact (List.getElem?_eq_some.mp hu).1
  · rw [ho]; rfl
  · simp [awardedAccount]
  · intro h hh hw
    have hb := historyOrders_saveOrderToHistory st.storage h o (Or.inl hh) hw
    have : historyOrders (generateReceipt toLowerCase st orderId date).1.storage =
        historyOrders (saveOrderToHistory st.storage o) := by
      simp only [historyOrders, hord]
    rw [this, hb.2]
    simp

/-- Witness for C14: `busyAccount`, whose own list already holds the 100 orders of
`demoHistory`, checks out two Pizzas; the persisted account, also an entry of the directory,
has the new order followed by all 100 earlier ones (101 entries), and the same order heads
the global history. -/
theorem account_order_list_witness :
    (busyAccount.orders.getD []).length = 100 ∧
    (generateReceipt asciiLower ⟨[⟨"Pizza", 5000, 2⟩], busyStorage, demoView⟩ "K3X9" "d").2 =
      .placed (buildOrder [⟨"Pizza", 5000, 2⟩] "K3X9" "d") ∧
    AllHaveEmail [demoAccount, busyAccount] ∧
    (∃ (persisted : Account) (users' : List Account),
      getLoggedInUser
        (generateReceipt asciiLower ⟨[⟨"Pizza", 5000, 2⟩], busyStorage, demoView⟩
          "K3X9" "d").1.storage = some persisted ∧
      getUsers
        (generateReceipt asciiLower ⟨[⟨"Pizza", 5000, 2⟩], busyStorage, demoView⟩
          "K3X9" "d").1.storage = .array users' ∧
      persisted ∈ users' ∧
      persisted.orders = some (buildOrder [⟨"Pizza", 5000, 2⟩] "K3X9" "d" :: demoHistory) ∧
      (persisted.orders.getD []).length = 101) ∧
    (historyOrders
      (generateReceipt asciiLower ⟨[⟨"Pizza", 5000, 2⟩], busyStorage, demoView⟩
        "K3X9" "d").1.storage)[0]?
      = some (buildOrder [⟨"Pizza", 5000, 2⟩] "K3X9" "d") := by
  have hall : AllHaveEmail [demoAccount, busyAccount] := by
    intro u hu
    simp only [List.mem_cons, List.mem_singleton, List.not_mem_nil, or_false] at hu
    rcases hu with hu | hu <;> subst hu <;> decide
  have hlen : (busyAccount.orders.getD []).length = 100 := demoHistory_length
  have hdone : (generateReceipt asciiLower ⟨[⟨"Pizza", 5000, 2⟩], busyStorage, demoView⟩
      "K3X9" "d").2 = .placed (buildOrder [⟨"Pizza", 5000, 2⟩] "K3X9" "d") := by
    obtain ⟨_, _, hgen⟩ := generateReceipt_nominal asciiLower
      ⟨[⟨"Pizza", 5000, 2⟩], busyStorage, demoView⟩ "K3X9" "d" busyAccount
      [demoAccount, busyAccount] "bob@example.com" (by simp) rfl rfl (by decide) rfl hall
      rfl rfl
    rw [hgen]
  have h := account_order_list asciiLower ⟨[⟨"Pizza", 5000, 2⟩], busyStorage, demoView⟩
    "K3X9" "d" busyAccount [demoAccount, busyAccount] "bob@example.com"
    (buildOrder [⟨"Pizza", 5000, 2⟩] "K3X9" "d") hdone rfl rfl (by decide) rfl hall rfl rfl
  obtain ⟨⟨persisted, users', h1, h2, h3, _, h5, h6⟩, _, h8⟩ := h
  refine ⟨hlen, hdone, hall, ⟨persisted, users', h1, h2, h3, h5, ?_⟩, h8 demoHistory rfl rfl⟩
  rw [h6, hlen]

/-- C15. Promo does not reach the order: for every state and every code, `generateReceipt`
after `applyPromoCode` ends with the same result (the same order: items, subtotal, tax,
total), the same store (history, directory, session account with its credited points) and
the same cart as `generateReceipt` without it; `applyPromoCode` itself leaves cart and store
alone and writes only to the page, where a valid code makes the displayed total the
subtotal minus the discount. -/
theorem promo_does_not_reach_order (toUpperCase toLowerCase : String → String) (st : State)
    (code orderId date : String) :
    (generateReceipt toLowerCase (applyPromoCode toUpperCase st code) orderId date).2 =
      (generateReceipt toLowerCase st orderId date).2 ∧
    (generateReceipt toLowerCase (applyPromoCode toUpperCase st code) orderId date).1.storage =
      (generateReceipt toLowerCase st orderId date).1.storage ∧
    (generateReceipt toLowerCase (applyPromoCode toUpperCase st code) orderId date).1.cart =
      (generateReceipt toLowerCase st orderId date).1.cart ∧
    (applyPromoCode toUpperCase st code).cart = st.cart ∧
    (applyPromoCode toUpperCase st code).storage = st.storage ∧
    (∀ promoData, code ≠ "" → validCodes (toUpperCase code) = some promoData →
      (applyPromoCode toUpperCase st code).view.total =
        calculateSubtotal st.cart - calculateSubtotal st.cart * promoData.discount / 100) := by
  have hc : (applyPromoCode toUpperCase st code).cart = st.cart ∧
      (applyPromoCode toUpperCase st code).storage = st.storage := by
    unfold applyPromoCode
    by_cases hcode : code = ""
    · simp [hcode]
    · simp only [hcode, if_false]
      cases validCodes (toUpperCase code) <;> exact ⟨rfl, rfl⟩
  obtain ⟨h1, h2, h3⟩ := generateReceipt_congr toLowerCase
    (applyPromoCode toUpperCase st code) st orderId date hc.1 hc.2
  refine ⟨h1, h3, h2, hc.1, hc.2, ?_⟩
  intro promoData hne hv
  simp [applyPromoCode, hne, hv, updateCartTotal]

/-- Witness for C15: SAVE20 on two Pizzas at 5000 shows the total 8000, and the checkout
records the same order as without the code. -/
theorem promo_does_not_reach_order_witness :
    ("SAVE20" : String) ≠ "" ∧
    validCodes (asciiUpper "SAVE20") = some ⟨20, "20% off"⟩ ∧
    (applyPromoCode asciiUpper (demoState [⟨"Pizza", 5000, 2⟩]) "SAVE20").view.total =
      calculateSubtotal (demoState [⟨"Pizza", 5000, 2⟩]).cart -
        calculateSubtotal (demoState [⟨"Pizza", 5000, 2⟩]).cart * 20 / 100 ∧
    (generateReceipt asciiLower
        (applyPromoCode asciiUpper (demoState [⟨"Pizza", 5000, 2⟩]) "SAVE20") "K3X9" "d").2 =
      (generateReceipt asciiLower (demoState [⟨"Pizza", 5000, 2⟩]) "K3X9" "d").2 :=
  have hne : ("SAVE20" : String) ≠ "" := by decide
  have hv : validCodes (asciiUpper "SAVE20") = some ⟨20, "20% off"⟩ := by decide
  ⟨hne, hv,
    (promo_does_not_reach_order asciiUpper asciiLower (demoState [⟨"Pizza", 5000, 2⟩])
      "SAVE20" "K3X9" "d").2.2.2.2.2 ⟨20, "20% off"⟩ hne hv,
    (promo_does_not_reach_order asciiUpper asciiLower (demoState [⟨"Pizza", 5000, 2⟩])
      "SAVE20" "K3X9" "d").1⟩

/-- C16, as amended. For every state left by `applyPromoCode`, whatever the code, after a
subsequent cart mutation (add-to-cart click, plus click, minus click) the displayed total
equals the new subtotal without any discount, while the promo message, its marks and the
disabled promo input stay as `applyPromoCode` left them. -/
theorem cart_mutation_shows_undiscounted_total (toUpperCase : String → String) (st0 : State)
    (code name : String) (price : ℚ) (i : Nat) :
    ((addToCartClick (applyPromoCode toUpperCase st0 code) name price).view.total =
        calculateSubtotal (addToCartClick (applyPromoCode toUpperCase st0 code) name price).cart
      ∧ (addToCartClick (applyPromoCode toUpperCase st0 code) name price).view.promoMessage =
        (applyPromoCode toUpperCase st0 code).view.promoMessage
      ∧ (addToCartClick (applyPromoCode toUpperCase st0 code) name price).view.promoInputDisabled
        = (applyPromoCode toUpperCase st0 code).view.promoInputDisabled) ∧
    ((plusClick (applyPromoCode toUpperCase st0 code) i).view.total =
        calculateSubtotal (plusClick (applyPromoCode toUpperCase st0 code) i).cart
      ∧ (plusClick (applyPromoCode toUpperCase st0 code) i).view.promoMessage =
        (applyPromoCode toUpperCase st0 code).view.promoMessage
      ∧ (plusClick (applyPromoCode toUpperCase st0 code) i).view.promoInputDisabled =
        (applyPromoCode toUpperCase st0 code).view.promoInputDisabled) ∧
    ((minusClick (applyPromoCode toUpperCase st0 code) i).view.total =
        calculateSubtotal (minusClick (applyPromoCode toUpperCase st0 code) i).cart
      ∧ (minusClick (applyPromoCode toUpperCase st0 code) i).view.promoMessage =
        (applyPromoCode toUpperCase st0 code).view.promoMessage
      ∧ (minusClick (applyPromoCode toUpperCase st0 code) i).view.promoInputDisabled =
        (applyPromoCode toUpperCase st0 code).view.promoInputDisabled) :=
  ⟨⟨rfl, rfl, rfl⟩, ⟨rfl, rfl, rfl⟩, ⟨rfl, rfl, rfl⟩⟩

/-- Counterexample to C16 as stated: SAVE20 (20 percent) is applied to two Pizzas at 5000,
which shows the total 8000; one plus click later the subtotal is 15000 and the displayed
total is 15000, not 15000 - 15000 × 20 / 100 = 12000. -/
theorem discount_not_recomputed_counterexample :
    (applyPromoCode asciiUpper (demoState [⟨"Pizza", 5000, 2⟩]) "SAVE20").view.promoMessage
      = .applied "20% off" 2000 ∧
    (applyPromoCode asciiUpper (demoState [⟨"Pizza", 5000, 2⟩]) "SAVE20").view.total = 8000 ∧
    calculateSubtotal
      (plusClick (applyPromoCode asciiUpper (demoState [⟨"Pizza", 5000, 2⟩]) "SAVE20") 0).cart
      = 15000 ∧
    (plusClick (applyPromoCode asciiUpper (demoState [⟨"Pizza", 5000, 2⟩]) "SAVE20")
      0).view.total = 15000 ∧
    (plusClick (applyPromoCode asciiUpper (demoState [⟨"Pizza", 5000, 2⟩]) "SAVE20")
      0).view.total ≠
      calculateSubtotal
        (plusClick (applyPromoCode asciiUpper (demoState [⟨"Pizza", 5000, 2⟩]) "SAVE20")
          0).cart -
      calculateSubtotal
        (plusClick (applyPromoCode asciiUpper (demoState [⟨"Pizza", 5000, 2⟩]) "SAVE20")
          0).cart * 20 / 100 := by
  have hu : asciiUpper "SAVE20" = "SAVE20" := by decide
  have hne : ("SAVE20" : String) ≠ "" := by decide
  refine ⟨?_, ?_, ?_, ?_, ?_⟩ <;>
    simp [plusClick, plusBtnClick, modifyAt, applyPromoCode, hu, hne, validCodes,
      updateCartTotal, demoState, updateCartUI, calculateSubtotal]
  all_goals norm_num

/-- C17. Payment submission validation: the pay handler proceeds to payment processing if and
only if the method (the checked radio, `card` when none is checked) is not `card`, or the
trimmed card-number text has at least 8 UTF-16 code units; it either proceeds or rejects;
when it rejects, the modal (all `disabled` flags included) and the state (cart, session,
order history) are exactly as before; when it proceeds, the three buttons are disabled, and
the state is still unchanged at that point. -/
theorem payBtnClick_validation (trim : String → String) (st : State) (m : PaymentModal) :
    ((payBtnClick trim st m).2.2 = .processing ↔
      (m.checked.getD .card ≠ .card ∨ 8 ≤ jsLength (trim m.cardNumber))) ∧
    ((payBtnClick trim st m).2.2 = .rejected ↔
      (m.checked.getD .card = .card ∧ jsLength (trim m.cardNumber) < 8)) ∧
    ((payBtnClick trim st m).2.2 = .rejected → (payBtnClick trim st m).2.1 = m) ∧
    (payBtnClick trim st m).1 = st ∧
    ((payBtnClick trim st m).2.2 = .processing →
      (payBtnClick trim st m).2.1.payDisabled = true ∧
      (payBtnClick trim st m).2.1.cancelDisabled = true ∧
      (payBtnClick trim st m).2.1.closeDisabled = true) := by
  unfold payBtnClick
  by_cases h : m.checked.getD .card = .card ∧ jsLength (trim m.cardNumber) < 8
  · simp only [h, and_self, if_true]
    refine ⟨?_, ?_, ?_, ?_, ?_⟩ <;> simp [h]
  · simp only [h, if_false]
    refine ⟨?_, ?_, ?_, ?_, ?_⟩
    · simp only [true_iff]
      by_cases hc : m.checked.getD .card = .card
      · right
        have : ¬ jsLength (trim m.cardNumber) < 8 := fun hl => h ⟨hc, hl⟩
        omega
      · exact Or.inl hc
    · simp [h]
    · simp
    · trivial
    · simp

/-- Witness for C17: card with the 7-character number `1234567` padded by blanks is rejected,
card with `12345678` proceeds, cash with an empty number proceeds. -/
theorem payBtnClick_validation_witness :
    (payBtnClick asciiTrim (demoState [⟨"Pizza", 5000, 2⟩])
      { showPaymentModal (demoState [⟨"Pizza", 5000, 2⟩]) with
        cardNumber := "  1234567  " }).2.2 = .rejected ∧
    (payBtnClick asciiTrim (demoState [⟨"Pizza", 5000, 2⟩])
      { showPaymentModal (demoState [⟨"Pizza", 5000, 2⟩]) with
        cardNumber := "  1234567  " }).2.1 =
      { showPaymentModal (demoState [⟨"Pizza", 5000, 2⟩]) with cardNumber := "  1234567  " } ∧
    (payBtnClick asciiTrim (demoState [⟨"Pizza", 5000, 2⟩])
      { showPaymentModal (demoState [⟨"Pizza", 5000, 2⟩]) with
        cardNumber := "12345678" }).2.2 = .processing ∧
    (payBtnClick asciiTrim (demoState [⟨"Pizza", 5000, 2⟩])
      { showPaymentModal (demoState [⟨"Pizza", 5000, 2⟩]) with
        checked := some .cash }).2.1.payDisabled = true :=
  have h7 : jsLength (asciiTrim "  1234567  ") < 8 := by decide
  have h8 : 8 ≤ jsLength (asciiTrim "12345678") := by decide
  have hr := (payBtnClick_validation asciiTrim (demoState [⟨"Pizza", 5000, 2⟩])
    { showPaymentModal (demoState [⟨"Pizza", 5000, 2⟩]) with
      cardNumber := "  1234567  " }).2.1.mpr ⟨rfl, h7⟩
  ⟨hr,
    (payBtnClick_validation asciiTrim (demoState [⟨"Pizza", 5000, 2⟩])
      { showPaymentModal (demoState [⟨"Pizza", 5000, 2⟩]) with
        cardNumber := "  1234567  " }).2.2.1 hr,
    (payBtnClick_validation asciiTrim (demoState [⟨"Pizza", 5000, 2⟩])
      { showPaymentModal (demoState [⟨"Pizza", 5000, 2⟩]) with
        cardNumber := "12345678" }).1.mpr (Or.inr h8),
    ((payBtnClick_validation asciiTrim (demoState [⟨"Pizza", 5000, 2⟩])
      { showPaymentModal (demoState [⟨"Pizza", 5000, 2⟩]) with
        checked := some .cash }).2.2.2.2
      ((payBtnClick_validation asciiTrim (demoState [⟨"Pizza", 5000, 2⟩])
        { showPaymentModal (demoState [⟨"Pizza", 5000, 2⟩]) with
          checked := some .cash }).1.mpr (Or.inl (by decide)))).1⟩

/-- C18. `findUserByEmail`: on a directory that reads as the list `users`, the result for a
non-empty query is the first account whose email equals the query when both are lower-cased,
and null when no account has such an email; the result is null for the empty query; and two
queries with the same lower-cased form get the same result.  `toLowerCase` is the host
function, of which only `toLowerCase s = "" ↔ s = ""` is used. -/
theorem findUserByEmail_spec (toLowerCase : String → String)
    (hlow : ∀ s, toLowerCase s = "" ↔ s = "")
    (s : Storage) (users : List Account) (hdir : getUsers s = .array users) (email : String) :
    (email = "" → findUserByEmail toLowerCase s email = .ok none) ∧
    (∀ a : Account, findUserByEmail toLowerCase s email = .ok (some a) ↔
      email ≠ "" ∧ ∃ i : Nat, users[i]? = some a ∧
        a.email.map toLowerCase = some (toLowerCase email) ∧
        ∀ (j : Nat) (v : Account), j < i → users[j]? = some v →
          v.email.map toLowerCase ≠ some (toLowerCase email)) ∧
    (findUserByEmail toLowerCase s email = .ok none ↔
      email = "" ∨ ∀ u ∈ users, u.email.map toLowerCase ≠ some (toLowerCase email)) ∧
    (∀ email' : String, toLowerCase email = toLowerCase email' →
      findUserByEmail toLowerCase s email = findUserByEmail toLowerCase s email') := by
  have hnil : ∀ q : String, q = "" → findUserByEmail toLowerCase s q = .ok none := by
    intro q hq
    simp [findUserByEmail, hq]
  refine ⟨hnil email, ?_, ?_, ?_⟩
  · intro a
    by_cases he : email = ""
    · rw [hnil email he]
      simp [he]
    · rw [findUserByEmail_eq_find toLowerCase hlow s users hdir email he]
      simp only [Except.ok.injEq, find?_eq_some_iff_first, ne_eq, he, not_false_eq_true,
        true_and]
      constructor
      · rintro ⟨i, hi, hp, hlt⟩
        refine ⟨i, hi, by simpa using hp, ?_⟩
        intro j v hj hv
        simpa using hlt j v hj hv
      · rintro ⟨i, hi, hp, hlt⟩
        refine ⟨i, hi, by simpa using hp, ?_⟩
        intro j v hj hv
        simpa using hlt j v hj hv
  · by_cases he : email = ""
    · rw [hnil email he]
      simp [he]
    · rw [findUserByEmail_eq_find toLowerCase hlow s users hdir email he]
      simp only [Except.ok.injEq, List.find?_eq_none, he, false_or]
      constructor
      · intro h u hu
        simpa using h u hu
      · intro h u hu
        simpa using h u hu
  · intro email' heq
    by_cases he : email = ""
    · have he' : email' = "" := by
        apply (hlow email').mp
        rw [← heq, he]
        exact (hlow "").mpr rfl
      rw [hnil email he, hnil email' he']
    · have he' : email' ≠ "" := by
        intro h0
        apply he
        apply (hlow email).mp
        rw [heq, h0]
        exact (hlow "").mpr rfl
      rw [findUserByEmail_eq_find toLowerCase hlow s users hdir email he,
        findUserByEmail_eq_find toLowerCase hlow s users hdir email' he', heq]

/-- Witness for C18: `ADA@Example.com` finds the account stored as `ada@example.com`, and
the empty query finds nothing. -/
theorem findUserByEmail_spec_witness :
    getUsers demoStorage = .array [demoAccount] ∧
    asciiLower "ADA@Example.com" = asciiLower "ada@example.com" ∧
    findUserByEmail asciiLower demoStorage "" = .ok none ∧
    findUserByEmail asciiLower demoStorage "ADA@Example.com" =
      findUserByEmail asciiLower demoStorage "ada@example.com" ∧
    findUserByEmail asciiLower demoStorage "ada@example.com" = .ok (some demoAccount) := by
  have hlow : ∀ s, asciiLower s = "" ↔ s = "" := asciiLower_eq_empty
  have hcase : asciiLower "ADA@Example.com" = asciiLower "ada@example.com" := by decide
  have h := findUserByEmail_spec asciiLower hlow demoStorage [demoAccount] rfl
  refine ⟨rfl, hcase, (h "").1 rfl, (h "ADA@Example.com").2.2.2 "ada@example.com" hcase, ?_⟩
  apply ((h "ada@example.com").2.1 demoAccount).mpr
  refine ⟨by decide, 0, rfl, by decide, ?_⟩
  intro j v hj
  exact absurd hj (Nat.not_lt_zero j)

/-- C19. `saveUser` (upsert): on a directory that reads as the list `users`, every entry with
an email and the emails pairwise distinct when lower-cased, on a store that accepts the
writes, `saveUser(a)` for an account `a` with a non-empty email returns normally; if an entry
with `a`'s email (lower-cased) existed at position `i`, the new directory has `a` at
position `i`, the same length and every other position unchanged; if no entry has that
email, the new directory is the old one with `a` appended; every entry still has an email,
the emails stay pairwise distinct when lower-cased, and the session account is `a`. -/
theorem saveUser_upsert (toLowerCase : String → String) (s : Storage)
    (users : List Account) (a : Account) (e : String)
    (hdir : getUsers s = .array users) (hall : AllHaveEmail users)
    (hdist : DistinctEmails toLowerCase users)
    (hemail : a.email = some e) (hne : e ≠ "")
    (hwu : s.usersWritable = true) (hwc : s.currentUserWritable = true) :
    ∃ (s' : Storage) (users' : List Account),
      saveUser toLowerCase s a = .ok s' ∧
      getUsers s' = .array users' ∧
      getLoggedInUser s' = some a ∧
      s'.orders = s.orders ∧
      (∀ (i : Nat) (u : Account), users[i]? = some u →
        u.email.map toLowerCase = some (toLowerCase e) →
        users'.length = users.length ∧ users'[i]? = some a ∧
        ∀ j : Nat, j ≠ i → users'[j]? = users[j]?) ∧
      ((∀ u ∈ users, u.email.map toLowerCase ≠ some (toLowerCase e)) →
        users' = users ++ [a]) ∧
      AllHaveEmail users' ∧
      DistinctEmails toLowerCase users' := by
  obtain ⟨idx, hidx, hsave⟩ :=
    saveUser_nominal toLowerCase s a users e hdir hall hemail hne hwu hwc
  obtain ⟨idx', hidx', hsome, hnone⟩ :=
    findIndexByEmail_ok toLowerCase (toLowerCase e) users hall
  have hii : idx' = idx := by
    rw [hidx] at hidx'
    exact (Except.ok.inj hidx').symm
  subst hii
  have hkey : a.email.map toLowerCase = some (toLowerCase e) := by simp [hemail]
  refine ⟨_, upsertAt users idx' a, hsave, rfl, rfl, rfl, ?_, ?_, ?_, ?_⟩
  · intro i u hi hu
    cases idx' with
    | none => exact absurd hu (hnone rfl u (mem_of_getElem?_eq_some hi))
    | some k =>
      obtain ⟨⟨w, hw, hwm⟩, hlt⟩ := hsome k rfl
      have hki : k = i := by
        have hkl : k < users.length := (List.getElem?_eq_some.mp hw).1
        have hil : i < users.length := (List.getElem?_eq_some.mp hi).1
        have hk : (users.map (fun u => u.email.map toLowerCase))[k]? =
            some (some (toLowerCase e)) := by
          rw [List.getElem?_map, hw]; simp [hwm]
        have hi' : (users.map (fun u => u.email.map toLowerCase))[i]? =
            some (some (toLowerCase e)) := by
          rw [List.getElem?_map, hi]; simp [hu]
        have hnd := List.nodup_iff_getElem?_ne_getElem?.mp hdist
        rcases Nat.lt_trichotomy k i with h1 | h1 | h1
        · exact absurd (hk.trans hi'.symm) (hnd k i h1 (by simpa using hil))
        · exact h1
        · exact absurd (hi'.trans hk.symm) (hnd i k h1 (by simpa using hkl))
      subst hki
      have hkl : k < users.length := (List.getElem?_eq_some.mp hw).1
      refine ⟨by simp [upsertAt], by simp [upsertAt, hkl], ?_⟩
      intro j hj
      simp [upsertAt, List.getElem?_set, Ne.symm hj]
  · intro hno
    cases idx' with
    | none => rfl
    | some k =>
      obtain ⟨⟨w, hw, hwm⟩, _⟩ := hsome k rfl
      exact absurd hwm (hno w (mem_of_getElem?_eq_some hw))
  · intro u hu
    have hmem : u ∈ users ∨ u = a := by
      cases idx' with
      | none =>
        rcases List.mem_append.mp hu with h1 | h1
        · exact Or.inl h1
        · exact Or.inr (by simpa using h1)
      | some k => exact List.mem_or_eq_of_mem_set hu
    rcases hmem with h1 | h1
    · exact hall u h1
    · rw [h1, hemail]; simp
  · unfold DistinctEmails
    cases idx' with
    | none =>
      show ((users ++ [a]).map (fun u => u.email.map toLowerCase)).Nodup
      rw [List.map_append, List.nodup_append]
      refine ⟨hdist, by simp, ?_⟩
      intro x hx hx'
      simp only [List.map_cons, List.map_nil, List.mem_singleton] at hx'
      subst hx'
      obtain ⟨u, hu, hux⟩ := List.mem_map.mp hx
      exact hnone rfl u hu (hux.trans hkey)
    | some k =>
      obtain ⟨⟨w, hw, hwm⟩, _⟩ := hsome k rfl
      show ((users.set k a).map (fun u => u.email.map toLowerCase)).Nodup
      rw [List.map_set, hkey, set_eq_self_of_getElem?]
      · exact hdist
      · rw [List.getElem?_map, hw]; simp [hwm]

/-- Witness for C19: the stored `ada@example.com` is replaced by an account that writes the
email as `Ada@Example.com`, and a new email is appended. -/
theorem saveUser_upsert_witness :
    AllHaveEmail [demoAccount] ∧ DistinctEmails asciiLower [demoAccount] ∧
    (∃ (s' : Storage) (users' : List Account),
      saveUser asciiLower demoStorage ⟨some "Ada@Example.com", some "pw2", some 7, none, none⟩
        = .ok s' ∧
      getUsers s' = .array users' ∧
      getLoggedInUser s' = some ⟨some "Ada@Example.com", some "pw2", some 7, none, none⟩ ∧
      users'.length = 1 ∧
      users'[0]? = some ⟨some "Ada@Example.com", some "pw2", some 7, none, none⟩) ∧
    (∃ (s' : Storage) (users' : List Account),
      saveUser asciiLower demoStorage ⟨some "bob@example.com", some "pw3", some 0, none, none⟩
        = .ok s' ∧
      getUsers s' = .array users' ∧
      users' = [demoAccount, ⟨some "bob@example.com", some "pw3", some 0, none, none⟩]) := by
  have hall : AllHaveEmail [demoAccount] := by
    intro u hu
    rw [List.mem_singleton] at hu
    subst hu
    decide
  have hdist : DistinctEmails asciiLower [demoAccount] := by
    unfold DistinctEmails
    simp
  refine ⟨hall, hdist, ?_, ?_⟩
  · obtain ⟨s', users', h1, h2, h3, _, h5, _⟩ :=
      saveUser_upsert asciiLower demoStorage [demoAccount]
        ⟨some "Ada@Example.com", some "pw2", some 7, none, none⟩ "Ada@Example.com"
        rfl hall hdist rfl (by decide) rfl rfl
    obtain ⟨h6, h7, _⟩ := h5 0 demoAccount rfl (by decide)
    exact ⟨s', users', h1, h2, h3, h6, h7⟩
  · obtain ⟨s', users', h1, h2, _, _, _, h6, _⟩ :=
      saveUser_upsert asciiLower demoStorage [demoAccount]
        ⟨some "bob@example.com", some "pw3", some 0, none, none⟩ "bob@example.com"
        rfl hall hdist rfl (by decide) rfl rfl
    exact ⟨s', users', h1, h2, h6 (by decide)⟩

/-- C20. Signup validation: on a directory that reads as a list, the submit handler returns
without touching the store (directory and session unchanged) and reaches the verification
step, for the trimmed email and the password, if and only if the trimmed email is non-empty,
the password is non-empty, the password equals the confirmation and `findUserByEmail` of the
trimmed email is null; otherwise it ends in MissingField, PasswordMismatch or DuplicateEmail,
and each of these names a condition that is violated. -/
theorem signupSubmit_validation (trim toLowerCase : String → String) (s : Storage)
    (users : List Account) (hdir : getUsers s = .array users)
    (emailInput password confirm : String) :
    ∃ step : SignupStep,
      signupSubmit trim toLowerCase s emailInput password confirm = .ok (s, step) ∧
      (step = .otpChallenge (trim emailInput) password ↔
        (trim emailInput ≠ "" ∧ password ≠ "" ∧ password = confirm ∧
          findUserByEmail toLowerCase s (trim emailInput) = .ok none)) ∧
      (step = .otpChallenge (trim emailInput) password ∨ step = .missingField ∨
        step = .passwordMismatch ∨ step = .duplicateEmail) ∧
      (step = .missingField → trim emailInput = "" ∨ password = "") ∧
      (step = .passwordMismatch → password ≠ confirm) ∧
      (step = .duplicateEmail →
        ∃ a, findUserByEmail toLowerCase s (trim emailInput) = .ok (some a)) := by
  unfold signupSubmit
  by_cases h1 : trim emailInput = "" ∨ password = ""
  · refine ⟨.missingField, by simp [h1], ?_, by simp, fun _ => h1, by simp, by simp⟩
    constructor
    · intro h; cases h
    · rintro ⟨ha, hb, _, _⟩
      rcases h1 with h1 | h1
      · exact absurd h1 ha
      · exact absurd h1 hb
  · have h1' : trim emailInput ≠ "" ∧ password ≠ "" := by
      constructor
      · exact fun h => h1 (Or.inl h)
      · exact fun h => h1 (Or.inr h)
    by_cases h2 : password = confirm
    · subst h2
      have hfind : ∃ r, findUserByEmail toLowerCase s (trim emailInput) = .ok r := by
        unfold findUserByEmail
        simp only [h1'.1, if_false, hdir]
        exact ⟨_, rfl⟩
      obtain ⟨r, hr⟩ := hfind
      cases r with
      | none =>
        refine ⟨.otpChallenge (trim emailInput) password, by simp [h1, hr], ?_,
          by simp, by simp, by simp, by simp⟩
        simp [h1'.1, h1'.2, hr]
      | some acct =>
        refine ⟨.duplicateEmail, by simp [h1, hr], ?_, by simp, by simp, by simp,
          fun _ => ⟨acct, hr⟩⟩
        simp [hr]
    · refine ⟨.passwordMismatch, by simp [h1, h2], ?_, by simp, by simp, fun _ => h2,
        by simp⟩
      simp [h2]

/-- Witness for C20 over `demoStorage`: a new email reaches verification, a blank email is
MissingField, differing passwords are PasswordMismatch, the stored email is DuplicateEmail. -/
theorem signupSubmit_validation_witness :
    getUsers demoStorage = .array [demoAccount] ∧
    signupSubmit asciiTrim asciiLower demoStorage " bob@example.com " "pw3" "pw3" =
      .ok (demoStorage, .otpChallenge "bob@example.com" "pw3") ∧
    signupSubmit asciiTrim asciiLower demoStorage "   " "pw3" "pw3" =
      .ok (demoStorage, .missingField) ∧
    signupSubmit asciiTrim asciiLower demoStorage "bob@example.com" "pw3" "pw4" =
      .ok (demoStorage, .passwordMismatch) ∧
    signupSubmit asciiTrim asciiLower demoStorage "ADA@example.com" "pw3" "pw3" =
      .ok (demoStorage, .duplicateEmail) := by
  have hfind : findUserByEmail asciiLower demoStorage (asciiTrim " bob@example.com ")
      = .ok none := rfl
  refine ⟨rfl, ?_, rfl, rfl, rfl⟩
  obtain ⟨step, hs, hiff, _⟩ := signupSubmit_validation asciiTrim asciiLower demoStorage
    [demoAccount] rfl " bob@example.com " "pw3" "pw3"
  have hstep := hiff.mpr ⟨by decide, by decide, rfl, hfind⟩
  rw [hs, hstep]
  have ht : asciiTrim " bob@example.com " = "bob@example.com" := by decide
  rw [ht]

/-- C21. Login validation: on a directory that reads as a list, the submit handler returns
without touching the store (session and directory unchanged) and reaches the verification
step if and only if `findUserByEmail` of the trimmed email returns an account whose stored
password is exactly the given password, and then the challenge carries that account;
otherwise it ends in InvalidCredentials. -/
theorem loginSubmit_validation (trim toLowerCase : String → String) (s : Storage)
    (users : List Account) (hdir : getUsers s = .array users)
    (emailInput password : String) :
    ∃ step : LoginStep,
      loginSubmit trim toLowerCase s emailInput password = .ok (s, step) ∧
      ((∃ user, step = .otpChallenge (trim emailInput) user) ↔
        ∃ a, findUserByEmail toLowerCase s (trim emailInput) = .ok (some a) ∧
          a.password = some password) ∧
      (∀ user, step = .otpChallenge (trim emailInput) user →
        findUserByEmail toLowerCase s (trim emailInput) = .ok (some user) ∧
        user.password = some password) ∧
      (step = .invalidCredentials ↔
        ¬ ∃ a, findUserByEmail toLowerCase s (trim emailInput) = .ok (some a) ∧
          a.password = some password) ∧
      (step = .invalidCredentials ∨ ∃ user, step = .otpChallenge (trim emailInput) user) := by
  have hfind : ∃ r, findUserByEmail toLowerCase s (trim emailInput) = .ok r := by
    unfold findUserByEmail
    by_cases he : trim emailInput = ""
    · exact ⟨none, by simp [he]⟩
    · simp only [he, if_false, hdir]
      exact ⟨_, rfl⟩
  obtain ⟨r, hr⟩ := hfind
  unfold loginSubmit
  cases r with
  | none =>
    refine ⟨.invalidCredentials, by simp [hr], ?_, ?_, ?_, Or.inl rfl⟩
    · simp [hr]
    · intro user h; cases h
    · simp [hr]
  | some acct =>
    by_cases hp : acct.password = some password
    · refine ⟨.otpChallenge (trim emailInput) acct, by simp [hr, hp], ?_, ?_, ?_,
        Or.inr ⟨acct, rfl⟩⟩
      · simp [hr, hp]
      · intro user h
        cases h
        exact ⟨hr, hp⟩
      · simp [hr, hp]
    · refine ⟨.invalidCredentials, by simp [hr, hp], ?_, ?_, ?_, Or.inl rfl⟩
      · simp [hr, hp]
      · intro user h; cases h
      · simp [hr, hp]

/-- Witness for C21 over `demoStorage`: the stored email in another letter case with the
stored password reaches verification; a wrong password and an unknown email do not. -/
theorem loginSubmit_validation_witness :
    getUsers demoStorage = .array [demoAccount] ∧
    findUserByEmail asciiLower demoStorage (asciiTrim " ADA@example.com ")
      = .ok (some demoAccount) ∧
    demoAccount.password = some "pw" ∧
    loginSubmit asciiTrim asciiLower demoStorage " ADA@example.com " "pw" =
      .ok (demoStorage, .otpChallenge "ADA@example.com" demoAccount) ∧
    loginSubmit asciiTrim asciiLower demoStorage "ada@example.com" "PW" =
      .ok (demoStorage, .invalidCredentials) ∧
    loginSubmit asciiTrim asciiLower demoStorage "bob@example.com" "pw" =
      .ok (demoStorage, .invalidCredentials) := by
  have hfind : findUserByEmail asciiLower demoStorage (asciiTrim " ADA@example.com ")
      = .ok (some demoAccount) := rfl
  refine ⟨rfl, hfind, rfl, ?_, rfl, rfl⟩
  obtain ⟨step, hs, hiff, hall, _⟩ := loginSubmit_validation asciiTrim asciiLower demoStorage
    [demoAccount] rfl " ADA@example.com " "pw"
  obtain ⟨user, hu⟩ := hiff.mpr ⟨demoAccount, hfind, rfl⟩
  have huser := (hall user hu).1
  rw [hfind] at huser
  have hud : user = demoAccount := by
    injection huser with h1
    injection h1 with h2
    exact h2.symm
  rw [hs, hu, hud]
  have ht : asciiTrim " ADA@example.com " = "ADA@example.com" := by decide
  rw [ht]

/-- C22. Verification gates state change: with `verified = false` (cancel or overlay click)
the signup callback and the login callback return the store exactly as it was; a callback
that returns a changed store was called with `verified = true`.  For a signup that passed
validation, on a directory that reads as a list of accounts with emails and a store that
accepts the writes, the verified callback appends the new account, with points 0 and an
empty order list, to the directory and makes it the session account.  For a login that
passed validation the verified callback makes the account found the session account and
leaves the directory alone. -/
theorem verification_gates_state_change (trim toLowerCase : String → String)
    (hlow : ∀ t, toLowerCase t = "" ↔ t = "")
    (s : Storage) (users : List Account) (hdir : getUsers s = .array users) :
    (∀ email password createdAt,
      signupVerified toLowerCase s email password createdAt false = .ok s) ∧
    (∀ user, loginVerified s user false = s) ∧
    (∀ email password createdAt verified s',
      signupVerified toLowerCase s email password createdAt verified = .ok s' →
      s' ≠ s → verified = true) ∧
    (∀ user verified, loginVerified s user verified ≠ s → verified = true) ∧
    (∀ emailInput password confirm email pw createdAt,
      signupSubmit trim toLowerCase s emailInput password confirm =
        .ok (s, .otpChallenge email pw) →
      AllHaveEmail users → s.usersWritable = true → s.currentUserWritable = true →
      ∃ (s' : Storage) (account : Account),
        signupVerified toLowerCase s email pw createdAt true = .ok s' ∧
        account.email = some email ∧ account.password = some pw ∧
        account.points = some 0 ∧ account.orders = some [] ∧
        getUsers s' = .array (users ++ [account]) ∧
        getLoggedInUser s' = some account ∧
        s'.orders = s.orders) ∧
    (∀ emailInput password email user,
      loginSubmit trim toLowerCase s emailInput password =
        .ok (s, .otpChallenge email user) →
      s.currentUserWritable = true →
      getLoggedInUser (loginVerified s user true) = some user ∧
      (loginVerified s user true).users = s.users ∧
      (loginVerified s user true).orders = s.orders ∧
      user ∈ users ∧ user.password = some password) := by
  refine ⟨fun _ _ _ => rfl, fun _ => rfl, ?_, ?_, ?_, ?_⟩
  · intro email password createdAt verified s' h hne
    cases verified with
    | true => rfl
    | false =>
      simp only [signupVerified, Bool.false_eq_true, if_false, Except.ok.injEq] at h
      exact absurd h.symm hne
  · intro user verified hne
    cases verified with
    | true => rfl
    | false => exact absurd rfl hne
  · intro emailInput password confirm email pw createdAt hsub hall hwu hwc
    obtain ⟨_, _, _, hne, _, _, hfind⟩ :=
      signupSubmit_otp trim toLowerCase s s emailInput password confirm email pw hsub
    have h := signupVerified_nominal toLowerCase hlow s users email pw createdAt hdir hall hne
      hfind hwu hwc
    exact ⟨_, ⟨some email, some pw, some 0, some [], some createdAt⟩, h, rfl, rfl, rfl, rfl,
      rfl, rfl, rfl⟩
  · intro emailInput password email user hsub hwc
    obtain ⟨_, he, hfind, hp⟩ :=
      loginSubmit_otp trim toLowerCase s s emailInput password email user hsub
    refine ⟨?_, ?_, ?_, ?_, hp⟩
    · simp [loginVerified, hwc, getLoggedInUser]
    · simp [loginVerified, hwc]
    · simp [loginVerified, hwc]
    · have hne : email ≠ "" := by
        intro h0
        simp [findUserByEmail, h0] at hfind
      rw [findUserByEmail_eq_find toLowerCase hlow s users hdir email hne] at hfind
      exact List.mem_of_find?_eq_some (Except.ok.inj hfind)

/-- Witness for C22 over `demoStorage`: a validated signup of `bob@example.com` and a
validated login of the stored account. -/
theorem verification_gates_state_change_witness :
    getUsers demoStorage = .array [demoAccount] ∧
    signupSubmit asciiTrim asciiLower demoStorage "bob@example.com" "pw3" "pw3" =
      .ok (demoStorage, .otpChallenge "bob@example.com" "pw3") ∧
    loginSubmit asciiTrim asciiLower demoStorage "ada@example.com" "pw" =
      .ok (demoStorage, .otpChallenge "ada@example.com" demoAccount) ∧
    signupVerified asciiLower demoStorage "bob@example.com" "pw3" "t0" false
      = .ok demoStorage ∧
    (∃ (s' : Storage) (account : Account),
      signupVerified asciiLower demoStorage "bob@example.com" "pw3" "t0" true = .ok s' ∧
      account.points = some 0 ∧ account.orders = some [] ∧
      getUsers s' = .array ([demoAccount] ++ [account]) ∧
      getLoggedInUser s' = some account) ∧
    getLoggedInUser (loginVerified demoStorage demoAccount true) = some demoAccount := by
  have hall : AllHaveEmail [demoAccount] := by
    intro u hu
    rw [List.mem_singleton] at hu
    subst hu
    decide
  have hsig : signupSubmit asciiTrim asciiLower demoStorage "bob@example.com" "pw3" "pw3" =
      .ok (demoStorage, .otpChallenge "bob@example.com" "pw3") := rfl
  have hlog : loginSubmit asciiTrim asciiLower demoStorage "ada@example.com" "pw" =
      .ok (demoStorage, .otpChallenge "ada@example.com" demoAccount) := rfl
  have h := verification_gates_state_change asciiTrim asciiLower asciiLower_eq_empty
    demoStorage [demoAccount] rfl
  obtain ⟨s', account, h1, _, _, h4, h5, h6, h7, _⟩ :=
    h.2.2.2.2.1 "bob@example.com" "pw3" "pw3" "bob@example.com" "pw3" "t0" hsig hall rfl rfl
  exact ⟨rfl, hsig, hlog, h.1 "bob@example.com" "pw3" "t0", ⟨s', account, h1, h4, h5, h6, h7⟩,
    (h.2.2.2.2.2 "ada@example.com" "pw" "ada@example.com" demoAccount hlog rfl).1⟩

/-- C23, as amended. OTP shape: for every draw `r` with `0 <= r < 1` that is a binary64
number, `generateOTP` returns the decimal string of the floor of `r × 9000 + 1000` as the
host computes it, with the product and the sum each rounded to binary64; that integer is
between 1000 and 9999 inclusive and is `floor(r × 9000 + 1000)` or one more, so the code has
exactly 4 decimal digits and no leading zero. -/
theorem generateOTP_shape (r : ℚ) (h0 : 0 ≤ r) (h1 : r < 1) (hr : binary64 r = r) :
    generateOTP binary64 r = intToString ⌊binary64 (binary64 (r * 9000) + 1000)⌋ ∧
    1000 ≤ ⌊binary64 (binary64 (r * 9000) + 1000)⌋ ∧
    ⌊binary64 (binary64 (r * 9000) + 1000)⌋ ≤ 9999 ∧
    ⌊r * 9000 + 1000⌋ ≤ ⌊binary64 (binary64 (r * 9000) + 1000)⌋ ∧
    ⌊binary64 (binary64 (r * 9000) + 1000)⌋ ≤ ⌊r * 9000 + 1000⌋ + 1 ∧
    (generateOTP binary64 r).length = 4 ∧
    (∀ c ∈ (generateOTP binary64 r).data, c.isDigit = true) ∧
    (generateOTP binary64 r).data.head? ≠ some '0' ∧
    jsLength (generateOTP binary64 r) = 4 := by
  obtain ⟨hlo, hhi, hn0, hn1⟩ := binary64_otp_bounds r h0 h1 hr
  obtain ⟨m, hm⟩ := Int.eq_ofNat_of_zero_le
    (by omega : (0 : ℤ) ≤ ⌊binary64 (binary64 (r * 9000) + 1000)⌋)
  have hm1 : 1000 ≤ m := by omega
  have hm2 : m ≤ 9999 := by omega
  have hd := decimal_four_digits m hm1 hm2
  refine ⟨rfl, hlo, hhi, hn0, hn1, ?_, ?_, ?_, ?_⟩
  · unfold generateOTP; rw [hm]; exact hd.1
  · unfold generateOTP; rw [hm]; exact hd.2.1
  · unfold generateOTP; rw [hm]; exact hd.2.2.1
  · unfold generateOTP; rw [hm]; exact hd.2.2.2

/-- Witness for C23 as amended: the draws 1/2, 0 and `1 - 2 ^ -53` (the largest one) give
`5500`, `1000` and `9999`. -/
theorem generateOTP_shape_witness :
    ((0 : ℚ) ≤ 1 / 2 ∧ (1 / 2 : ℚ) < 1 ∧ binary64 (1 / 2) = 1 / 2) ∧
    generateOTP binary64 (1 / 2) = "5500" ∧
    generateOTP binary64 0 = "1000" ∧
    generateOTP binary64 (1 - 1 / 2 ^ 53) = "9999" ∧
    (generateOTP binary64 (1 / 2)).length = 4 ∧
    (generateOTP binary64 (1 / 2)).data.head? ≠ some '0' := by
  have hr : binary64 (1 / 2) = 1 / 2 := by
    rw [binary64_eq_of_near _ 53 (2 ^ 52) (by norm_num) (by norm_num) (by norm_num)]
    norm_num
  have h := generateOTP_shape (1 / 2) (by norm_num) (by norm_num) hr
  have e1 : generateOTP binary64 (1 / 2) = "5500" := by
    have a1 : binary64 ((1 / 2 : ℚ) * 9000) = 4500 := by
      have := binary64_natCast 4500 (by norm_num)
      norm_num at this ⊢
      exact this
    have a2 : binary64 ((4500 : ℚ) + 1000) = 5500 := by
      have := binary64_natCast 5500 (by norm_num)
      norm_num at this ⊢
      exact this
    unfold generateOTP
    rw [a1, a2]
    have : ⌊(5500 : ℚ)⌋ = 5500 := by norm_num
    rw [this]
    simp [intToString]
    decide
  have e0 : generateOTP binary64 0 = "1000" := by
    have a2 : binary64 ((0 : ℚ) + 1000) = 1000 := by
      have := binary64_natCast 1000 (by norm_num)
      norm_num at this ⊢
      exact this
    unfold generateOTP
    rw [zero_mul, binary64_zero, a2]
    have : ⌊(1000 : ℚ)⌋ = 1000 := by norm_num
    rw [this]
    simp [intToString]
    decide
  have e9 : generateOTP binary64 (1 - 1 / 2 ^ 53) = "9999" := by
    have a1 : binary64 ((1 - 1 / 2 ^ 53 : ℚ) * 9000) = 9000 - 1 / 2 ^ 39 := by
      rw [binary64_eq_of_near _ 39 (9000 * 2 ^ 39 - 1) (by norm_num) (by norm_num)
        (by rw [abs_lt]; constructor <;> norm_num)]
      norm_num
    have a2 : binary64 ((9000 - 1 / 2 ^ 39 : ℚ) + 1000) = 10000 - 1 / 2 ^ 39 := by
      rw [binary64_eq_of_near _ 39 (10000 * 2 ^ 39 - 1) (by norm_num) (by norm_num)
        (by norm_num)]
      norm_num
    unfold generateOTP
    rw [a1, a2]
    have : ⌊(10000 - 1 / 2 ^ 39 : ℚ)⌋ = 9999 := by
      rw [Int.floor_eq_iff]
      constructor <;> norm_num
    rw [this]
    simp [intToString]
    decide
  exact ⟨⟨by norm_num, by norm_num, hr⟩, e1, e0, e9, h.2.2.2.2.2.1, h.2.2.2.2.2.2.2.1⟩

/-- Counterexample to C23 as stated: the draw `8198552921648689 / 2 ^ 66`, a binary64 number
in `[0, 1)`.  Its product with 9000 is just below 1 and rounds to `1 - 2 ^ -53`; adding 1000
rounds to 1001, so `generateOTP` returns `1001`, while `floor(r × 9000 + 1000)` is 1000. -/
theorem generateOTP_floor_counterexample :
    (0 : ℚ) ≤ 8198552921648689 / 2 ^ 66 ∧ (8198552921648689 / 2 ^ 66 : ℚ) < 1 ∧
    binary64 (8198552921648689 / 2 ^ 66) = 8198552921648689 / 2 ^ 66 ∧
    ⌊(8198552921648689 / 2 ^ 66 : ℚ) * 9000 + 1000⌋ = 1000 ∧
    intToString ⌊(8198552921648689 / 2 ^ 66 : ℚ) * 9000 + 1000⌋ = "1000" ∧
    generateOTP binary64 (8198552921648689 / 2 ^ 66) = "1001" ∧
    generateOTP binary64 (8198552921648689 / 2 ^ 66) ≠
      intToString ⌊(8198552921648689 / 2 ^ 66 : ℚ) * 9000 + 1000⌋ := by
  have hr : binary64 (8198552921648689 / 2 ^ 66) = 8198552921648689 / 2 ^ 66 := by
    rw [binary64_eq_of_near _ 66 8198552921648689 (by norm_num) (by norm_num) (by norm_num)]
    norm_num
  have hfl : ⌊(8198552921648689 / 2 ^ 66 : ℚ) * 9000 + 1000⌋ = 1000 := by
    rw [Int.floor_eq_iff]
    constructor <;> norm_num
  have h1 : binary64 ((8198552921648689 / 2 ^ 66 : ℚ) * 9000) = 9007199254740991 / 2 ^ 53 := by
    rw [binary64_eq_of_near _ 53 9007199254740991 (by norm_num) (by norm_num)
      (by rw [abs_lt]; constructor <;> norm_num)]
    norm_num
  have h2 : binary64 ((9007199254740991 / 2 ^ 53 : ℚ) + 1000) = 1001 := by
    rw [binary64_eq_of_near _ 43 (1001 * 2 ^ 43) (by norm_num) (by norm_num)
      (by rw [abs_lt]; constructor <;> norm_num)]
    norm_num
  have hs : intToString 1000 = "1000" := by
    simp [intToString]
    decide
  have hotp : generateOTP binary64 (8198552921648689 / 2 ^ 66) = "1001" := by
    unfold generateOTP
    rw [h1, h2]
    have : ⌊(1001 : ℚ)⌋ = 1001 := by norm_num
    rw [this]
    simp [intToString]
    decide
  refine ⟨by norm_num, by norm_num, hr, hfl, ?_, hotp, ?_⟩
  · rw [hfl, hs]
  · rw [hotp, hfl, hs]
    decide

/-- C24. OTP verification: an attempt (text typed into the input, then Verify) calls
`onVerify(true)` if and only if the trimmed text equals the issued code; for an issued code
(4 code units, no surrounding white space) and a text the input can hold (`maxlength="4"`)
that is if and only if the text is exactly the code.  In every other case `onVerify` is not
called, the error line is shown, the input is cleared and the modal stays in the document
with the same code; after any number of failed attempts the code is unchanged, the modal is
still there and the right code is still accepted.  `trim` is the host function, which never
lengthens a string and changes nothing when it removes nothing. -/
theorem otpSubmit_verification (trim : String → String)
    (hshrink : ∀ t, jsLength (trim t) ≤ jsLength t)
    (hsame : ∀ t, jsLength (trim t) = jsLength t → trim t = t)
    (m : OtpModal) (text : String) :
    ((otpAttempt trim m text).2 = some true ↔ trim text = m.otp) ∧
    (trim m.otp = m.otp → jsLength m.otp = 4 → jsLength text ≤ 4 →
      ((otpAttempt trim m text).2 = some true ↔ text = m.otp)) ∧
    ((otpAttempt trim m text).2 = some true → (otpAttempt trim m text).1.attached = false) ∧
    ((otpAttempt trim m text).2 ≠ some true →
      (otpAttempt trim m text).2 = none ∧
      (otpAttempt trim m text).1.otp = m.otp ∧
      (otpAttempt trim m text).1.attached = m.attached ∧
      (otpAttempt trim m text).1.errorShown = true ∧
      (otpAttempt trim m text).1.input = "") ∧
    (∀ texts : List String, (∀ t ∈ texts, trim t ≠ m.otp) →
      (otpAttempts trim m texts).otp = m.otp ∧
      (otpAttempts trim m texts).attached = m.attached ∧
      (trim m.otp = m.otp →
        (otpAttempt trim (otpAttempts trim m texts) m.otp).2 = some true)) := by
  have hiff : ∀ (m' : OtpModal) (t : String),
      (otpAttempt trim m' t).2 = some true ↔ trim t = m'.otp := by
    intro m' t
    unfold otpAttempt otpSubmitClick
    by_cases h : trim t = m'.otp <;> simp [h]
  have hfail : ∀ (m' : OtpModal) (t : String), trim t ≠ m'.otp →
      (otpAttempt trim m' t).2 = none ∧ (otpAttempt trim m' t).1.otp = m'.otp ∧
      (otpAttempt trim m' t).1.attached = m'.attached ∧
      (otpAttempt trim m' t).1.errorShown = true ∧ (otpAttempt trim m' t).1.input = "" := by
    intro m' t h
    unfold otpAttempt otpSubmitClick
    simp [h]
  refine ⟨hiff m text, ?_, ?_, ?_, ?_⟩
  · intro hc h4 hle
    rw [hiff]
    constructor
    · intro h
      have h1 : jsLength (trim text) = 4 := by rw [h, h4]
      have h2 := hshrink text
      have h3 : trim text = text := hsame text (by omega)
      rw [← h3, h]
    · intro h
      rw [h, hc]
  · intro h
    have ht := (hiff m text).mp h
    unfold otpAttempt otpSubmitClick
    simp [ht]
  · intro h
    exact hfail m text (fun ht => h ((hiff m text).mpr ht))
  · intro texts
    induction texts generalizing m with
    | nil =>
      intro _
      refine ⟨rfl, rfl, fun hc => ?_⟩
      exact (hiff m m.otp).mpr hc
    | cons t rest ih =>
      intro hall
      have ht : trim t ≠ m.otp := hall t (List.mem_cons_self _ _)
      obtain ⟨_, ho, ha, _, _⟩ := hfail m t ht
      have hrest : ∀ t' ∈ rest, trim t' ≠ (otpAttempt trim m t).1.otp := by
        intro t' ht'
        rw [ho]
        exact hall t' (List.mem_cons_of_mem _ ht')
      obtain ⟨i1, i2, i3⟩ := ih (otpAttempt trim m t).1 hrest
      have hstep : otpAttempts trim m (t :: rest) =
          otpAttempts trim (otpAttempt trim m t).1 rest := rfl
      rw [hstep]
      refine ⟨i1.trans ho, i2.trans ha, fun hc => ?_⟩
      have := i3 (by rw [ho]; exact hc)
      rw [ho] at this
      exact this

/-- Witness for C24 with ASCII trimming on the modal issued for the draw 1/2 (code `5500`):
`5500` is accepted, `5501` is not, and after the failed attempts `0000` and `55` the code
`5500` is still accepted. -/
theorem otpSubmit_verification_witness :
    (showOTPModal binary64 (1 / 2)).otp = "5500" ∧
    (otpAttempt asciiTrim (showOTPModal binary64 (1 / 2)) "5500").2 = some true ∧
    (otpAttempt asciiTrim (showOTPModal binary64 (1 / 2)) "5501").2 = none ∧
    (otpAttempt asciiTrim (showOTPModal binary64 (1 / 2)) "5501").1.attached = true ∧
    (otpAttempt asciiTrim
      (otpAttempts asciiTrim (showOTPModal binary64 (1 / 2)) ["0000", "55"]) "5500").2 = some true := by
  have hotp : (showOTPModal binary64 (1 / 2)).otp = "5500" := by
    have a1 : binary64 ((1 / 2 : ℚ) * 9000) = 4500 := by
      have := binary64_natCast 4500 (by norm_num)
      norm_num at this ⊢
      exact this
    have a2 : binary64 ((4500 : ℚ) + 1000) = 5500 := by
      have := binary64_natCast 5500 (by norm_num)
      norm_num at this ⊢
      exact this
    have e1 : ⌊(5500 : ℚ)⌋ = 5500 := by norm_num
    show generateOTP binary64 (1 / 2) = "5500"
    unfold generateOTP
    rw [a1, a2, e1]
    simp [intToString]
    decide
  have h := otpSubmit_verification asciiTrim asciiTrim_shrink asciiTrim_same
    (showOTPModal binary64 (1 / 2))
  have htrim : asciiTrim (showOTPModal binary64 (1 / 2)).otp = (showOTPModal binary64 (1 / 2)).otp := by
    rw [hotp]; decide
  have hlen : jsLength (showOTPModal binary64 (1 / 2)).otp = 4 := by
    rw [hotp]; decide
  have hbad : (otpAttempt asciiTrim (showOTPModal binary64 (1 / 2)) "5501").2 ≠ some true := by
    intro hc
    have := ((h "5501").2.1 htrim hlen (by decide)).mp hc
    rw [hotp] at this
    exact absurd this (by decide)
  refine ⟨hotp, ?_, ((h "5501").2.2.2.1 hbad).1, ?_, ?_⟩
  · exact ((h "5500").2.1 htrim hlen (by decide)).mpr hotp.symm
  · rw [((h "5501").2.2.2.1 hbad).2.2.1]
    rfl
  · have hall : ∀ t ∈ (["0000", "55"] : List String),
        asciiTrim t ≠ (showOTPModal binary64 (1 / 2)).otp := by
      rw [hotp]; decide
    have := ((h "").2.2.2.2 ["0000", "55"] hall).2.2 htrim
    rw [hotp] at this
    exact this

/-- C25. Reads degrade to a default: when the stored value is absent or does not parse as
JSON, `getUsers` returns the empty list, `getLoggedInUser` returns null, `loadFavorites`
sets `favorites` to the empty list and leaves no stored favorites value (the unparseable one
is removed), and `loadOrdersFromHistory` returns the empty list.  All four are total
functions of the stored value: none has a failing outcome. -/
theorem reads_degrade_to_default (s : Storage) (stored : Stored (ArrayJson String)) :
    (s.users = .absent ∨ s.users = .corrupt → getUsers s = .array []) ∧
    (s.currentUser = .absent ∨ s.currentUser = .corrupt → getLoggedInUser s = none) ∧
    (stored = .absent ∨ stored = .corrupt →
      (loadFavorites stored).favorites = .array [] ∧ (loadFavorites stored).stored = .absent) ∧
    (s.orders = .absent ∨ s.orders = .corrupt → loadOrdersFromHistory s = .array []) := by
  refine ⟨?_, ?_, ?_, ?_⟩
  · rintro (h | h) <;> simp [getUsers, h]
  · rintro (h | h) <;> simp [getLoggedInUser, h]
  · rintro (h | h) <;> simp [loadFavorites, h]
  · rintro (h | h) <;> simp [loadOrdersFromHistory, h]

/-- Witness for C25: a store whose three keys hold unparseable text, and unparseable
favorites. -/
theorem reads_degrade_to_default_witness :
    getUsers ⟨.corrupt, .corrupt, .corrupt, true, true, true⟩ = .array [] ∧
    getLoggedInUser ⟨.corrupt, .corrupt, .corrupt, true, true, true⟩ = none ∧
    loadFavorites .corrupt = ⟨.array [], .absent⟩ ∧
    (loadFavorites .absent).favorites = .array [] ∧
    loadOrdersFromHistory ⟨.corrupt, .corrupt, .corrupt, true, true, true⟩ = .array [] :=
  ⟨(reads_degrade_to_default ⟨.corrupt, .corrupt, .corrupt, true, true, true⟩ .corrupt).1
      (Or.inr rfl),
    (reads_degrade_to_default ⟨.corrupt, .corrupt, .corrupt, true, true, true⟩ .corrupt).2.1
      (Or.inr rfl),
    rfl,
    ((reads_degrade_to_default ⟨.corrupt, .corrupt, .corrupt, true, true, true⟩ .absent).2.2.1
      (Or.inl rfl)).1,
    (reads_degrade_to_default ⟨.corrupt, .corrupt, .corrupt, true, true, true⟩ .corrupt).2.2.2
      (Or.inr rfl)⟩

/-- C26, the code at the failing input.  When the value under `foodhub-orders` does not
parse, `saveOrderToHistory` returns the store as it was, for every order and every other
content of the store: the unparseable value stays, the order is not stored, and
`loadOrdersFromHistory` still reads the history as empty afterwards.  The sibling write path
`saveUser` on an unparseable directory does start from the empty list and stores the
one-element directory. -/
theorem saveOrderToHistory_corrupt_drops_order (users : Stored (ArrayJson Account))
    (currentUser : Stored Account) (wu wc wo : Bool) (o : Order) :
    saveOrderToHistory ⟨users, currentUser, .corrupt, wu, wc, wo⟩ o =
      ⟨users, currentUser, .corrupt, wu, wc, wo⟩ ∧
    (saveOrderToHistory ⟨users, currentUser, .corrupt, wu, wc, wo⟩ o).orders ≠
      .parsed (.array [o]) ∧
    loadOrdersFromHistory (saveOrderToHistory ⟨users, currentUser, .corrupt, wu, wc, wo⟩ o) =
      .array [] ∧
    saveUser asciiLower ⟨.corrupt, currentUser, .corrupt, true, true, wo⟩ demoAccount =
      .ok ⟨.parsed (.array [demoAccount]), .parsed demoAccount, .corrupt, true, true, wo⟩ := by
  refine ⟨rfl, ?_, rfl, rfl⟩
  intro h
  cases h

/-- C27, the code at the failing inputs.  With `ada@example.com` logged in and any non-empty
cart, a stored user directory that parses to something other than a list, and a directory
whose first entry has no email, each make `saveUser` raise a `TypeError` that leaves
`generateReceipt`: the run ends as `.threw`, after `saveOrderToHistory` and before
`cart = []`, so the cart still holds its items, whatever the rest of the store is. -/
theorem generateReceipt_blocked_by_directory (item : LineItem) (rest : Cart) (view : View)
    (orders : Stored (ArrayJson Order)) (wu wc wo : Bool) (others : List Account)
    (orderId date : String) :
    generateReceipt asciiLower
        ⟨item :: rest, ⟨.parsed .notArray, .parsed demoAccount, orders, wu, wc, wo⟩, view⟩
        orderId date =
      (⟨item :: rest,
          saveOrderToHistory ⟨.parsed .notArray, .parsed demoAccount, orders, wu, wc, wo⟩
            (buildOrder (item :: rest) orderId date), view⟩,
        .threw (buildOrder (item :: rest) orderId date)) ∧
    generateReceipt asciiLower
        ⟨item :: rest,
          ⟨.parsed (.array (⟨none, some "pw", some 0, some [], none⟩ :: others)),
            .parsed demoAccount, orders, wu, wc, wo⟩, view⟩
        orderId date =
      (⟨item :: rest,
          saveOrderToHistory
            ⟨.parsed (.array (⟨none, some "pw", some 0, some [], none⟩ :: others)),
              .parsed demoAccount, orders, wu, wc, wo⟩
            (buildOrder (item :: rest) orderId date), view⟩,
        .threw (buildOrder (item :: rest) orderId date)) ∧
    (generateReceipt asciiLower
        ⟨item :: rest, ⟨.parsed .notArray, .parsed demoAccount, orders, wu, wc, wo⟩, view⟩
        orderId date).1.cart ≠ [] := by
  have hne : ("ada@example.com" : String) ≠ "" := by decide
  have h1 := generateReceipt_threw asciiLower
    ⟨item :: rest, ⟨.parsed .notArray, .parsed demoAccount, orders, wu, wc, wo⟩, view⟩
    orderId date demoAccount "ada@example.com" (by simp) rfl rfl hne (Or.inl rfl)
  have h2 := generateReceipt_threw asciiLower
    ⟨item :: rest,
      ⟨.parsed (.array (⟨none, some "pw", some 0, some [], none⟩ :: others)),
        .parsed demoAccount, orders, wu, wc, wo⟩, view⟩
    orderId date demoAccount "ada@example.com" (by simp) rfl rfl hne
    (Or.inr ⟨_, rfl, rfl⟩)
  refine ⟨h1, h2, ?_⟩
  rw [h1]
  simp

/-- C28. Filter predicate: `applyFilters` shows a card if and only if (the active category is
`Featured` or equals the card's category) and (the trimmed lower-cased search term is empty
or occurs in the lower-cased title or description) and (the card's price is at most
`maxPrice`) and (no dietary filter is selected or some selected filter is among the card's
lower-cased tags), and it does so card by card.  Hence with at least one dietary filter
selected, a selection that contains all the current ones never hides a visible card, and a
lower `maxPrice` never reveals a hidden one. -/
theorem applyFilters_spec (trim toLowerCase : String → String)
    (splitWords : String → List String) (f : FilterState) (card : MenuCard) :
    (cardVisible trim toLowerCase splitWords f card = true ↔
      (f.activeCategory = "Featured" ∨ card.category = f.activeCategory) ∧
      (toLowerCase (trim f.activeSearch) = "" ∨
        (toLowerCase (trim f.activeSearch)).data <:+: (toLowerCase card.title).data ∨
        (toLowerCase (trim f.activeSearch)).data <:+: (toLowerCase card.desc).data) ∧
      card.price ≤ f.maxPrice ∧
      (f.activeDietary = [] ∨
        ∃ d ∈ f.activeDietary, d ∈ splitWords (toLowerCase card.dietaryTags))) ∧
    (∀ (menuCards : List MenuCard) (i : Nat),
      (applyFilters trim toLowerCase splitWords f menuCards)[i]? =
        menuCards[i]?.map (cardVisible trim toLowerCase splitWords f)) ∧
    (∀ more : List String, f.activeDietary ≠ [] → (∀ d ∈ f.activeDietary, d ∈ more) →
      cardVisible trim toLowerCase splitWords f card = true →
      cardVisible trim toLowerCase splitWords { f with activeDietary := more } card = true) ∧
    (∀ lower : ℚ, lower ≤ f.maxPrice →
      cardVisible trim toLowerCase splitWords f card = false →
      cardVisible trim toLowerCase splitWords { f with maxPrice := lower } card = false) := by
  refine ⟨cardVisible_iff trim toLowerCase splitWords f card, ?_, ?_, ?_⟩
  · intro menuCards i
    simp [applyFilters]
  · intro more hne hsub hvis
    rw [cardVisible_iff] at hvis ⊢
    obtain ⟨h1, h2, h3, h4⟩ := hvis
    refine ⟨h1, h2, h3, Or.inr ?_⟩
    rcases h4 with h4 | ⟨d, hd, hdt⟩
    · exact absurd h4 hne
    · exact ⟨d, hsub d hd, hdt⟩
  · intro lower hle hhid
    by_contra hc
    have hvis : cardVisible trim toLowerCase splitWords { f with maxPrice := lower } card
        = true := by simpa using hc
    rw [cardVisible_iff] at hvis
    obtain ⟨h1, h2, h3, h4⟩ := hvis
    have : cardVisible trim toLowerCase splitWords f card = true := by
      rw [cardVisible_iff]
      exact ⟨h1, h2, le_trans h3 hle, h4⟩
    rw [hhid] at this
    cases this

/-- Witness for C28: a vegan Pizza card at 5000 under the search ` PIZ `, the price limit
6000 and the dietary filter `vegan`; adding the filter `halal` keeps it visible, and the
limit 4000 hides it at 4000 and at 3000. -/
theorem applyFilters_spec_witness :
    cardVisible asciiTrim asciiLower asciiWords ⟨"Featured", " PIZ ", 6000, ["vegan"]⟩
      ⟨"Mains", "Veggie Pizza", "Stone baked", 5000, "Vegan  Spicy"⟩ = true ∧
    cardVisible asciiTrim asciiLower asciiWords ⟨"Featured", " PIZ ", 6000, ["halal", "vegan"]⟩
      ⟨"Mains", "Veggie Pizza", "Stone baked", 5000, "Vegan  Spicy"⟩ = true ∧
    cardVisible asciiTrim asciiLower asciiWords ⟨"Featured", " PIZ ", 4000, ["vegan"]⟩
      ⟨"Mains", "Veggie Pizza", "Stone baked", 5000, "Vegan  Spicy"⟩ = false ∧
    cardVisible asciiTrim asciiLower asciiWords ⟨"Featured", " PIZ ", 3000, ["vegan"]⟩
      ⟨"Mains", "Veggie Pizza", "Stone baked", 5000, "Vegan  Spicy"⟩ = false := by
  have hv : cardVisible asciiTrim asciiLower asciiWords ⟨"Featured", " PIZ ", 6000, ["vegan"]⟩
      ⟨"Mains", "Veggie Pizza", "Stone baked", 5000, "Vegan  Spicy"⟩ = true := by
    apply (applyFilters_spec asciiTrim asciiLower asciiWords
      ⟨"Featured", " PIZ ", 6000, ["vegan"]⟩
      ⟨"Mains", "Veggie Pizza", "Stone baked", 5000, "Vegan  Spicy"⟩).1.mpr
    refine ⟨Or.inl rfl, Or.inr (Or.inl (by decide)), by norm_num, Or.inr ⟨"vegan", ?_, ?_⟩⟩
    · simp
    · decide
  have hh : cardVisible asciiTrim asciiLower asciiWords ⟨"Featured", " PIZ ", 4000, ["vegan"]⟩
      ⟨"Mains", "Veggie Pizza", "Stone baked", 5000, "Vegan  Spicy"⟩ = false := by
    have hiff := (applyFilters_spec asciiTrim asciiLower asciiWords
      ⟨"Featured", " PIZ ", 4000, ["vegan"]⟩
      ⟨"Mains", "Veggie Pizza", "Stone baked", 5000, "Vegan  Spicy"⟩).1
    cases hc : cardVisible asciiTrim asciiLower asciiWords
      ⟨"Featured", " PIZ ", 4000, ["vegan"]⟩
      ⟨"Mains", "Veggie Pizza", "Stone baked", 5000, "Vegan  Spicy"⟩ with
    | false => rfl
    | true =>
      have := (hiff.mp hc).2.2.1
      norm_num at this
  refine ⟨hv, ?_, hh, ?_⟩
  · exact (applyFilters_spec asciiTrim asciiLower asciiWords
      ⟨"Featured", " PIZ ", 6000, ["vegan"]⟩
      ⟨"Mains", "Veggie Pizza", "Stone baked", 5000, "Vegan  Spicy"⟩).2.2.1
      ["halal", "vegan"] (by simp) (by simp) hv
  · exact (applyFilters_spec asciiTrim asciiLower asciiWords
      ⟨"Featured", " PIZ ", 4000, ["vegan"]⟩
      ⟨"Mains", "Veggie Pizza", "Stone baked", 5000, "Vegan  Spicy"⟩).2.2.2
      3000 (by norm_num) hh

/-- C29. Combo suggestions: `generateComboSuggestions` produces no suggestion unless some
item name contains a main-course keyword (burger, chicken, pizza, pasta) after lower-casing;
`Ultimate Combo Deal` is suggested if and only if both `Add a Drink` and `Add a Dessert`
are; the number of suggestions is 0, 1 or 3 and never 2; and the banner is active if and
only if that number is not 0 (an empty cart gives no suggestion and an inactive banner, a
non-empty cart has exactly the suggestions rendered). -/
theorem generateComboSuggestions_spec (toLowerCase : String → String) (cart : Cart)
    (banner : ComboBanner) :
    (comboSuggestions toLowerCase cart ≠ [] → ∃ item ∈ cart,
        "burger".data <:+: (toLowerCase item.name).data ∨
        "chicken".data <:+: (toLowerCase item.name).data ∨
        "pizza".data <:+: (toLowerCase item.name).data ∨
        "pasta".data <:+: (toLowerCase item.name).data) ∧
    ((∃ s ∈ comboSuggestions toLowerCase cart, s.name = "Ultimate Combo Deal") ↔
      (∃ s ∈ comboSuggestions toLowerCase cart, s.name = "Add a Drink") ∧
      (∃ s ∈ comboSuggestions toLowerCase cart, s.name = "Add a Dessert")) ∧
    ((comboSuggestions toLowerCase cart).length = 0 ∨
      (comboSuggestions toLowerCase cart).length = 1 ∨
      (comboSuggestions toLowerCase cart).length = 3) ∧
    (comboSuggestions toLowerCase cart).length ≠ 2 ∧
    ((generateComboSuggestions toLowerCase cart banner).active = true ↔
      (comboSuggestions toLowerCase cart).length ≠ 0) ∧
    (cart ≠ [] →
      (generateComboSuggestions toLowerCase cart banner).items =
        comboSuggestions toLowerCase cart) ∧
    (cart = [] → comboSuggestions toLowerCase cart = [] ∧
      generateComboSuggestions toLowerCase cart banner = { banner with active := false }) := by
  obtain ⟨m, d, s, hm, heq⟩ := comboSuggestions_flags toLowerCase cart
  refine ⟨?_, ?_, ?_, ?_, ?_, ?_, ?_⟩
  · intro hne
    apply hm.mp
    rw [heq] at hne
    cases m
    · simp at hne
    · rfl
  · rw [heq]
    cases m <;> cases d <;> cases s <;> simp
  · rw [heq]
    cases m <;> cases d <;> cases s <;> simp
  · rw [heq]
    cases m <;> cases d <;> cases s <;> simp
  · cases cart with
    | nil => simp [generateComboSuggestions, comboSuggestions]
    | cons item rest => simp [generateComboSuggestions]
  · intro hne
    cases cart with
    | nil => exact absurd rfl hne
    | cons item rest => simp [generateComboSuggestions]
  · intro he
    subst he
    simp [generateComboSuggestions, comboSuggestions]

/-- Witness for C29 with ASCII lower-casing: `Chicken Burger` alone gets all three
suggestions and an active banner, `Pizza` with `Cola` gets only the dessert, and `Cola` alone
gets none and an inactive banner. -/
theorem generateComboSuggestions_spec_witness :
    comboSuggestions asciiLower [⟨"Chicken Burger", 3000, 1⟩] =
      [⟨"Add a Drink", "Save ₦1 500"⟩, ⟨"Add a Dessert", "Save ₦2 000"⟩,
        ⟨"Ultimate Combo Deal", "Save ₦5 000"⟩] ∧
    (generateComboSuggestions asciiLower [⟨"Chicken Burger", 3000, 1⟩] ⟨[], false⟩).active
      = true ∧
    comboSuggestions asciiLower [⟨"Pizza", 5000, 1⟩, ⟨"Cola", 500, 1⟩] =
      [⟨"Add a Dessert", "Save ₦2 000"⟩] ∧
    comboSuggestions asciiLower [⟨"Cola", 500, 1⟩] = [] ∧
    (generateComboSuggestions asciiLower [⟨"Cola", 500, 1⟩] ⟨[], true⟩).active = false := by
  have h3 : comboSuggestions asciiLower [⟨"Chicken Burger", 3000, 1⟩] =
      [⟨"Add a Drink", "Save ₦1 500"⟩, ⟨"Add a Dessert", "Save ₦2 000"⟩,
        ⟨"Ultimate Combo Deal", "Save ₦5 000"⟩] := by decide
  have h0 : comboSuggestions asciiLower [⟨"Cola", 500, 1⟩] = [] := by decide
  refine ⟨h3, ?_, by decide, h0, ?_⟩
  · apply (generateComboSuggestions_spec asciiLower [⟨"Chicken Burger", 3000, 1⟩]
      ⟨[], false⟩).2.2.2.2.1.mpr
    rw [h3]
    decide
  · have hiff := (generateComboSuggestions_spec asciiLower [⟨"Cola", 500, 1⟩]
      ⟨[], true⟩).2.2.2.2.1
    cases hc : (generateComboSuggestions asciiLower [⟨"Cola", 500, 1⟩] ⟨[], true⟩).active with
    | false => rfl
    | true =>
      have := hiff.mp hc
      rw [h0] at this
      exact absurd rfl this

/-- Counterexample to C30 as stated: a cart of one item at the integer price 3.  In binary64
arithmetic `3 * 0.1` is `5404319552844596 / 2 ^ 54` (printed `0.30000000000000004`), which
`generateReceipt` records as the tax, while `showPaymentModal` rounds it to two decimals and
gets `5404319552844595 / 2 ^ 54` (printed `0.3`). -/
theorem quoted_tax_differs_counterexample :
    (∀ item ∈ [(⟨"Water", 3, 1⟩ : LineItem)], ∃ n : ℕ, item.price = n) ∧
    (generateReceiptTotals binary64 [⟨"Water", 3, 1⟩]).tax = 5404319552844596 / 2 ^ 54 ∧
    (showPaymentModalTotals binary64 [⟨"Water", 3, 1⟩]).tax = 5404319552844595 / 2 ^ 54 ∧
    (showPaymentModalTotals binary64 [⟨"Water", 3, 1⟩]).tax ≠
      (generateReceiptTotals binary64 [⟨"Water", 3, 1⟩]).tax := by
  have hS : calculateSubtotalFl binary64 [⟨"Water", 3, 1⟩] = 3 := by
    have h3 : binary64 (3 : ℚ) = 3 := by
      have := binary64_natCast 3 (by norm_num)
      simpa using this
    simp [calculateSubtotalFl, h3]
  have hmul : binary64 (3 * (3602879701896397 / 2 ^ 55)) = 5404319552844596 / 2 ^ 54 := by
    rw [binary64_scaled _ 54 (by norm_num) (by norm_num)]
    have hq : (3 * (3602879701896397 / 2 ^ 55) : ℚ) * 2 ^ 54
        = ((5404319552844595 : ℤ) : ℚ) + 1 / 2 := by norm_num
    rw [hq, roundHalfEven_tie]
    norm_num
  have hround : round2 (5404319552844596 / 2 ^ 54) = 3 / 10 := by
    have hfl : ⌊(5404319552844596 / 2 ^ 54 : ℚ) * 100 + 1 / 2⌋ = 30 := by
      rw [Int.floor_eq_iff]
      constructor <;> norm_num
    unfold round2
    rw [if_neg (by norm_num), hfl]
    norm_num
  have hback : binary64 (3 / 10) = 5404319552844595 / 2 ^ 54 := by
    rw [binary64_scaled _ 54 (by norm_num) (by norm_num)]
    have hr : roundHalfEven ((3 / 10 : ℚ) * 2 ^ 54) = 5404319552844595 := by
      apply roundHalfEven_near
      rw [abs_lt]
      constructor <;> norm_num
    rw [hr]
    norm_num
  have h1 : (generateReceiptTotals binary64 [⟨"Water", 3, 1⟩]).tax
      = 5404319552844596 / 2 ^ 54 := by
    simp only [generateReceiptTotals, hS, binary64_tenth, hmul]
  have h2 : (showPaymentModalTotals binary64 [⟨"Water", 3, 1⟩]).tax
      = 5404319552844595 / 2 ^ 54 := by
    simp only [showPaymentModalTotals, toFixed2, hS, binary64_tenth, hmul, hround, hback]
  refine ⟨?_, h1, h2, ?_⟩
  · intro item hi
    rw [List.mem_singleton] at hi
    subst hi
    exact ⟨3, by norm_num⟩
  · rw [h1, h2]
    norm_num

/-- C30, as amended. Quoted price equals charged price: for every non-empty cart whose unit
prices are non-negative integer multiples of 10, with non-negative quantities and a total
below `2 ^ 53`, the tax and total that `showPaymentModal` computes (each rounded to 2
decimals) are equal, in the binary64 arithmetic of the host, to the tax and total that
`generateReceipt` computes for the same cart: a tenth of the subtotal and the subtotal plus
that tenth.  The exact modal and the order handed on by `generateReceipt` carry these same
amounts. -/
theorem quoted_equals_charged (toLowerCase : String → String) (st : State)
    (orderId date : String) (hne : st.cart ≠ [])
    (hprice : ∀ item ∈ st.cart, ∃ n : ℕ, item.price = 10 * n)
    (hqty : ∀ item ∈ st.cart, 0 ≤ item.quantity)
    (hb : calculateSubtotal st.cart + calculateSubtotal st.cart / 10 < 2 ^ 53) :
    (showPaymentModalTotals binary64 st.cart).tax =
      (generateReceiptTotals binary64 st.cart).tax ∧
    (showPaymentModalTotals binary64 st.cart).total =
      (generateReceiptTotals binary64 st.cart).total ∧
    (generateReceiptTotals binary64 st.cart).tax = calculateSubtotal st.cart / 10 ∧
    (generateReceiptTotals binary64 st.cart).total =
      calculateSubtotal st.cart + calculateSubtotal st.cart / 10 ∧
    (showPaymentModal st).tax = (showPaymentModalTotals binary64 st.cart).tax ∧
    (showPaymentModal st).total = (showPaymentModalTotals binary64 st.cart).total ∧
    ∃ o : Order,
      ((generateReceipt toLowerCase st orderId date).2 = .placed o ∨
        (generateReceipt toLowerCase st orderId date).2 = .threw o) ∧
      o.tax = (generateReceiptTotals binary64 st.cart).tax ∧
      o.total = (generateReceiptTotals binary64 st.cart).total ∧
      o.tax = (showPaymentModal st).tax ∧ o.total = (showPaymentModal st).total := by
  obtain ⟨hg, hs⟩ := totals_of_tens st.cart hprice hqty hb
  obtain ⟨m1, m2, o1, o2⟩ := exact_totals_of_tens st orderId date hprice hqty
  rw [hg, hs]
  refine ⟨rfl, rfl, rfl, rfl, m1, m2, buildOrder st.cart orderId date,
    generateReceipt_result toLowerCase st orderId date hne, o1, o2, ?_, ?_⟩
  · rw [o1, m1]
  · rw [o2, m2]

/-- Witness for C30 as amended: two pizzas at 5000 are quoted and recorded with tax 1000 and total
11000. -/
theorem quoted_equals_charged_witness :
    (demoState [⟨"Pizza", 5000, 2⟩]).cart ≠ [] ∧
    (∀ item ∈ (demoState [⟨"Pizza", 5000, 2⟩]).cart, ∃ n : ℕ, item.price = 10 * n) ∧
    (showPaymentModalTotals binary64 (demoState [⟨"Pizza", 5000, 2⟩]).cart).tax =
      (generateReceiptTotals binary64 (demoState [⟨"Pizza", 5000, 2⟩]).cart).tax ∧
    (showPaymentModalTotals binary64 (demoState [⟨"Pizza", 5000, 2⟩]).cart).total =
      (generateReceiptTotals binary64 (demoState [⟨"Pizza", 5000, 2⟩]).cart).total ∧
    (generateReceiptTotals binary64 (demoState [⟨"Pizza", 5000, 2⟩]).cart).tax = 1000 ∧
    (generateReceiptTotals binary64 (demoState [⟨"Pizza", 5000, 2⟩]).cart).total = 11000 := by
  have hcart : (demoState [⟨"Pizza", 5000, 2⟩]).cart = [⟨"Pizza", 5000, 2⟩] := rfl
  have hsub : calculateSubtotal (demoState [⟨"Pizza", 5000, 2⟩]).cart = 10000 := by
    rw [hcart]
    norm_num [calculateSubtotal]
  have hne : (demoState [⟨"Pizza", 5000, 2⟩]).cart ≠ [] := by
    rw [hcart]
    simp
  have hprice : ∀ item ∈ (demoState [⟨"Pizza", 5000, 2⟩]).cart,
      ∃ n : ℕ, item.price = 10 * n := by
    intro item hi
    rw [hcart, List.mem_singleton] at hi
    subst hi
    exact ⟨500, by norm_num⟩
  have hqty : ∀ item ∈ (demoState [⟨"Pizza", 5000, 2⟩]).cart, 0 ≤ item.quantity := by
    intro item hi
    rw [hcart, List.mem_singleton] at hi
    subst hi
    decide
  obtain ⟨h1, h2, h3, h4, _⟩ :=
    quoted_equals_charged asciiLower (demoState [⟨"Pizza", 5000, 2⟩]) "K3X9" "d" hne hprice
      hqty (by rw [hsub]; norm_num)
  refine ⟨hne, hprice, h1, h2, ?_, ?_⟩
  · rw [h3, hsub]
    norm_num
  · rw [h4, hsub]
    norm_num

end FoodHub
